import Mathlib

/-!
# BillBreaker: balance computation and settlement planning

A shallow embedding of `backend/utils/balance.go`, with the parts of
`backend/models` it touches.

* Amounts are `float64` in the source, and the code is embedded twice. In the exact
  embedding (`CalculateBalances`, `CalculateSettlements`) an amount is a rational `ℚ`
  and no operation rounds. In the binary64 embedding (namespace `Binary64`, the same code
  line by line) an amount is an IEEE 754 binary64 value `F64`, and every `+=` and `-=`
  rounds to nearest, ties to even (`round64`); negation and the comparisons are exact.
  The two zeros are identified: the code only adds, subtracts, negates and compares
  amounts, and the two zeros compare equal. The binary64 code computes what the exact
  code computes as long as no sum is rounded (`loop_toBinary64`,
  `CalculateBalances_toBinary64`), and it differs from it as soon as one is.
* `map[string]*Balance` is modelled by an association list with unique keys;
  the order in which Go ranges over a map is unspecified, so it is a parameter
  (`rangeOrder`) of `CalculateBalances`.
* `json.Unmarshal` is a library function; it is a parameter (`unmarshal`).
* The two gorm queries of `CalculateBalances` are the two fields of `DB`.
* The `for { ... }` loop of `CalculateSettlements` has no bound in the source;
  `CalculateSettlements.loop` runs it for a given number of iterations, and
  `CalculateSettlements` is `none` when the loop has not reached `break` by then.
  The slice argument aliases the caller's backing array, so the model returns
  the final contents of that slice next to the transactions.
-/

namespace BillBreaker

/-! ## models -/

/-- The fields of `models.User` used by the balance code. -/
structure User where
  ID : String
  Name : String
deriving DecidableEq, Repr

/-- The fields of `models.Group` used by the balance code. -/
structure Group where
  ID : String
  Members : List User
deriving DecidableEq, Repr

/-- The struct `models.ExpenseSplit`. -/
structure ExpenseSplit where
  UserID : String
  Amount : ℚ
deriving DecidableEq, Repr

/-- The fields of `models.Expense` used by the balance code. -/
structure Expense where
  ID : String
  GroupID : String
  PaidBy : String
  Amount : ℚ
  SplitData : List UInt8
deriving DecidableEq, Repr

/-- The method `(*Expense).GetSplits`: decode `SplitData`, handing on the decoder's error. -/
def Expense.GetSplits (unmarshal : List UInt8 → Except String (List ExpenseSplit))
    (e : Expense) : Except String (List ExpenseSplit) :=
  match unmarshal e.SplitData with
  | .error err => .error err
  | .ok splits => .ok splits

deriving instance DecidableEq for Except

/-- The results of the two queries `CalculateBalances` sends to gorm. -/
structure DB where
  /-- Models `db.Where("group_id = ?", groupID).Preload("PaidByUser").Find(&expenses)`. -/
  findExpenses : String → Except String (List Expense)
  /-- Models `db.Preload("Members").First(&group, "id = ?", groupID)`. -/
  firstGroup : String → Except String Group

/-! ## utils/balance.go -/

/-- The struct `utils.Balance`. -/
structure Balance where
  UserID : String
  Name : String
  Amount : ℚ
deriving DecidableEq, Repr

/-- The struct `utils.SettlementTransaction`. -/
structure SettlementTransaction where
  From : String
  FromName : String
  To : String
  ToName : String
  Amount : ℚ
deriving DecidableEq, Repr

/-- Assignment `m[k] = v` on a `map[string]*Balance`: overwrite the entry of `k`, or add one. -/
def mapSet : List (String × Balance) → String → Balance → List (String × Balance)
  | [], k, v => [(k, v)]
  | (k', v') :: m, k, v => if k' = k then (k, v) :: m else (k', v') :: mapSet m k v

/-- The pattern `if bal, exists := m[k]; exists { *bal = f(*bal) }`. -/
def mapUpdate : List (String × Balance) → String → (Balance → Balance) → List (String × Balance)
  | [], _, _ => []
  | (k', v') :: m, k, f => if k' = k then (k', f v') :: m else (k', v') :: mapUpdate m k f

/-- `CalculateBalances`, lines 31-37: one zero balance per member of the group. -/
def CalculateBalances.init (members : List User) : List (String × Balance) :=
  members.foldl (fun balances member =>
    mapSet balances member.ID { UserID := member.ID, Name := member.Name, Amount := 0 }) []

/-- `CalculateBalances`, body of the loop of lines 40-57 for one expense. -/
def CalculateBalances.processExpense
    (unmarshal : List UInt8 → Except String (List ExpenseSplit))
    (balances : List (String × Balance)) (expense : Expense) : List (String × Balance) :=
  match expense.GetSplits unmarshal with
  | .error _ => balances
  | .ok splits =>
    let balances := mapUpdate balances expense.PaidBy
      (fun bal => { bal with Amount := bal.Amount + expense.Amount })
    splits.foldl (fun balances split =>
      mapUpdate balances split.UserID
        (fun bal => { bal with Amount := bal.Amount - split.Amount })) balances

/-- The function `CalculateBalances`. -/
def CalculateBalances
    (unmarshal : List UInt8 → Except String (List ExpenseSplit))
    (rangeOrder : List Balance → List Balance)
    (db : DB) (groupID : String) : Except String (List Balance) :=
  match db.findExpenses groupID with
  | .error err => .error err
  | .ok expenses =>
    match db.firstGroup groupID with
    | .error err => .error err
    | .ok group =>
      let balances := CalculateBalances.init group.Members
      let balances := expenses.foldl (CalculateBalances.processExpense unmarshal) balances
      .ok (rangeOrder (balances.map Prod.snd))

/-- Lines 83-90: the scan for the most negative amount, from index `i` on,
with the current `maxDebtIdx` and `maxDebt`. -/
def scanMaxDebt : List Balance → Nat → Nat → ℚ → Nat × ℚ
  | [], _, maxDebtIdx, maxDebt => (maxDebtIdx, maxDebt)
  | b :: rest, i, maxDebtIdx, maxDebt =>
    if b.Amount < maxDebt then scanMaxDebt rest (i + 1) i b.Amount
    else scanMaxDebt rest (i + 1) maxDebtIdx maxDebt

/-- Lines 93-100: the scan for the most positive amount. -/
def scanMaxCredit : List Balance → Nat → Nat → ℚ → Nat × ℚ
  | [], _, maxCreditIdx, maxCredit => (maxCreditIdx, maxCredit)
  | b :: rest, i, maxCreditIdx, maxCredit =>
    if b.Amount > maxCredit then scanMaxCredit rest (i + 1) i b.Amount
    else scanMaxCredit rest (i + 1) maxCreditIdx maxCredit

/-- The update `balances[i].Amount += x` on the slice. -/
def addAmountAt : List Balance → Nat → ℚ → List Balance
  | [], _, _ => []
  | b :: rest, 0, x => { b with Amount := b.Amount + x } :: rest
  | b :: rest, i + 1, x => b :: addAmountAt rest i x

/-- The value `balances[i]` (the index is in range wherever the loop reads it). -/
def balanceAt (balances : List Balance) (i : Nat) : Balance :=
  balances.getD i { UserID := "", Name := "", Amount := 0 }

/-- One pass through the body of the `for` loop of `CalculateSettlements`:
`none` at `break`, otherwise the appended transaction and the updated slice. -/
def CalculateSettlements.iter (balances : List Balance) :
    Option (SettlementTransaction × List Balance) :=
  let (maxDebtIdx, maxDebt) := scanMaxDebt balances 0 0 0
  let (maxCreditIdx, maxCredit) := scanMaxCredit balances 0 0 0
  if maxDebt = 0 ∨ maxCredit = 0 then none
  else
    let amount := if maxCredit < -maxDebt then maxCredit else maxDebt
    let amount := -amount
    let transaction : SettlementTransaction :=
      { From := (balanceAt balances maxDebtIdx).UserID
        FromName := (balanceAt balances maxDebtIdx).Name
        To := (balanceAt balances maxCreditIdx).UserID
        ToName := (balanceAt balances maxCreditIdx).Name
        Amount := amount }
    -- balances[maxDebtIdx].Amount += amount
    let balances := addAmountAt balances maxDebtIdx amount
    -- balances[maxCreditIdx].Amount -= amount
    let balances := addAmountAt balances maxCreditIdx (-amount)
    some (transaction, balances)

/-- The state of the loop of `CalculateSettlements`. -/
structure LoopState where
  transactions : List SettlementTransaction
  balances : List Balance
  /-- Whether `break` has been reached. -/
  done : Bool
deriving DecidableEq, Repr

/-- The loop of `CalculateSettlements`, run for at most `n` passes. -/
def CalculateSettlements.loop : Nat → List SettlementTransaction → List Balance → LoopState
  | 0, transactions, balances => ⟨transactions, balances, false⟩
  | n + 1, transactions, balances =>
    match CalculateSettlements.iter balances with
    | none => ⟨transactions, balances, true⟩
    | some (transaction, balances') =>
      CalculateSettlements.loop n (transactions ++ [transaction]) balances'

/-- The function `CalculateSettlements`: the returned transactions together with the
final contents of the caller's slice, or `none` when `fuel` passes do not reach `break`. -/
def CalculateSettlements (fuel : Nat) (balances : List Balance) :
    Option (List SettlementTransaction × List Balance) :=
  let s := CalculateSettlements.loop fuel [] balances
  if s.done then some (s.transactions, s.balances) else none

/-- The sum of the amounts of a list of balances. -/
def sumAmounts (balances : List Balance) : ℚ :=
  (balances.map Balance.Amount).sum

/-! ## Worked inputs -/

/-- Scenario 1 of the specification: A is owed 300, B owes 100, C owes 200. -/
def scenario1 : List Balance :=
  [⟨"A", "Ann", 300⟩, ⟨"B", "Bob", -100⟩, ⟨"C", "Cy", -200⟩]

/-- Balances summing to zero whose top credit (200) is below the top debt (300). -/
def smallCredit : List Balance :=
  [⟨"A", "Ann", 100⟩, ⟨"B", "Bob", 200⟩, ⟨"C", "Cy", -300⟩]

/-- Two balances of a tenth of a cent, one each way. -/
def tinyBalances : List Balance :=
  [⟨"A", "Ann", 1 / 1000⟩, ⟨"B", "Bob", -1 / 1000⟩]

/-- One creditor and two debtors with the same debt. -/
def tiedDebtors : List Balance :=
  [⟨"A", "Ann", 100⟩, ⟨"B", "Bob", -50⟩, ⟨"C", "Cy", -50⟩]

/-- The list `tiedDebtors` with its last two entries swapped. -/
def tiedDebtorsSwapped : List Balance :=
  [⟨"A", "Ann", 100⟩, ⟨"C", "Cy", -50⟩, ⟨"B", "Bob", -50⟩]

/-- Roster of the worked examples. -/
def sampleMembers : List User :=
  [⟨"A", "Ann"⟩, ⟨"B", "Bob"⟩, ⟨"C", "Cy"⟩]

/-- The member a payload byte of the worked examples stands for. -/
def sampleUserOf (user : UInt8) : String :=
  if user = 65 then "A" else if user = 66 then "B" else if user = 67 then "C" else "?"

/-- A stand-in for `json.Unmarshal` in the worked examples, on a toy wire format: the
payload is a sequence of byte pairs (member letter, amount); a dangling byte is an error. -/
def sampleUnmarshal : List UInt8 → Except String (List ExpenseSplit)
  | [] => .ok []
  | [_] => .error "unexpected end of input"
  | user :: amount :: rest =>
    match sampleUnmarshal rest with
    | .error err => .error err
    | .ok splits =>
      .ok (⟨sampleUserOf user, (amount.toNat : ℚ)⟩ :: splits)

/-- A database for the worked examples.
Group `g1` is scenario 2 of the specification: 90 paid by A, split 30 each among A, B, C.
Group `g2`: 90 paid by A with the single split A 30.
Group `g3`: 90 paid by A with a payload that does not decode. -/
def sampleDB : DB where
  findExpenses := fun groupID =>
    if groupID = "g1" then .ok [⟨"e1", "g1", "A", 90, [65, 30, 66, 30, 67, 30]⟩]
    else if groupID = "g2" then .ok [⟨"e2", "g2", "A", 90, [65, 30]⟩]
    else if groupID = "g3" then .ok [⟨"e3", "g3", "A", 90, [65]⟩]
    else .ok []
  firstGroup := fun groupID =>
    if groupID = "g1" ∨ groupID = "g2" ∨ groupID = "g3" then .ok ⟨groupID, sampleMembers⟩
    else .error "record not found"

/-- The decoded splits of an expense; none when the payload does not decode. -/
def splitsOf (unmarshal : List UInt8 → Except String (List ExpenseSplit))
    (e : Expense) : List ExpenseSplit :=
  match e.GetSplits unmarshal with
  | .error _ => []
  | .ok splits => splits

/-- The sum of `Amount` over the expenses with `PaidBy = m`. -/
def totalPaid (expenses : List Expense) (m : String) : ℚ :=
  ((expenses.filter (fun e => e.PaidBy = m)).map Expense.Amount).sum

/-- The sum of split `Amount` over all splits with `UserID = m` of all expenses. -/
def totalOwed (unmarshal : List UInt8 → Except String (List ExpenseSplit))
    (expenses : List Expense) (m : String) : ℚ :=
  (((expenses.map (splitsOf unmarshal)).flatten.filter (fun s => s.UserID = m)).map
    ExpenseSplit.Amount).sum

/-- What one expense adds to the balance of member `k`: nothing when its payload does
not decode, otherwise its amount if `k` paid it, less the splits in the name of `k`. -/
def contribution (unmarshal : List UInt8 → Except String (List ExpenseSplit))
    (e : Expense) (k : String) : ℚ :=
  match e.GetSplits unmarshal with
  | .error _ => 0
  | .ok splits =>
    (if e.PaidBy = k then e.Amount else 0)
      - ((splits.filter (fun s => s.UserID = k)).map ExpenseSplit.Amount).sum

/-- Add `g k` to the amount of the entry of every key `k` of a balance map. -/
def mapAddEach (m : List (String × Balance)) (g : String → ℚ) : List (String × Balance) :=
  m.map (fun kv => (kv.1, { kv.2 with Amount := kv.2.Amount + g kv.1 }))

/-- Whether the split payload of an expense decodes. -/
def decodes (unmarshal : List UInt8 → Except String (List ExpenseSplit)) (e : Expense) : Bool :=
  match e.GetSplits unmarshal with
  | .error _ => false
  | .ok _ => true

/-- The decoder `unmarshal` followed by the removal of every split whose `UserID` is not
among `ids`. -/
def knownSplitsOnly (ids : List String)
    (unmarshal : List UInt8 → Except String (List ExpenseSplit)) :
    List UInt8 → Except String (List ExpenseSplit) :=
  fun data =>
    match unmarshal data with
    | .error err => .error err
    | .ok splits => .ok (splits.filter (fun s => s.UserID ∈ ids))

/-- The expense with nothing to credit when its `PaidBy` is not among `ids`. -/
def omitUnknownPayerCredit (ids : List String) (e : Expense) : Expense :=
  if e.PaidBy ∈ ids then e else { e with Amount := 0 }

/-- A database holding one group: every group id gets the roster `members`, and the
expense query returns `expenses`. -/
def oneGroupDB (members : List User) (expenses : List Expense) : DB where
  findExpenses := fun _ => .ok expenses
  firstGroup := fun groupID => .ok ⟨groupID, members⟩

/-- An expense of 90 paid by A, split 30 each among A, B and C. -/
def dinner : Expense := ⟨"e1", "g", "A", 90, [65, 30, 66, 30, 67, 30]⟩

/-- An expense of 40 paid by B, split 20 each between B and C. -/
def taxi : Expense := ⟨"e2", "g", "B", 40, [66, 20, 67, 20]⟩

/-- An expense of 90 paid by A whose payload does not decode. -/
def garbled : Expense := ⟨"e3", "g", "A", 90, [65]⟩

/-- An expense of 50 paid by Z, who is not in the roster, split 25 to A and 25 to a
member the roster does not know either. -/
def stranger : Expense := ⟨"e4", "g", "Z", 50, [65, 25, 90, 25]⟩

/-! ## handlers/balance.go -/

/-- The struct `handlers.BalanceResponse`. -/
structure BalanceResponse where
  Balances : List Balance
  Settlements : List SettlementTransaction
deriving DecidableEq, Repr

/-- What `GetGroupBalances` hands to `c.JSON`: a status code with either an error message
or a `BalanceResponse`. -/
inductive Response where
  | failure (status : Nat) (message : String)
  | balances (status : Nat) (body : BalanceResponse)
deriving DecidableEq, Repr

/-- The handler `GetGroupBalances`, for the path parameter `groupId`. The slice handed to
`CalculateSettlements` is the one the response is built from afterwards. The result is
`none` when the loop of `CalculateSettlements` does not reach `break` within `fuel`. -/
def GetGroupBalances
    (unmarshal : List UInt8 → Except String (List ExpenseSplit))
    (rangeOrder : List Balance → List Balance)
    (db : DB) (fuel : Nat) (groupID : String) : Option Response :=
  match CalculateBalances unmarshal rangeOrder db groupID with
  | .error _ => some (.failure 500 "failed to calculate balances")
  | .ok balances =>
    match CalculateSettlements fuel balances with
    | none => none
    | some (settlements, balances) =>
      some (.balances 200 { Balances := balances, Settlements := settlements })

/-- The transaction by which `debtor` pays off its whole debt to `creditor`. -/
def payment (debtor creditor : Balance) : SettlementTransaction :=
  { From := debtor.UserID, FromName := debtor.Name,
    To := creditor.UserID, ToName := creditor.Name, Amount := -debtor.Amount }

/-- Two creditors with the same credit, listed B before A, and one debtor. -/
def tiedCreditors : List Balance :=
  [⟨"B", "Bob", 50⟩, ⟨"A", "Ann", 50⟩, ⟨"C", "Cy", -100⟩]

/-- One creditor and three debtors, two of them with the same debt; the amounts sum to zero. -/
def oneCreditor : List Balance :=
  [⟨"B", "Bob", -50⟩, ⟨"A", "Ann", 180⟩, ⟨"C", "Cy", -80⟩, ⟨"D", "Dee", -50⟩]

/-- Pay one transaction on a list of balances, the members found by their ids:
`from`'s amount `+= amount`, `to`'s amount `-= amount`. -/
def applyTransaction (balances : List Balance) (t : SettlementTransaction) : List Balance :=
  (balances.map (fun b =>
      if b.UserID = t.From then { b with Amount := b.Amount + t.Amount } else b)).map
    (fun b => if b.UserID = t.To then { b with Amount := b.Amount - t.Amount } else b)

/-- Pay a sequence of transactions, in order. -/
def applyTransactions (balances : List Balance) (ts : List SettlementTransaction) :
    List Balance :=
  ts.foldl applyTransaction balances

/-! ## binary64 arithmetic

The definitions above compute amounts in exact arithmetic. The ones below compute them as
the code does, in IEEE 754 binary64 (`float64`), rounding every sum to the nearest
representable value, ties to even. -/

/-- An IEEE 754 binary64 value: NaN, an infinity with its sign, or a finite value
(the two signed zeros are identified; no operation of the code tells them apart). -/
inductive F64 where
  | nan
  | inf (negative : Bool)
  | fin (q : ℚ)
deriving DecidableEq, Repr

/-- The power `2 ^ k` for an integer exponent. -/
def pow2 (k : Int) : ℚ :=
  if 0 ≤ k then (2 : ℚ) ^ k.toNat else 1 / (2 : ℚ) ^ (-k).toNat

/-- The number of halvings that bring `n` below 2, with `fuel` as a bound on them. -/
def log2Fuel : Nat → Nat → Nat
  | 0, _ => 0
  | fuel + 1, n => if n < 2 then 0 else log2Fuel fuel (n / 2) + 1

/-- The largest `k` with `2 ^ k ≤ n`, for `n > 0`. -/
def natLog2 (n : Nat) : Nat := log2Fuel n n

/-- The largest `k` with `2 ^ k ≤ q`, for `q > 0`. -/
def floorLog2 (q : ℚ) : Int :=
  let k : Int := (natLog2 q.num.natAbs : Int) - (natLog2 q.den : Int)
  if pow2 k ≤ q then k else k - 1

/-- Round to the nearest integer, ties to the even one. -/
def roundHalfEven (x : ℚ) : Int :=
  let f := ⌊x⌋
  let r := x - f
  if r < 1 / 2 then f
  else if 1 / 2 < r then f + 1
  else if f % 2 = 0 then f else f + 1

/-- Rounding of an exact result to binary64, to nearest, ties to even: 53 significant bits,
gradual underflow below `2 ^ (-1022)`, overflow to an infinity from `2 ^ 1024` on. -/
def round64 (q : ℚ) : F64 :=
  if q = 0 then .fin 0
  else
    let e := max (floorLog2 |q|) (-1022)
    let quantum := pow2 (e - 52)
    let r : ℚ := (roundHalfEven (q / quantum) : ℚ) * quantum
    if pow2 1024 ≤ |r| then .inf (decide (q < 0)) else .fin r

/-- Unary minus on binary64. -/
def F64.neg : F64 → F64
  | .nan => .nan
  | .inf s => .inf (!s)
  | .fin q => .fin (-q)

/-- The operator `+` on binary64. -/
def F64.add : F64 → F64 → F64
  | .fin a, .fin b => round64 (a + b)
  | .fin _, .inf s => .inf s
  | .inf s, .fin _ => .inf s
  | .inf s, .inf s' => if s = s' then .inf s else .nan
  | .nan, _ => .nan
  | _, .nan => .nan

/-- The operator `-` on binary64. -/
def F64.sub (a b : F64) : F64 := F64.add a (F64.neg b)

/-- The operator `<` on binary64; false when an operand is NaN. -/
def F64.lt : F64 → F64 → Bool
  | .fin a, .fin b => decide (a < b)
  | .fin _, .inf s => !s
  | .inf s, .fin _ => s
  | .inf s, .inf s' => s && !s'
  | .nan, _ => false
  | _, .nan => false

/-- The operator `==` on binary64; false when an operand is NaN. -/
def F64.eq : F64 → F64 → Bool
  | .fin a, .fin b => decide (a = b)
  | .inf s, .inf s' => decide (s = s')
  | _, _ => false

namespace Binary64

/-- The struct `utils.Balance`, with its `float64` amount. -/
structure Balance where
  UserID : String
  Name : String
  Amount : F64
deriving DecidableEq, Repr

/-- The struct `utils.SettlementTransaction`, with its `float64` amount. -/
structure SettlementTransaction where
  From : String
  FromName : String
  To : String
  ToName : String
  Amount : F64
deriving DecidableEq, Repr

/-- Lines 83-90: the scan for the most negative amount, from index `i` on,
with the current `maxDebtIdx` and `maxDebt`. -/
def scanMaxDebt : List Balance → Nat → Nat → F64 → Nat × F64
  | [], _, maxDebtIdx, maxDebt => (maxDebtIdx, maxDebt)
  | b :: rest, i, maxDebtIdx, maxDebt =>
    if F64.lt b.Amount maxDebt then scanMaxDebt rest (i + 1) i b.Amount
    else scanMaxDebt rest (i + 1) maxDebtIdx maxDebt

/-- Lines 93-100: the scan for the most positive amount. -/
def scanMaxCredit : List Balance → Nat → Nat → F64 → Nat × F64
  | [], _, maxCreditIdx, maxCredit => (maxCreditIdx, maxCredit)
  | b :: rest, i, maxCreditIdx, maxCredit =>
    if F64.lt maxCredit b.Amount then scanMaxCredit rest (i + 1) i b.Amount
    else scanMaxCredit rest (i + 1) maxCreditIdx maxCredit

/-- The update `balances[i].Amount += x` on the slice. -/
def addAmountAt : List Balance → Nat → F64 → List Balance
  | [], _, _ => []
  | b :: rest, 0, x => { b with Amount := F64.add b.Amount x } :: rest
  | b :: rest, i + 1, x => b :: addAmountAt rest i x

/-- The update `balances[i].Amount -= x` on the slice. -/
def subAmountAt : List Balance → Nat → F64 → List Balance
  | [], _, _ => []
  | b :: rest, 0, x => { b with Amount := F64.sub b.Amount x } :: rest
  | b :: rest, i + 1, x => b :: subAmountAt rest i x

/-- The value `balances[i]` (the index is in range wherever the loop reads it). -/
def balanceAt (balances : List Balance) (i : Nat) : Balance :=
  balances.getD i { UserID := "", Name := "", Amount := .fin 0 }

/-- One pass through the body of the `for` loop of `CalculateSettlements`:
`none` at `break`, otherwise the appended transaction and the updated slice. -/
def CalculateSettlements.iter (balances : List Balance) :
    Option (SettlementTransaction × List Balance) :=
  let (maxDebtIdx, maxDebt) := scanMaxDebt balances 0 0 (.fin 0)
  let (maxCreditIdx, maxCredit) := scanMaxCredit balances 0 0 (.fin 0)
  if F64.eq maxDebt (.fin 0) || F64.eq maxCredit (.fin 0) then none
  else
    let amount := if F64.lt maxCredit (F64.neg maxDebt) then maxCredit else maxDebt
    let amount := F64.neg amount
    let transaction : SettlementTransaction :=
      { From := (balanceAt balances maxDebtIdx).UserID
        FromName := (balanceAt balances maxDebtIdx).Name
        To := (balanceAt balances maxCreditIdx).UserID
        ToName := (balanceAt balances maxCreditIdx).Name
        Amount := amount }
    let balances := addAmountAt balances maxDebtIdx amount
    let balances := subAmountAt balances maxCreditIdx amount
    some (transaction, balances)

/-- The state of the loop of `CalculateSettlements`. -/
structure LoopState where
  transactions : List SettlementTransaction
  balances : List Balance
  /-- Whether `break` has been reached. -/
  done : Bool
deriving DecidableEq, Repr

/-- The loop of `CalculateSettlements`, run for at most `n` passes. -/
def CalculateSettlements.loop : Nat → List SettlementTransaction → List Balance → LoopState
  | 0, transactions, balances => ⟨transactions, balances, false⟩
  | n + 1, transactions, balances =>
    match CalculateSettlements.iter balances with
    | none => ⟨transactions, balances, true⟩
    | some (transaction, balances') =>
      CalculateSettlements.loop n (transactions ++ [transaction]) balances'

/-- The function `CalculateSettlements`: the returned transactions together with the
final contents of the caller's slice, or `none` when `fuel` passes do not reach `break`. -/
def CalculateSettlements (fuel : Nat) (balances : List Balance) :
    Option (List SettlementTransaction × List Balance) :=
  let s := CalculateSettlements.loop fuel [] balances
  if s.done then some (s.transactions, s.balances) else none

end Binary64

/-- A balance of the exact model as a `float64` balance. -/
def Balance.toBinary64 (b : Balance) : Binary64.Balance :=
  { UserID := b.UserID, Name := b.Name, Amount := .fin b.Amount }

/-- A transaction of the exact model as a `float64` transaction. -/
def SettlementTransaction.toBinary64 (t : SettlementTransaction) :
    Binary64.SettlementTransaction :=
  { From := t.From, FromName := t.FromName, To := t.To, ToName := t.ToName,
    Amount := .fin t.Amount }

/-- A list of balances of the exact model as `float64` balances. -/
def toBinary64 (l : List Balance) : List Binary64.Balance :=
  l.map Balance.toBinary64

/-- A loop state of the exact model as a `float64` loop state. -/
def LoopState.toBinary64 (s : LoopState) : Binary64.LoopState :=
  { transactions := s.transactions.map SettlementTransaction.toBinary64,
    balances := s.balances.map Balance.toBinary64, done := s.done }

/-- Every amount of the list is a binary64 value: rounding leaves it as it is. -/
def Representable (l : List Balance) : Prop :=
  ∀ b ∈ l, round64 b.Amount = .fin b.Amount

namespace Binary64

/-- The struct `models.ExpenseSplit`, with its `float64` amount. -/
structure ExpenseSplit where
  UserID : String
  Amount : F64
deriving DecidableEq, Repr

/-- The fields of `models.Expense` used by the balance code, with its `float64` amount. -/
structure Expense where
  ID : String
  GroupID : String
  PaidBy : String
  Amount : F64
  SplitData : List UInt8
deriving DecidableEq, Repr

/-- The method `(*Expense).GetSplits`: decode `SplitData`, handing on the decoder's error. -/
def Expense.GetSplits (unmarshal : List UInt8 → Except String (List ExpenseSplit))
    (e : Expense) : Except String (List ExpenseSplit) :=
  match unmarshal e.SplitData with
  | .error err => .error err
  | .ok splits => .ok splits

/-- The results of the two queries `CalculateBalances` sends to gorm. -/
structure DB where
  /-- Models `db.Where("group_id = ?", groupID).Preload("PaidByUser").Find(&expenses)`. -/
  findExpenses : String → Except String (List Expense)
  /-- Models `db.Preload("Members").First(&group, "id = ?", groupID)`. -/
  firstGroup : String → Except String Group

/-- Assignment `m[k] = v` on a `map[string]*Balance`: overwrite the entry of `k`, or add one. -/
def mapSet : List (String × Balance) → String → Balance → List (String × Balance)
  | [], k, v => [(k, v)]
  | (k', v') :: m, k, v => if k' = k then (k, v) :: m else (k', v') :: mapSet m k v

/-- The pattern `if bal, exists := m[k]; exists { *bal = f(*bal) }`. -/
def mapUpdate : List (String × Balance) → String → (Balance → Balance) → List (String × Balance)
  | [], _, _ => []
  | (k', v') :: m, k, f => if k' = k then (k', f v') :: m else (k', v') :: mapUpdate m k f

/-- `CalculateBalances`, lines 31-37: one zero balance per member of the group. -/
def CalculateBalances.init (members : List User) : List (String × Balance) :=
  members.foldl (fun balances member =>
    mapSet balances member.ID { UserID := member.ID, Name := member.Name, Amount := .fin 0 }) []

/-- `CalculateBalances`, body of the loop of lines 40-57 for one expense. -/
def CalculateBalances.processExpense
    (unmarshal : List UInt8 → Except String (List ExpenseSplit))
    (balances : List (String × Balance)) (expense : Expense) : List (String × Balance) :=
  match expense.GetSplits unmarshal with
  | .error _ => balances
  | .ok splits =>
    let balances := mapUpdate balances expense.PaidBy
      (fun bal => { bal with Amount := F64.add bal.Amount expense.Amount })
    splits.foldl (fun balances split =>
      mapUpdate balances split.UserID
        (fun bal => { bal with Amount := F64.sub bal.Amount split.Amount })) balances

/-- The function `CalculateBalances`. -/
def CalculateBalances
    (unmarshal : List UInt8 → Except String (List ExpenseSplit))
    (rangeOrder : List Balance → List Balance)
    (db : DB) (groupID : String) : Except String (List Balance) :=
  match db.findExpenses groupID with
  | .error err => .error err
  | .ok expenses =>
    match db.firstGroup groupID with
    | .error err => .error err
    | .ok group =>
      let balances := CalculateBalances.init group.Members
      let balances := expenses.foldl (CalculateBalances.processExpense unmarshal) balances
      .ok (rangeOrder (balances.map Prod.snd))

/-- What paying one transaction on a list of balances means (no function of the source
does it; a transaction names its two members by their ids, so they are found by id):
`from`'s amount `+= amount`, `to`'s amount `-= amount`, in binary64. -/
def applyTransaction (balances : List Balance) (t : SettlementTransaction) : List Balance :=
  (balances.map (fun b =>
      if b.UserID = t.From then { b with Amount := F64.add b.Amount t.Amount } else b)).map
    (fun b => if b.UserID = t.To then { b with Amount := F64.sub b.Amount t.Amount } else b)

/-- Pay a sequence of transactions, in order. -/
def applyTransactions (balances : List Balance) (ts : List SettlementTransaction) :
    List Balance :=
  ts.foldl applyTransaction balances

/-- A stand-in for `json.Unmarshal` in the worked examples, on a toy wire format: the
payload is a sequence of byte pairs (member letter, amount in tenths), and each amount is
the binary64 value nearest to that decimal; a dangling byte is an error. -/
def sampleUnmarshal : List UInt8 → Except String (List ExpenseSplit)
  | [] => .ok []
  | [_] => .error "unexpected end of input"
  | user :: amount :: rest =>
    match sampleUnmarshal rest with
    | .error err => .error err
    | .ok splits =>
      .ok (⟨sampleUserOf user, round64 ((amount.toNat : ℚ) / 10)⟩ :: splits)

/-- A database with the one member A, who paid 0.3 twice, each time with the split A 0.1. -/
def tenthsDB : DB where
  findExpenses := fun _ =>
    .ok [⟨"e1", "g", "A", round64 (3 / 10), [65, 1]⟩, ⟨"e2", "g", "A", round64 (3 / 10), [65, 1]⟩]
  firstGroup := fun groupID => .ok ⟨groupID, [⟨"A", "Ann"⟩]⟩

/-- The decimal amounts of a list of balances as the code receives them: each the binary64
value nearest to it. -/
def ofDecimals (l : List BillBreaker.Balance) : List Balance :=
  l.map (fun b => { UserID := b.UserID, Name := b.Name, Amount := round64 b.Amount })

end Binary64

/-- The value of a finite binary64 (0 for NaN and the infinities). -/
def F64.toRat : F64 → ℚ
  | .fin q => q
  | _ => 0

/-- The decimal balances 26.48, -6.60, -10.17, -9.71. -/
def cents1 : List Balance :=
  [⟨"A", "Ann", 2648 / 100⟩, ⟨"B", "Bob", -660 / 100⟩, ⟨"C", "Cy", -1017 / 100⟩,
    ⟨"D", "Dee", -971 / 100⟩]

/-- The decimal balances 595.13, -216.02, -179.57, -199.54. -/
def cents2 : List Balance :=
  [⟨"A", "Ann", 59513 / 100⟩, ⟨"B", "Bob", -21602 / 100⟩, ⟨"C", "Cy", -17957 / 100⟩,
    ⟨"D", "Dee", -19954 / 100⟩]

/-- The decimal balances 272.25, -107.24, -61.22, -103.79. -/
def cents3 : List Balance :=
  [⟨"A", "Ann", 27225 / 100⟩, ⟨"B", "Bob", -10724 / 100⟩, ⟨"C", "Cy", -6122 / 100⟩,
    ⟨"D", "Dee", -10379 / 100⟩]

/-- Every amount of the list is a whole number of magnitude below `2 ^ 53`. -/
def WholeBelow53 (l : List Balance) : Prop :=
  ∀ b ∈ l, ∃ z : ℤ, b.Amount = (z : ℚ) ∧ |z| < 2 ^ 53

/-- Whether every amount of a list is a binary64 value can be computed. -/
instance (l : List Balance) : Decidable (Representable l) :=
  inferInstanceAs (Decidable (∀ b ∈ l, round64 b.Amount = .fin b.Amount))

/-- The exact sum of the values of a list of binary64 balances. -/
def Binary64.sumAmounts (balances : List Binary64.Balance) : ℚ :=
  (balances.map (fun b => F64.toRat b.Amount)).sum

/-- A split of the exact model as a `float64` split. -/
def ExpenseSplit.toBinary64 (s : ExpenseSplit) : Binary64.ExpenseSplit :=
  { UserID := s.UserID, Amount := .fin s.Amount }

/-- An expense of the exact model as a `float64` expense. -/
def Expense.toBinary64 (e : Expense) : Binary64.Expense :=
  { ID := e.ID, GroupID := e.GroupID, PaidBy := e.PaidBy, Amount := .fin e.Amount,
    SplitData := e.SplitData }

/-- A decoder of exact amounts, read as a decoder of binary64 amounts. -/
def unmarshalBinary64 (unmarshal : List UInt8 → Except String (List ExpenseSplit)) :
    List UInt8 → Except String (List Binary64.ExpenseSplit) :=
  fun data =>
    match unmarshal data with
    | .error err => .error err
    | .ok splits => .ok (splits.map ExpenseSplit.toBinary64)

/-- A database of exact amounts, read as a database of binary64 amounts. -/
def DB.toBinary64 (db : DB) : Binary64.DB where
  findExpenses := fun groupID =>
    match db.findExpenses groupID with
    | .error err => .error err
    | .ok expenses => .ok (expenses.map Expense.toBinary64)
  firstGroup := db.firstGroup

/-- A balance map of exact amounts, read as a balance map of binary64 amounts. -/
def mapToBinary64 (m : List (String × Balance)) : List (String × Binary64.Balance) :=
  m.map (fun kv => (kv.1, kv.2.toBinary64))

/-- Every expense amount and every decoded split amount is a whole number, and the
magnitudes of all of them together stay below `2 ^ 53`. -/
def WholeExpenses (unmarshal : List UInt8 → Except String (List ExpenseSplit))
    (expenses : List Expense) : Prop :=
  (∀ e ∈ expenses, (∃ z : ℤ, e.Amount = (z : ℚ)) ∧
    ∀ s ∈ splitsOf unmarshal e, ∃ z : ℤ, s.Amount = (z : ℚ)) ∧
  (expenses.map (fun e =>
    |e.Amount| + ((splitsOf unmarshal e).map (fun s => |s.Amount|)).sum)).sum < 2 ^ 53

/-- Every amount of the balance map is a whole number of magnitude at most `bound`. -/
def WholeMap (bound : ℚ) (m : List (String × Balance)) : Prop :=
  ∀ kv ∈ m, (∃ z : ℤ, kv.2.Amount = (z : ℚ)) ∧ |kv.2.Amount| ≤ bound

/-! ## The loop and its fuel -/

theorem loop_done_add (k : Nat) :
    ∀ (n : Nat) (ts : List SettlementTransaction) (bs : List Balance),
      (CalculateSettlements.loop n ts bs).done = true →
      CalculateSettlements.loop (n + k) ts bs = CalculateSettlements.loop n ts bs := by
  intro n
  induction n with
  | zero => intro ts bs h; simp [CalculateSettlements.loop] at h
  | succ n ih =>
    intro ts bs h
    have e : n + 1 + k = (n + k) + 1 := by omega
    rw [e]
    unfold CalculateSettlements.loop at h ⊢
    cases hi : CalculateSettlements.iter bs with
    | none => rfl
    | some r =>
      obtain ⟨t, bs'⟩ := r
      rw [hi] at h
      exact ih _ _ h

theorem CalculateSettlements_fuel_add (n k : Nat) (bs : List Balance)
    (r : List SettlementTransaction × List Balance)
    (h : CalculateSettlements n bs = some r) : CalculateSettlements (n + k) bs = some r := by
  unfold CalculateSettlements at h ⊢
  by_cases hd : (CalculateSettlements.loop n [] bs).done = true
  · rw [loop_done_add k n [] bs hd]; exact h
  · simp [hd] at h

/-! ## The two scans -/

theorem scanMaxDebt_spec (l : List Balance) :
    ∀ (i idx : Nat) (m : ℚ),
      (scanMaxDebt l i idx m).2 ≤ m ∧
      (∀ b ∈ l, (scanMaxDebt l i idx m).2 ≤ b.Amount) ∧
      (((scanMaxDebt l i idx m).2 = m ∧ (scanMaxDebt l i idx m).1 = idx) ∨
        ((scanMaxDebt l i idx m).2 < m ∧ i ≤ (scanMaxDebt l i idx m).1 ∧
          ∃ b, l[(scanMaxDebt l i idx m).1 - i]? = some b ∧
            b.Amount = (scanMaxDebt l i idx m).2)) := by
  induction l with
  | nil => intro i idx m; simp [scanMaxDebt]
  | cons b rest ih =>
    intro i idx m
    by_cases hb : b.Amount < m
    · have e : scanMaxDebt (b :: rest) i idx m = scanMaxDebt rest (i + 1) i b.Amount := by
        simp [scanMaxDebt, hb]
      rw [e]
      obtain ⟨h1, h2, h3⟩ := ih (i + 1) i b.Amount
      refine ⟨le_trans h1 hb.le, ?_, Or.inr ?_⟩
      · intro b' hb'
        rcases List.mem_cons.1 hb' with rfl | hb'
        · exact h1
        · exact h2 b' hb'
      · rcases h3 with ⟨h3, h4⟩ | ⟨h3, h4, b', h5, h6⟩
        · refine ⟨by rw [h3]; exact hb, by rw [h4], b, ?_, h3.symm⟩
          rw [h4]; simp
        · refine ⟨lt_trans h3 hb, by omega, b', ?_, h6⟩
          have e2 : (scanMaxDebt rest (i + 1) i b.Amount).1 - i
              = ((scanMaxDebt rest (i + 1) i b.Amount).1 - (i + 1)) + 1 := by omega
          rw [e2]; simpa using h5
    · have e : scanMaxDebt (b :: rest) i idx m = scanMaxDebt rest (i + 1) idx m := by
        simp [scanMaxDebt, hb]
      rw [e]
      obtain ⟨h1, h2, h3⟩ := ih (i + 1) idx m
      refine ⟨h1, ?_, ?_⟩
      · intro b' hb'
        rcases List.mem_cons.1 hb' with rfl | hb'
        · exact le_trans h1 (not_lt.1 hb)
        · exact h2 b' hb'
      · rcases h3 with ⟨h3, h4⟩ | ⟨h3, h4, b', h5, h6⟩
        · exact Or.inl ⟨h3, h4⟩
        · refine Or.inr ⟨h3, by omega, b', ?_, h6⟩
          have e2 : (scanMaxDebt rest (i + 1) idx m).1 - i
              = ((scanMaxDebt rest (i + 1) idx m).1 - (i + 1)) + 1 := by omega
          rw [e2]; simpa using h5

theorem scanMaxCredit_spec (l : List Balance) :
    ∀ (i idx : Nat) (m : ℚ),
      m ≤ (scanMaxCredit l i idx m).2 ∧
      (∀ b ∈ l, b.Amount ≤ (scanMaxCredit l i idx m).2) ∧
      (((scanMaxCredit l i idx m).2 = m ∧ (scanMaxCredit l i idx m).1 = idx) ∨
        (m < (scanMaxCredit l i idx m).2 ∧ i ≤ (scanMaxCredit l i idx m).1 ∧
          ∃ b, l[(scanMaxCredit l i idx m).1 - i]? = some b ∧
            b.Amount = (scanMaxCredit l i idx m).2)) := by
  induction l with
  | nil => intro i idx m; simp [scanMaxCredit]
  | cons b rest ih =>
    intro i idx m
    by_cases hb : b.Amount > m
    · have e : scanMaxCredit (b :: rest) i idx m = scanMaxCredit rest (i + 1) i b.Amount := by
        simp [scanMaxCredit, hb]
      rw [e]
      obtain ⟨h1, h2, h3⟩ := ih (i + 1) i b.Amount
      refine ⟨le_trans (le_of_lt hb) h1, ?_, Or.inr ?_⟩
      · intro b' hb'
        rcases List.mem_cons.1 hb' with rfl | hb'
        · exact h1
        · exact h2 b' hb'
      · rcases h3 with ⟨h3, h4⟩ | ⟨h3, h4, b', h5, h6⟩
        · refine ⟨by rw [h3]; exact hb, by rw [h4], b, ?_, h3.symm⟩
          rw [h4]; simp
        · refine ⟨lt_trans hb h3, by omega, b', ?_, h6⟩
          have e2 : (scanMaxCredit rest (i + 1) i b.Amount).1 - i
              = ((scanMaxCredit rest (i + 1) i b.Amount).1 - (i + 1)) + 1 := by omega
          rw [e2]; simpa using h5
    · have e : scanMaxCredit (b :: rest) i idx m = scanMaxCredit rest (i + 1) idx m := by
        simp [scanMaxCredit, hb]
      rw [e]
      obtain ⟨h1, h2, h3⟩ := ih (i + 1) idx m
      refine ⟨h1, ?_, ?_⟩
      · intro b' hb'
        rcases List.mem_cons.1 hb' with rfl | hb'
        · exact le_trans (not_lt.1 hb) h1
        · exact h2 b' hb'
      · rcases h3 with ⟨h3, h4⟩ | ⟨h3, h4, b', h5, h6⟩
        · exact Or.inl ⟨h3, h4⟩
        · refine Or.inr ⟨h3, by omega, b', ?_, h6⟩
          have e2 : (scanMaxCredit rest (i + 1) idx m).1 - i
              = ((scanMaxCredit rest (i + 1) idx m).1 - (i + 1)) + 1 := by omega
          rw [e2]; simpa using h5

theorem maxDebt_nonpos (l : List Balance) : (scanMaxDebt l 0 0 0).2 ≤ 0 :=
  (scanMaxDebt_spec l 0 0 0).1

theorem maxDebt_le (l : List Balance) (b : Balance) (hb : b ∈ l) :
    (scanMaxDebt l 0 0 0).2 ≤ b.Amount :=
  (scanMaxDebt_spec l 0 0 0).2.1 b hb

theorem maxDebt_attained (l : List Balance) (h : (scanMaxDebt l 0 0 0).2 ≠ 0) :
    ∃ b, l[(scanMaxDebt l 0 0 0).1]? = some b ∧ b.Amount = (scanMaxDebt l 0 0 0).2 := by
  rcases (scanMaxDebt_spec l 0 0 0).2.2 with ⟨h1, _⟩ | ⟨_, _, b, h2, h3⟩
  · exact absurd h1 h
  · exact ⟨b, by simpa using h2, h3⟩

theorem maxCredit_nonneg (l : List Balance) : 0 ≤ (scanMaxCredit l 0 0 0).2 :=
  (scanMaxCredit_spec l 0 0 0).1

theorem le_maxCredit (l : List Balance) (b : Balance) (hb : b ∈ l) :
    b.Amount ≤ (scanMaxCredit l 0 0 0).2 :=
  (scanMaxCredit_spec l 0 0 0).2.1 b hb

theorem maxCredit_attained (l : List Balance) (h : (scanMaxCredit l 0 0 0).2 ≠ 0) :
    ∃ b, l[(scanMaxCredit l 0 0 0).1]? = some b ∧ b.Amount = (scanMaxCredit l 0 0 0).2 := by
  rcases (scanMaxCredit_spec l 0 0 0).2.2 with ⟨h1, _⟩ | ⟨_, _, b, h2, h3⟩
  · exact absurd h1 h
  · exact ⟨b, by simpa using h2, h3⟩

/-! ## One pass of the loop -/

theorem iter_eq_none (l : List Balance)
    (h : (scanMaxDebt l 0 0 0).2 = 0 ∨ (scanMaxCredit l 0 0 0).2 = 0) :
    CalculateSettlements.iter l = none := by
  unfold CalculateSettlements.iter
  simp [h]

theorem iter_eq_some (l : List Balance)
    (hd : (scanMaxDebt l 0 0 0).2 ≠ 0) (hc : (scanMaxCredit l 0 0 0).2 ≠ 0) :
    CalculateSettlements.iter l =
      some
        ({ From := (balanceAt l (scanMaxDebt l 0 0 0).1).UserID
           FromName := (balanceAt l (scanMaxDebt l 0 0 0).1).Name
           To := (balanceAt l (scanMaxCredit l 0 0 0).1).UserID
           ToName := (balanceAt l (scanMaxCredit l 0 0 0).1).Name
           Amount := -(if (scanMaxCredit l 0 0 0).2 < -(scanMaxDebt l 0 0 0).2
                        then (scanMaxCredit l 0 0 0).2 else (scanMaxDebt l 0 0 0).2) },
          addAmountAt
            (addAmountAt l (scanMaxDebt l 0 0 0).1
              (-(if (scanMaxCredit l 0 0 0).2 < -(scanMaxDebt l 0 0 0).2
                  then (scanMaxCredit l 0 0 0).2 else (scanMaxDebt l 0 0 0).2)))
            (scanMaxCredit l 0 0 0).1
            (-(-(if (scanMaxCredit l 0 0 0).2 < -(scanMaxDebt l 0 0 0).2
                  then (scanMaxCredit l 0 0 0).2 else (scanMaxDebt l 0 0 0).2)))) := by
  unfold CalculateSettlements.iter
  simp [hd, hc]

theorem iter_eq_none_iff (l : List Balance) :
    CalculateSettlements.iter l = none ↔
      ((scanMaxDebt l 0 0 0).2 = 0 ∨ (scanMaxCredit l 0 0 0).2 = 0) := by
  constructor
  · intro h
    by_contra hn
    push_neg at hn
    rw [iter_eq_some l hn.1 hn.2] at h
    simp at h
  · exact iter_eq_none l

theorem maxDebt_eq_zero_of_nonneg (l : List Balance) (h : ∀ b ∈ l, 0 ≤ b.Amount) :
    (scanMaxDebt l 0 0 0).2 = 0 := by
  by_contra hn
  obtain ⟨b, hb, hb'⟩ := maxDebt_attained l hn
  have hm : b ∈ l := List.getElem?_mem hb
  have h1 := h b hm
  have h2 := maxDebt_nonpos l
  rw [hb'] at h1
  exact hn (le_antisymm h2 h1)

theorem maxCredit_eq_zero_of_nonpos (l : List Balance) (h : ∀ b ∈ l, b.Amount ≤ 0) :
    (scanMaxCredit l 0 0 0).2 = 0 := by
  by_contra hn
  obtain ⟨b, hb, hb'⟩ := maxCredit_attained l hn
  have hm : b ∈ l := List.getElem?_mem hb
  have h1 := h b hm
  have h2 := maxCredit_nonneg l
  rw [hb'] at h1
  exact hn (le_antisymm h1 h2)

/-! ## The in-place update -/

theorem addAmountAt_getElem?_ne (l : List Balance) :
    ∀ (i j : Nat) (x : ℚ), j ≠ i → (addAmountAt l i x)[j]? = l[j]? := by
  induction l with
  | nil => intro i j x _; simp [addAmountAt]
  | cons b rest ih =>
    intro i j x hij
    cases i with
    | zero =>
      cases j with
      | zero => exact absurd rfl hij
      | succ j => simp [addAmountAt]
    | succ i =>
      cases j with
      | zero => simp [addAmountAt]
      | succ j =>
        simp only [addAmountAt, List.getElem?_cons_succ]
        exact ih i j x (by omega)

theorem addAmountAt_amounts_perm (l : List Balance) :
    ∀ (i : Nat) (x : ℚ) (b : Balance), l[i]? = some b →
      ((addAmountAt l i x).map Balance.Amount).Perm
        ((b.Amount + x) :: (l.map Balance.Amount).erase b.Amount) := by
  induction l with
  | nil => intro i x b h; simp at h
  | cons a rest ih =>
    intro i x b h
    cases i with
    | zero =>
      simp only [List.getElem?_cons_zero, Option.some.injEq] at h
      subst h
      simp [addAmountAt]
    | succ i =>
      simp only [List.getElem?_cons_succ] at h
      have hp := ih i x b h
      have hmem : b.Amount ∈ rest.map Balance.Amount :=
        List.mem_map_of_mem _ (List.getElem?_mem h)
      simp only [addAmountAt, List.map_cons]
      by_cases hab : a.Amount = b.Amount
      · rw [hab, List.erase_cons_head]
        refine (List.Perm.cons _ hp).trans ?_
        refine (List.Perm.swap _ _ _).trans ?_
        exact List.Perm.cons _ (List.perm_cons_erase hmem).symm
      · rw [List.erase_cons_tail (by simpa using hab)]
        refine (List.Perm.cons _ hp).trans ?_
        exact List.Perm.swap _ _ _

theorem addAmountAt_map_UserID (l : List Balance) :
    ∀ (i : Nat) (x : ℚ), (addAmountAt l i x).map Balance.UserID = l.map Balance.UserID := by
  induction l with
  | nil => intro i x; simp [addAmountAt]
  | cons a rest ih =>
    intro i x
    cases i with
    | zero => simp [addAmountAt]
    | succ i => simp [addAmountAt, ih i x]

theorem addAmountAt_map_Name (l : List Balance) :
    ∀ (i : Nat) (x : ℚ), (addAmountAt l i x).map Balance.Name = l.map Balance.Name := by
  induction l with
  | nil => intro i x; simp [addAmountAt]
  | cons a rest ih =>
    intro i x
    cases i with
    | zero => simp [addAmountAt]
    | succ i => simp [addAmountAt, ih i x]

/-- What one pass does to the amounts: the entries holding the top debt `d` and the top
credit `c` are replaced by `d + amount` and `c - amount`. -/
theorem iter_amounts (l : List Balance)
    (hd : (scanMaxDebt l 0 0 0).2 ≠ 0) (hc : (scanMaxCredit l 0 0 0).2 ≠ 0) :
    ∃ t l', CalculateSettlements.iter l = some (t, l') ∧
      t.Amount = -(if (scanMaxCredit l 0 0 0).2 < -(scanMaxDebt l 0 0 0).2
                    then (scanMaxCredit l 0 0 0).2 else (scanMaxDebt l 0 0 0).2) ∧
      (l'.map Balance.Amount).Perm
        (((scanMaxCredit l 0 0 0).2 + -t.Amount) ::
          (((scanMaxDebt l 0 0 0).2 + t.Amount) ::
            (l.map Balance.Amount).erase (scanMaxDebt l 0 0 0).2).erase
              (scanMaxCredit l 0 0 0).2) := by
  refine ⟨_, _, iter_eq_some l hd hc, rfl, ?_⟩
  obtain ⟨bd, hbd, hbd'⟩ := maxDebt_attained l hd
  obtain ⟨bc, hbc, hbc'⟩ := maxCredit_attained l hc
  have hdneg : (scanMaxDebt l 0 0 0).2 < 0 := lt_of_le_of_ne (maxDebt_nonpos l) hd
  have hcpos : 0 < (scanMaxCredit l 0 0 0).2 := lt_of_le_of_ne (maxCredit_nonneg l) (Ne.symm hc)
  have hne : (scanMaxCredit l 0 0 0).1 ≠ (scanMaxDebt l 0 0 0).1 := by
    intro e
    rw [e, hbd] at hbc
    simp only [Option.some.injEq] at hbc
    subst hbc
    rw [hbd'] at hbc'
    linarith
  set amt := -(if (scanMaxCredit l 0 0 0).2 < -(scanMaxDebt l 0 0 0).2
                    then (scanMaxCredit l 0 0 0).2 else (scanMaxDebt l 0 0 0).2) with hamt
  have h1 := addAmountAt_amounts_perm l (scanMaxDebt l 0 0 0).1 amt bd hbd
  have hbc2 : (addAmountAt l (scanMaxDebt l 0 0 0).1 amt)[(scanMaxCredit l 0 0 0).1]? = some bc := by
    rw [addAmountAt_getElem?_ne l _ _ amt hne]; exact hbc
  have h2 := addAmountAt_amounts_perm _ (scanMaxCredit l 0 0 0).1 (-amt) bc hbc2
  rw [hbc'] at h2
  rw [hbd'] at h1
  refine h2.trans (List.Perm.cons _ ?_)
  exact List.Perm.erase _ h1

/-! ## The scans depend on the amounts only -/

theorem maxDebt_unique (l : List Balance) (v : ℚ) (h0 : v ≤ 0)
    (hle : ∀ a ∈ l.map Balance.Amount, v ≤ a) (hatt : v = 0 ∨ v ∈ l.map Balance.Amount) :
    (scanMaxDebt l 0 0 0).2 = v := by
  apply le_antisymm
  · rcases hatt with h | h
    · rw [h]; exact maxDebt_nonpos l
    · obtain ⟨b, hb, hb'⟩ := List.mem_map.1 h
      rw [← hb']; exact maxDebt_le l b hb
  · by_cases hz : (scanMaxDebt l 0 0 0).2 = 0
    · rw [hz]; exact h0
    · obtain ⟨b, hb, hb'⟩ := maxDebt_attained l hz
      rw [← hb']
      exact hle _ (List.mem_map_of_mem _ (List.getElem?_mem hb))

theorem maxCredit_unique (l : List Balance) (v : ℚ) (h0 : 0 ≤ v)
    (hle : ∀ a ∈ l.map Balance.Amount, a ≤ v) (hatt : v = 0 ∨ v ∈ l.map Balance.Amount) :
    (scanMaxCredit l 0 0 0).2 = v := by
  apply le_antisymm
  · by_cases hz : (scanMaxCredit l 0 0 0).2 = 0
    · rw [hz]; exact h0
    · obtain ⟨b, hb, hb'⟩ := maxCredit_attained l hz
      rw [← hb']
      exact hle _ (List.mem_map_of_mem _ (List.getElem?_mem hb))
  · rcases hatt with h | h
    · rw [h]; exact maxCredit_nonneg l
    · obtain ⟨b, hb, hb'⟩ := List.mem_map.1 h
      rw [← hb']; exact le_maxCredit l b hb

theorem maxDebt_congr (l₁ l₂ : List Balance)
    (h : ∀ a, a ∈ l₁.map Balance.Amount ↔ a ∈ l₂.map Balance.Amount) :
    (scanMaxDebt l₁ 0 0 0).2 = (scanMaxDebt l₂ 0 0 0).2 := by
  apply maxDebt_unique l₁ _ (maxDebt_nonpos l₂)
  · intro a ha
    obtain ⟨b, hb, hb'⟩ := List.mem_map.1 ((h a).1 ha)
    rw [← hb']; exact maxDebt_le l₂ b hb
  · by_cases hz : (scanMaxDebt l₂ 0 0 0).2 = 0
    · exact Or.inl hz
    · obtain ⟨b, hb, hb'⟩ := maxDebt_attained l₂ hz
      refine Or.inr ((h _).2 ?_)
      rw [← hb']
      exact List.mem_map_of_mem _ (List.getElem?_mem hb)

theorem maxCredit_congr (l₁ l₂ : List Balance)
    (h : ∀ a, a ∈ l₁.map Balance.Amount ↔ a ∈ l₂.map Balance.Amount) :
    (scanMaxCredit l₁ 0 0 0).2 = (scanMaxCredit l₂ 0 0 0).2 := by
  apply maxCredit_unique l₁ _ (maxCredit_nonneg l₂)
  · intro a ha
    obtain ⟨b, hb, hb'⟩ := List.mem_map.1 ((h a).1 ha)
    rw [← hb']; exact le_maxCredit l₂ b hb
  · by_cases hz : (scanMaxCredit l₂ 0 0 0).2 = 0
    · exact Or.inl hz
    · obtain ⟨b, hb, hb'⟩ := maxCredit_attained l₂ hz
      refine Or.inr ((h _).2 ?_)
      rw [← hb']
      exact List.mem_map_of_mem _ (List.getElem?_mem hb)

theorem iter_perm (l₁ l₂ : List Balance)
    (h : (l₁.map Balance.Amount).Perm (l₂.map Balance.Amount)) :
    (CalculateSettlements.iter l₁ = none ∧ CalculateSettlements.iter l₂ = none) ∨
    ∃ t₁ l₁' t₂ l₂', CalculateSettlements.iter l₁ = some (t₁, l₁') ∧
      CalculateSettlements.iter l₂ = some (t₂, l₂') ∧ t₁.Amount = t₂.Amount ∧
      (l₁'.map Balance.Amount).Perm (l₂'.map Balance.Amount) := by
  have hd := maxDebt_congr l₁ l₂ (fun a => h.mem_iff)
  have hc := maxCredit_congr l₁ l₂ (fun a => h.mem_iff)
  by_cases hz : (scanMaxDebt l₁ 0 0 0).2 = 0 ∨ (scanMaxCredit l₁ 0 0 0).2 = 0
  · left
    refine ⟨iter_eq_none l₁ hz, iter_eq_none l₂ ?_⟩
    rw [← hd, ← hc]; exact hz
  · right
    push_neg at hz
    obtain ⟨t₁, l₁', e₁, a₁, p₁⟩ := iter_amounts l₁ hz.1 hz.2
    obtain ⟨t₂, l₂', e₂, a₂, p₂⟩ := iter_amounts l₂ (hd ▸ hz.1) (hc ▸ hz.2)
    have ht : t₁.Amount = t₂.Amount := by rw [a₁, a₂, hd, hc]
    refine ⟨t₁, l₁', t₂, l₂', e₁, e₂, ht, ?_⟩
    refine p₁.trans (List.Perm.trans ?_ p₂.symm)
    rw [hd, hc, ht]
    exact List.Perm.cons _ (List.Perm.erase _ (List.Perm.cons _ (List.Perm.erase _ h)))

theorem loop_perm :
    ∀ (n : Nat) (ts₁ ts₂ : List SettlementTransaction) (l₁ l₂ : List Balance),
      (l₁.map Balance.Amount).Perm (l₂.map Balance.Amount) →
      ts₁.map SettlementTransaction.Amount = ts₂.map SettlementTransaction.Amount →
      (CalculateSettlements.loop n ts₁ l₁).done = (CalculateSettlements.loop n ts₂ l₂).done ∧
      (CalculateSettlements.loop n ts₁ l₁).transactions.map SettlementTransaction.Amount =
        (CalculateSettlements.loop n ts₂ l₂).transactions.map SettlementTransaction.Amount ∧
      ((CalculateSettlements.loop n ts₁ l₁).balances.map Balance.Amount).Perm
        ((CalculateSettlements.loop n ts₂ l₂).balances.map Balance.Amount) := by
  intro n
  induction n with
  | zero => intro ts₁ ts₂ l₁ l₂ h ht; exact ⟨rfl, ht, h⟩
  | succ n ih =>
    intro ts₁ ts₂ l₁ l₂ h ht
    unfold CalculateSettlements.loop
    rcases iter_perm l₁ l₂ h with ⟨e₁, e₂⟩ | ⟨t₁, l₁', t₂, l₂', e₁, e₂, hta, hp⟩
    · rw [e₁, e₂]; exact ⟨rfl, ht, h⟩
    · rw [e₁, e₂]
      exact ih _ _ _ _ hp (by simp [ht, hta])

/-! ## When the top credit is below the top debt -/

theorem iter_small_credit (l : List Balance)
    (hc : 0 < (scanMaxCredit l 0 0 0).2)
    (hlt : (scanMaxCredit l 0 0 0).2 < -(scanMaxDebt l 0 0 0).2) :
    ∃ t l', CalculateSettlements.iter l = some (t, l') ∧
      t.Amount = -(scanMaxCredit l 0 0 0).2 ∧
      (scanMaxCredit l' 0 0 0).2 = (scanMaxCredit l 0 0 0).2 + (scanMaxCredit l 0 0 0).2 ∧
      (scanMaxDebt l' 0 0 0).2 = (scanMaxDebt l 0 0 0).2 - (scanMaxCredit l 0 0 0).2 := by
  have hd : (scanMaxDebt l 0 0 0).2 ≠ 0 := by intro e; rw [e] at hlt; linarith
  obtain ⟨t, l', e, ha, hp⟩ := iter_amounts l hd (ne_of_gt hc)
  rw [if_pos hlt] at ha
  rw [ha] at hp
  have hmem : ∀ a, a ∈ l'.map Balance.Amount →
      a = (scanMaxCredit l 0 0 0).2 + (scanMaxCredit l 0 0 0).2 ∨
      a = (scanMaxDebt l 0 0 0).2 - (scanMaxCredit l 0 0 0).2 ∨ a ∈ l.map Balance.Amount := by
    intro a h
    rcases List.mem_cons.1 (hp.mem_iff.1 h) with h | h
    · left; rw [h]; ring
    · rcases List.mem_cons.1 (List.mem_of_mem_erase h) with h | h
      · right; left; rw [h]; ring
      · right; right; exact List.mem_of_mem_erase h
  have hle : ∀ a ∈ l.map Balance.Amount,
      (scanMaxDebt l 0 0 0).2 ≤ a ∧ a ≤ (scanMaxCredit l 0 0 0).2 := by
    intro a h
    obtain ⟨b, hb, hb'⟩ := List.mem_map.1 h
    rw [← hb']; exact ⟨maxDebt_le l b hb, le_maxCredit l b hb⟩
  refine ⟨t, l', e, ha, ?_, ?_⟩
  · apply maxCredit_unique l' _ (by linarith)
    · intro a h
      rcases hmem a h with h | h | h
      · rw [h]
      · rw [h]; linarith
      · have := (hle a h).2; linarith
    · right
      refine hp.mem_iff.2 (List.mem_cons.2 (Or.inl ?_))
      ring
  · apply maxDebt_unique l' _ (by linarith)
    · intro a h
      rcases hmem a h with h | h | h
      · rw [h]; linarith
      · rw [h]
      · have := (hle a h).1; linarith
    · right
      refine hp.mem_iff.2 (List.mem_cons.2 (Or.inr ?_))
      rw [List.mem_erase_of_ne (by intro e; linarith)]
      exact List.mem_cons.2 (Or.inl (by ring))

theorem loop_small_credit :
    ∀ (n : Nat) (ts : List SettlementTransaction) (l : List Balance),
      0 < (scanMaxCredit l 0 0 0).2 →
      (scanMaxCredit l 0 0 0).2 < -(scanMaxDebt l 0 0 0).2 →
      (CalculateSettlements.loop n ts l).done = false ∧
      (CalculateSettlements.loop n ts l).transactions.length = ts.length + n ∧
      0 < (scanMaxCredit (CalculateSettlements.loop n ts l).balances 0 0 0).2 := by
  intro n
  induction n with
  | zero => intro ts l hc _; exact ⟨rfl, rfl, hc⟩
  | succ n ih =>
    intro ts l hc hlt
    obtain ⟨t, l', e, _, hc', hd'⟩ := iter_small_credit l hc hlt
    unfold CalculateSettlements.loop
    rw [e]
    have h := ih (ts ++ [t]) l' (by rw [hc']; linarith) (by rw [hc', hd']; linarith)
    refine ⟨h.1, ?_, h.2.2⟩
    rw [h.2.1, List.length_append, List.length_singleton]
    omega

/-! ## Settled claims: settlement planning -/

/-- C5 (determinism under reordering) fails on the code: [A: +100, B: -50, C: -50] and
the same list with B and C swapped are permutations of each other, and
`CalculateSettlements` pays B first on the one and C first on the other. -/
theorem tiedDebtors_order_matters :
    tiedDebtors.Perm tiedDebtorsSwapped ∧
    CalculateSettlements 3 tiedDebtors =
      some ([⟨"B", "Bob", "A", "Ann", 50⟩, ⟨"C", "Cy", "A", "Ann", 50⟩],
        [⟨"A", "Ann", 0⟩, ⟨"B", "Bob", 0⟩, ⟨"C", "Cy", 0⟩]) ∧
    CalculateSettlements 3 tiedDebtorsSwapped =
      some ([⟨"C", "Cy", "A", "Ann", 50⟩, ⟨"B", "Bob", "A", "Ann", 50⟩],
        [⟨"A", "Ann", 0⟩, ⟨"C", "Cy", 0⟩, ⟨"B", "Bob", 0⟩]) ∧
    (CalculateSettlements 3 tiedDebtors).map Prod.fst ≠
      (CalculateSettlements 3 tiedDebtorsSwapped).map Prod.fst :=
  ⟨List.Perm.cons _ (List.Perm.swap _ _ _), by decide!, by decide!, by decide!⟩

/-- C5 as amended: for every list of balances and every permutation of it,
`CalculateSettlements` reaches `break` within the same fuel on both, and the amounts of
the returned transactions are the same, in the same order. -/
theorem CalculateSettlements_perm_amounts (fuel : Nat) (l₁ l₂ : List Balance)
    (h : l₁.Perm l₂) :
    (CalculateSettlements fuel l₁).map
        (fun r => r.1.map SettlementTransaction.Amount) =
      (CalculateSettlements fuel l₂).map
        (fun r => r.1.map SettlementTransaction.Amount) := by
  obtain ⟨h1, h2, _⟩ := loop_perm fuel [] [] l₁ l₂ (h.map _) rfl
  unfold CalculateSettlements
  simp only []
  rw [h1]
  cases hd : (CalculateSettlements.loop fuel [] l₂).done with
  | false => simp
  | true => simp [h2]

theorem CalculateSettlements_perm_amounts_witness :
    tiedDebtors.Perm tiedDebtorsSwapped ∧
    (CalculateSettlements 3 tiedDebtors).map
        (fun r => r.1.map SettlementTransaction.Amount) =
      (CalculateSettlements 3 tiedDebtorsSwapped).map
        (fun r => r.1.map SettlementTransaction.Amount) :=
  ⟨List.Perm.cons _ (List.Perm.swap _ _ _),
    CalculateSettlements_perm_amounts 3 tiedDebtors tiedDebtorsSwapped
      (List.Perm.cons _ (List.Perm.swap _ _ _))⟩

/-- C7 (no mutation of the caller's balances) fails on the code: after the call on
[A: +300, B: -100, C: -200] the caller's slice holds [A: 0, B: 0, C: 0]. -/
theorem scenario1_caller_slice_overwritten :
    (CalculateSettlements 3 scenario1).map Prod.snd =
      some [⟨"A", "Ann", 0⟩, ⟨"B", "Bob", 0⟩, ⟨"C", "Cy", 0⟩] ∧
    (CalculateSettlements 3 scenario1).map Prod.snd ≠ some scenario1 :=
  ⟨by decide!, by decide!⟩

/-- C8 (scenario 1): on [A: +300, B: -100, C: -200] `CalculateSettlements` reaches `break`
on its third pass and returns exactly [C pays A 200, B pays A 100], and the working
balances are all 0 afterwards. -/
theorem CalculateSettlements_scenario1 (k : Nat) :
    CalculateSettlements (3 + k) scenario1 =
      some ([⟨"C", "Cy", "A", "Ann", 200⟩, ⟨"B", "Bob", "A", "Ann", 100⟩],
        [⟨"A", "Ann", 0⟩, ⟨"B", "Bob", 0⟩, ⟨"C", "Cy", 0⟩]) :=
  CalculateSettlements_fuel_add 3 k scenario1 _ (by decide!)

/-- C9 (no-op within a tolerance) fails on the code: with the tolerance 0.005, both
amounts of [A: +0.001, B: -0.001] are within the tolerance, and `CalculateSettlements`
returns the transaction B pays A 0.001. -/
theorem tinyBalances_not_noop :
    (0 : ℚ) < 5 / 1000 ∧
    (∀ b ∈ tinyBalances, |b.Amount| ≤ 5 / 1000) ∧
    CalculateSettlements 2 tinyBalances =
      some ([⟨"B", "Bob", "A", "Ann", 1 / 1000⟩], [⟨"A", "Ann", 0⟩, ⟨"B", "Bob", 0⟩]) :=
  ⟨by norm_num, by decide!, by decide!⟩

/-- C9 as amended: for every list of balances in which every amount is exactly 0,
`CalculateSettlements` reaches `break` on its first pass and returns an empty sequence
of transactions, leaving the list as it was. -/
theorem CalculateSettlements_all_zero (balances : List Balance)
    (h : ∀ b ∈ balances, b.Amount = 0) (k : Nat) :
    CalculateSettlements (k + 1) balances = some ([], balances) := by
  have hz := maxDebt_eq_zero_of_nonneg balances (fun b hb => (h b hb).ge)
  have hi := iter_eq_none balances (Or.inl hz)
  unfold CalculateSettlements CalculateSettlements.loop
  rw [hi]
  rfl

theorem CalculateSettlements_all_zero_witness :
    (∀ b ∈ [(⟨"A", "Ann", 0⟩ : Balance), ⟨"B", "Bob", 0⟩], b.Amount = 0) ∧
    CalculateSettlements 1 [⟨"A", "Ann", 0⟩, ⟨"B", "Bob", 0⟩] =
      some ([], [⟨"A", "Ann", 0⟩, ⟨"B", "Bob", 0⟩]) :=
  ⟨by decide, CalculateSettlements_all_zero _ (by decide) 0⟩

/-- C10 (strictly positive amounts) fails on the code: on [A: +100, B: +200, C: -300] the
first pass of the loop appends the transaction C pays B with the amount -200. -/
theorem smallCredit_negative_amount :
    (CalculateSettlements.loop 1 [] smallCredit).transactions =
      [⟨"C", "Cy", "B", "Bob", -200⟩] ∧
    ¬ ∀ t ∈ (CalculateSettlements.loop 1 [] smallCredit).transactions, 0 < t.Amount :=
  ⟨by decide!, by decide!⟩

/-! ## The balance map -/

theorem mapSet_keys (m : List (String × Balance)) (k : String) (v : Balance) :
    (mapSet m k v).map Prod.fst =
      if k ∈ m.map Prod.fst then m.map Prod.fst else m.map Prod.fst ++ [k] := by
  induction m with
  | nil => simp [mapSet]
  | cons kv m ih =>
    obtain ⟨k', v'⟩ := kv
    by_cases h : k' = k
    · subst h; simp [mapSet]
    · have h' : ¬ k = k' := fun e => h e.symm
      simp only [mapSet, h, if_false, List.map_cons, ih, List.mem_cons, h', false_or]
      split_ifs <;> simp

theorem mapSet_of_not_mem (m : List (String × Balance)) (k : String) (v : Balance)
    (h : k ∉ m.map Prod.fst) : mapSet m k v = m ++ [(k, v)] := by
  induction m with
  | nil => simp [mapSet]
  | cons kv m ih =>
    obtain ⟨k', v'⟩ := kv
    simp only [List.map_cons, List.mem_cons, not_or] at h
    have h' : ¬ k' = k := fun e => h.1 e.symm
    simp [mapSet, h', ih h.2]

theorem mapSet_amount_zero (m : List (String × Balance)) (k : String) (v : Balance)
    (hm : ∀ kv ∈ m, kv.2.Amount = 0) (hv : v.Amount = 0) :
    ∀ kv ∈ mapSet m k v, kv.2.Amount = 0 := by
  induction m with
  | nil => simpa [mapSet] using hv
  | cons kv m ih =>
    obtain ⟨k', v'⟩ := kv
    by_cases h : k' = k
    · simp only [mapSet, h, if_true]
      intro kv hkv
      rcases List.mem_cons.1 hkv with rfl | hkv
      · exact hv
      · exact hm kv (List.mem_cons_of_mem _ hkv)
    · simp only [mapSet, h, if_false]
      intro kv hkv
      rcases List.mem_cons.1 hkv with rfl | hkv
      · exact hm _ (List.mem_cons_self _ _)
      · exact ih (fun kv hkv => hm kv (List.mem_cons_of_mem _ hkv)) kv hkv

theorem init_fold_spec (members : List User) :
    ∀ acc : List (String × Balance),
      (acc.map Prod.fst).Nodup → (∀ kv ∈ acc, kv.2.Amount = 0) →
      ((members.foldl (fun balances member =>
          mapSet balances member.ID
            { UserID := member.ID, Name := member.Name, Amount := 0 }) acc).map Prod.fst).Nodup ∧
      (∀ kv ∈ members.foldl (fun balances member =>
          mapSet balances member.ID
            { UserID := member.ID, Name := member.Name, Amount := 0 }) acc, kv.2.Amount = 0) ∧
      (∀ k, k ∈ (members.foldl (fun balances member =>
          mapSet balances member.ID
            { UserID := member.ID, Name := member.Name, Amount := 0 }) acc).map Prod.fst ↔
        (k ∈ acc.map Prod.fst ∨ k ∈ members.map User.ID)) := by
  induction members with
  | nil => intro acc h1 h2; exact ⟨h1, h2, fun k => by simp⟩
  | cons u members ih =>
    intro acc h1 h2
    simp only [List.foldl_cons]
    have hk := mapSet_keys acc u.ID { UserID := u.ID, Name := u.Name, Amount := 0 }
    have hn : ((mapSet acc u.ID { UserID := u.ID, Name := u.Name, Amount := 0 }).map
        Prod.fst).Nodup := by
      rw [hk]
      split_ifs with hmem
      · exact h1
      · exact List.Nodup.append h1 (List.nodup_singleton _) (by simpa using hmem)
    obtain ⟨a, b, c⟩ := ih _ hn (mapSet_amount_zero acc u.ID _ h2 rfl)
    refine ⟨a, b, ?_⟩
    intro k
    rw [c k, hk]
    split_ifs with hmem
    · constructor
      · rintro (h | h)
        · exact Or.inl h
        · exact Or.inr (List.mem_cons_of_mem _ h)
      · rintro (h | h)
        · exact Or.inl h
        · rcases List.mem_cons.1 h with rfl | h
          · exact Or.inl hmem
          · exact Or.inr h
    · simp only [List.mem_append, List.mem_singleton, List.map_cons, List.mem_cons]
      tauto

theorem init_keys_nodup (members : List User) :
    ((CalculateBalances.init members).map Prod.fst).Nodup :=
  (init_fold_spec members [] List.nodup_nil (by simp)).1

theorem init_amount_zero (members : List User) :
    ∀ kv ∈ CalculateBalances.init members, kv.2.Amount = 0 :=
  (init_fold_spec members [] List.nodup_nil (by simp)).2.1

theorem mem_init_keys (members : List User) (k : String) :
    k ∈ (CalculateBalances.init members).map Prod.fst ↔ k ∈ members.map User.ID := by
  have h := (init_fold_spec members [] List.nodup_nil (by simp)).2.2 k
  simpa [CalculateBalances.init] using h

theorem init_fold_of_nodup (members : List User) :
    ∀ acc : List (String × Balance),
      (members.map User.ID).Nodup → (∀ u ∈ members, u.ID ∉ acc.map Prod.fst) →
      members.foldl (fun balances member =>
          mapSet balances member.ID
            { UserID := member.ID, Name := member.Name, Amount := 0 }) acc =
        acc ++ members.map (fun u => (u.ID, { UserID := u.ID, Name := u.Name, Amount := 0 })) := by
  induction members with
  | nil => intro acc _ _; simp
  | cons u members ih =>
    intro acc hn hacc
    simp only [List.map_cons, List.nodup_cons] at hn
    simp only [List.foldl_cons]
    rw [mapSet_of_not_mem acc u.ID _ (hacc u (List.mem_cons_self _ _))]
    rw [ih _ hn.2]
    · simp
    · intro u' hu'
      simp only [List.map_append, List.map_cons, List.map_nil, List.mem_append,
        List.mem_singleton, not_or]
      refine ⟨hacc u' (List.mem_cons_of_mem _ hu'), ?_⟩
      intro e
      exact hn.1 (e ▸ List.mem_map_of_mem User.ID hu')

theorem init_of_nodup (members : List User) (hn : (members.map User.ID).Nodup) :
    CalculateBalances.init members =
      members.map (fun u => (u.ID, { UserID := u.ID, Name := u.Name, Amount := 0 })) := by
  have h := init_fold_of_nodup members [] hn (by simp)
  simpa [CalculateBalances.init] using h

theorem mapAddEach_keys (m : List (String × Balance)) (g : String → ℚ) :
    (mapAddEach m g).map Prod.fst = m.map Prod.fst := by
  simp [mapAddEach, Function.comp_def]

theorem mapAddEach_zero (m : List (String × Balance)) :
    mapAddEach m (fun _ => 0) = m := by
  simp [mapAddEach]

theorem mapAddEach_mapAddEach (m : List (String × Balance)) (g h : String → ℚ) :
    mapAddEach (mapAddEach m g) h = mapAddEach m (fun k => g k + h k) := by
  simp [mapAddEach, Function.comp_def, add_assoc]

theorem mapAddEach_congr (m : List (String × Balance)) (g h : String → ℚ)
    (e : ∀ k ∈ m.map Prod.fst, g k = h k) : mapAddEach m g = mapAddEach m h := by
  unfold mapAddEach
  apply List.map_congr_left
  intro kv hkv
  rw [e kv.1 (List.mem_map_of_mem Prod.fst hkv)]

theorem mapAddEach_of_not_mem (m : List (String × Balance)) (k : String) (x : ℚ)
    (h : k ∉ m.map Prod.fst) : mapAddEach m (fun k' => if k' = k then x else 0) = m := by
  rw [mapAddEach_congr m _ (fun _ => 0), mapAddEach_zero]
  intro k' hk'
  have : k' ≠ k := fun e => h (e ▸ hk')
  simp [this]

theorem mapUpdate_add (m : List (String × Balance)) (k : String) (x : ℚ)
    (hn : (m.map Prod.fst).Nodup) :
    mapUpdate m k (fun bal => { bal with Amount := bal.Amount + x }) =
      mapAddEach m (fun k' => if k' = k then x else 0) := by
  induction m with
  | nil => simp [mapUpdate, mapAddEach]
  | cons kv m ih =>
    obtain ⟨k', v'⟩ := kv
    simp only [List.map_cons, List.nodup_cons] at hn
    by_cases h : k' = k
    · subst h
      have ht := mapAddEach_of_not_mem m k' x hn.1
      simp only [mapAddEach] at ht
      simp [mapUpdate, mapAddEach, ht]
    · have ih' := ih hn.2
      simp only [mapAddEach] at ih'
      simp [mapUpdate, mapAddEach, h, ih']

theorem mapUpdate_sub (m : List (String × Balance)) (k : String) (x : ℚ)
    (hn : (m.map Prod.fst).Nodup) :
    mapUpdate m k (fun bal => { bal with Amount := bal.Amount - x }) =
      mapAddEach m (fun k' => if k' = k then -x else 0) := by
  rw [← mapUpdate_add m k (-x) hn]
  simp [sub_eq_add_neg]

theorem splits_fold (unmarshalled : List ExpenseSplit) :
    ∀ m : List (String × Balance), (m.map Prod.fst).Nodup →
      unmarshalled.foldl (fun balances split =>
        mapUpdate balances split.UserID
          (fun bal => { bal with Amount := bal.Amount - split.Amount })) m =
      mapAddEach m (fun k =>
        -((unmarshalled.filter (fun s => s.UserID = k)).map ExpenseSplit.Amount).sum) := by
  induction unmarshalled with
  | nil => intro m _; simp [mapAddEach_zero]
  | cons s rest ih =>
    intro m hn
    simp only [List.foldl_cons]
    rw [mapUpdate_sub m _ _ hn, ih _ (by rw [mapAddEach_keys]; exact hn),
      mapAddEach_mapAddEach]
    apply mapAddEach_congr
    intro k _
    by_cases h : s.UserID = k
    · simp [List.filter_cons, h]
      ring
    · have h2 : ¬ k = s.UserID := fun e => h e.symm
      simp [List.filter_cons, h, h2]

theorem processExpense_eq (unmarshal : List UInt8 → Except String (List ExpenseSplit))
    (m : List (String × Balance)) (e : Expense) (hn : (m.map Prod.fst).Nodup) :
    CalculateBalances.processExpense unmarshal m e = mapAddEach m (contribution unmarshal e) := by
  unfold CalculateBalances.processExpense contribution
  cases hs : e.GetSplits unmarshal with
  | error err => simp [mapAddEach_zero]
  | ok splits =>
    simp only []
    rw [mapUpdate_add m _ _ hn, splits_fold splits _ (by rw [mapAddEach_keys]; exact hn),
      mapAddEach_mapAddEach]
    apply mapAddEach_congr
    intro k _
    by_cases h : e.PaidBy = k
    · subst h; simp; ring
    · have h2 : ¬ k = e.PaidBy := fun e' => h e'.symm
      simp [h, h2]

theorem expenses_fold (unmarshal : List UInt8 → Except String (List ExpenseSplit))
    (expenses : List Expense) :
    ∀ m : List (String × Balance), (m.map Prod.fst).Nodup →
      expenses.foldl (CalculateBalances.processExpense unmarshal) m =
        mapAddEach m (fun k => (expenses.map (fun e => contribution unmarshal e k)).sum) := by
  induction expenses with
  | nil => intro m _; simp [mapAddEach_zero]
  | cons e rest ih =>
    intro m hn
    simp only [List.foldl_cons]
    rw [processExpense_eq unmarshal m e hn, ih _ (by rw [mapAddEach_keys]; exact hn),
      mapAddEach_mapAddEach]
    simp

/-- The value `CalculateBalances` returns when both queries succeed. -/
theorem CalculateBalances_eq (unmarshal : List UInt8 → Except String (List ExpenseSplit))
    (rangeOrder : List Balance → List Balance) (db : DB) (groupID : String)
    (expenses : List Expense) (group : Group)
    (he : db.findExpenses groupID = .ok expenses) (hg : db.firstGroup groupID = .ok group) :
    CalculateBalances unmarshal rangeOrder db groupID =
      .ok (rangeOrder ((mapAddEach (CalculateBalances.init group.Members)
        (fun k => (expenses.map (fun e => contribution unmarshal e k)).sum)).map Prod.snd)) := by
  unfold CalculateBalances
  rw [he, hg]
  simp only []
  rw [expenses_fold unmarshal expenses _ (init_keys_nodup group.Members)]

theorem sum_contribution (unmarshal : List UInt8 → Except String (List ExpenseSplit))
    (expenses : List Expense) (k : String)
    (hdec : ∀ e ∈ expenses, ∃ splits, e.GetSplits unmarshal = .ok splits) :
    (expenses.map (fun e => contribution unmarshal e k)).sum =
      totalPaid expenses k - totalOwed unmarshal expenses k := by
  induction expenses with
  | nil => simp [totalPaid, totalOwed]
  | cons e rest ih =>
    have ih' := ih (fun e' he' => hdec e' (List.mem_cons_of_mem _ he'))
    obtain ⟨splits, hs⟩ := hdec e (List.mem_cons_self _ _)
    have hc : contribution unmarshal e k =
        (if e.PaidBy = k then e.Amount else 0)
          - ((splits.filter (fun s => s.UserID = k)).map ExpenseSplit.Amount).sum := by
      simp [contribution, hs]
    have hso : splitsOf unmarshal e = splits := by simp [splitsOf, hs]
    have hp : totalPaid (e :: rest) k =
        (if e.PaidBy = k then e.Amount else 0) + totalPaid rest k := by
      by_cases h : e.PaidBy = k <;> simp [totalPaid, List.filter_cons, h]
    have ho : totalOwed unmarshal (e :: rest) k =
        ((splits.filter (fun s => s.UserID = k)).map ExpenseSplit.Amount).sum
          + totalOwed unmarshal rest k := by
      simp [totalOwed, hso]
    rw [List.map_cons, List.sum_cons, ih', hc, hp, ho]
    ring

theorem sum_ite_of_mem_nodup (ks : List String) (p : String) (x : ℚ)
    (hn : ks.Nodup) (hp : p ∈ ks) :
    (ks.map (fun k => if p = k then x else 0)).sum = x := by
  induction ks with
  | nil => simp at hp
  | cons k ks ih =>
    simp only [List.nodup_cons] at hn
    by_cases h : p = k
    · subst h
      have hz : (ks.map (fun k => if p = k then x else 0)).sum = 0 := by
        apply List.sum_eq_zero
        intro y hy
        obtain ⟨k, hk, rfl⟩ := List.mem_map.1 hy
        have : p ≠ k := fun e => hn.1 (e ▸ hk)
        simp [this]
      simp [hz]
    · rcases List.mem_cons.1 hp with e | hp'
      · exact absurd e h
      · simp [h, ih hn.2 hp']

theorem sum_filter_splits (ks : List String) (splits : List ExpenseSplit)
    (hn : ks.Nodup) (hmem : ∀ s ∈ splits, s.UserID ∈ ks) :
    (ks.map (fun k =>
      ((splits.filter (fun s => s.UserID = k)).map ExpenseSplit.Amount).sum)).sum =
      (splits.map ExpenseSplit.Amount).sum := by
  induction splits with
  | nil => simp
  | cons s rest ih =>
    have ih' := ih (fun s' hs' => hmem s' (List.mem_cons_of_mem _ hs'))
    have h1 := sum_ite_of_mem_nodup ks s.UserID s.Amount hn (hmem s (List.mem_cons_self _ _))
    have e : (fun k => (((s :: rest).filter (fun s => s.UserID = k)).map
          ExpenseSplit.Amount).sum) =
        (fun k => (if s.UserID = k then s.Amount else 0) +
          ((rest.filter (fun s => s.UserID = k)).map ExpenseSplit.Amount).sum) := by
      funext k
      by_cases h : s.UserID = k <;> simp [List.filter_cons, h]
    rw [e, List.sum_map_add, h1, ih', List.map_cons, List.sum_cons]

theorem sum_map_sub_rat (ks : List String) (f g : String → ℚ) :
    (ks.map (fun k => f k - g k)).sum = (ks.map f).sum - (ks.map g).sum := by
  induction ks with
  | nil => simp
  | cons k ks ih => simp only [List.map_cons, List.sum_cons, ih]; ring

theorem sum_contribution_keys (unmarshal : List UInt8 → Except String (List ExpenseSplit))
    (ks : List String) (e : Expense) (hn : ks.Nodup)
    (hvalid : ∀ splits, e.GetSplits unmarshal = .ok splits →
      e.PaidBy ∈ ks ∧ (∀ s ∈ splits, s.UserID ∈ ks) ∧
        (splits.map ExpenseSplit.Amount).sum = e.Amount) :
    (ks.map (contribution unmarshal e)).sum = 0 := by
  cases hs : e.GetSplits unmarshal with
  | error err =>
    have : contribution unmarshal e = fun _ => 0 := by
      funext k; simp [contribution, hs]
    rw [this]; simp
  | ok splits =>
    obtain ⟨h1, h2, h3⟩ := hvalid splits hs
    have : contribution unmarshal e = fun k =>
        (if e.PaidBy = k then e.Amount else 0)
          - ((splits.filter (fun s => s.UserID = k)).map ExpenseSplit.Amount).sum := by
      funext k; simp [contribution, hs]
    rw [this, sum_map_sub_rat, sum_ite_of_mem_nodup ks _ _ hn h1,
      sum_filter_splits ks splits hn h2, h3, sub_self]

theorem sum_contributions_keys (unmarshal : List UInt8 → Except String (List ExpenseSplit))
    (ks : List String) (expenses : List Expense) (hn : ks.Nodup)
    (hvalid : ∀ e ∈ expenses, ∀ splits, e.GetSplits unmarshal = .ok splits →
      e.PaidBy ∈ ks ∧ (∀ s ∈ splits, s.UserID ∈ ks) ∧
        (splits.map ExpenseSplit.Amount).sum = e.Amount) :
    (ks.map (fun k => (expenses.map (fun e => contribution unmarshal e k)).sum)).sum = 0 := by
  induction expenses with
  | nil => simp
  | cons e rest ih =>
    have ih' := ih (fun e' he' => hvalid e' (List.mem_cons_of_mem _ he'))
    have h1 := sum_contribution_keys unmarshal ks e hn (hvalid e (List.mem_cons_self _ _))
    simp only [List.map_cons, List.sum_cons]
    rw [List.sum_map_add, h1, ih', add_zero]

theorem sumAmounts_mapAddEach (m : List (String × Balance)) (g : String → ℚ) :
    sumAmounts ((mapAddEach m g).map Prod.snd) =
      sumAmounts (m.map Prod.snd) + ((m.map Prod.fst).map g).sum := by
  induction m with
  | nil => simp [sumAmounts, mapAddEach]
  | cons kv m ih =>
    simp only [sumAmounts, mapAddEach, List.map_cons, List.sum_cons, List.map_map] at ih ⊢
    rw [ih]
    ring

theorem sumAmounts_init (members : List User) :
    sumAmounts ((CalculateBalances.init members).map Prod.snd) = 0 := by
  unfold sumAmounts
  apply List.sum_eq_zero
  intro y hy
  simp only [List.map_map, List.mem_map, Function.comp_apply] at hy
  obtain ⟨kv, hkv, rfl⟩ := hy
  exact init_amount_zero members kv hkv

/-! ## Settled claims: balance computation -/

/-- C2 (zero sum for any roster and any expenses) fails on the code: in group `g2`, A paid
90 and the only split is A 30; the balances are A +60, B 0, C 0 and sum to 60. -/
theorem g2_sum_not_zero :
    CalculateBalances sampleUnmarshal id sampleDB "g2" =
      .ok [⟨"A", "Ann", 60⟩, ⟨"B", "Bob", 0⟩, ⟨"C", "Cy", 0⟩] ∧
    sumAmounts [⟨"A", "Ann", 60⟩, ⟨"B", "Bob", 0⟩, ⟨"C", "Cy", 0⟩] ≠ 0 :=
  ⟨by decide!, by decide!⟩

/-- C2 as amended: for any roster and any expense list in which every expense whose
payload decodes has its payer in the roster, every split member in the roster, and split
amounts that sum to the expense amount, the amounts of the balances returned by
`CalculateBalances` sum to exactly zero. -/
theorem CalculateBalances_sum_zero
    (unmarshal : List UInt8 → Except String (List ExpenseSplit))
    (rangeOrder : List Balance → List Balance) (db : DB) (groupID : String)
    (expenses : List Expense) (group : Group)
    (hord : ∀ l, (rangeOrder l).Perm l)
    (he : db.findExpenses groupID = .ok expenses) (hg : db.firstGroup groupID = .ok group)
    (hvalid : ∀ e ∈ expenses, ∀ splits, e.GetSplits unmarshal = .ok splits →
      e.PaidBy ∈ group.Members.map User.ID ∧
      (∀ s ∈ splits, s.UserID ∈ group.Members.map User.ID) ∧
      (splits.map ExpenseSplit.Amount).sum = e.Amount) :
    ∃ result, CalculateBalances unmarshal rangeOrder db groupID = .ok result ∧
      sumAmounts result = 0 := by
  refine ⟨_, CalculateBalances_eq unmarshal rangeOrder db groupID expenses group he hg, ?_⟩
  have hp : sumAmounts (rangeOrder ((mapAddEach (CalculateBalances.init group.Members)
      (fun k => (expenses.map (fun e => contribution unmarshal e k)).sum)).map Prod.snd)) =
      sumAmounts ((mapAddEach (CalculateBalances.init group.Members)
      (fun k => (expenses.map (fun e => contribution unmarshal e k)).sum)).map Prod.snd) :=
    List.Perm.sum_eq ((hord _).map _)
  rw [hp, sumAmounts_mapAddEach, sumAmounts_init, zero_add]
  apply sum_contributions_keys unmarshal _ expenses (init_keys_nodup group.Members)
  intro e hmem splits hs
  obtain ⟨h1, h2, h3⟩ := hvalid e hmem splits hs
  exact ⟨(mem_init_keys _ _).2 h1, fun s hs' => (mem_init_keys _ _).2 (h2 s hs'), h3⟩

theorem CalculateBalances_sum_zero_witness :
    (sampleDB.findExpenses "g1" = .ok [⟨"e1", "g1", "A", 90, [65, 30, 66, 30, 67, 30]⟩] ∧
      sampleDB.firstGroup "g1" = .ok ⟨"g1", sampleMembers⟩) ∧
    ∃ result, CalculateBalances sampleUnmarshal id sampleDB "g1" = .ok result ∧
      sumAmounts result = 0 :=
  ⟨⟨by decide, by decide⟩,
    CalculateBalances_sum_zero sampleUnmarshal id sampleDB "g1"
      [⟨"e1", "g1", "A", 90, [65, 30, 66, 30, 67, 30]⟩] ⟨"g1", sampleMembers⟩
      (fun _ => List.Perm.refl _) (by decide) (by decide)
      (by
        intro e h splits hs
        rw [List.mem_singleton.1 h] at hs ⊢
        have e2 : Expense.GetSplits sampleUnmarshal
            ⟨"e1", "g1", "A", 90, [65, 30, 66, 30, 67, 30]⟩ =
            .ok [⟨"A", 30⟩, ⟨"B", 30⟩, ⟨"C", 30⟩] := by decide
        rw [e2] at hs
        cases hs
        exact ⟨by decide, by decide, by decide!⟩)⟩

/-- C6 (failure on an undecodable split payload) fails on the code: the payload of the
only expense of group `g3` does not decode, and `CalculateBalances` returns the successful
list [A: 0, B: 0, C: 0]. -/
theorem g3_undecodable_not_an_error :
    sampleDB.findExpenses "g3" = .ok [⟨"e3", "g3", "A", 90, [65]⟩] ∧
    Expense.GetSplits sampleUnmarshal ⟨"e3", "g3", "A", 90, [65]⟩ =
      .error "unexpected end of input" ∧
    CalculateBalances sampleUnmarshal id sampleDB "g3" =
      .ok [⟨"A", "Ann", 0⟩, ⟨"B", "Bob", 0⟩, ⟨"C", "Cy", 0⟩] :=
  ⟨by decide, by decide, by decide⟩

/-- C6 as amended: `CalculateBalances` fails exactly when one of its two queries fails,
whatever the split payloads are; an expense whose payload does not decode leaves the
balances as they were. -/
theorem CalculateBalances_error_iff
    (unmarshal : List UInt8 → Except String (List ExpenseSplit))
    (rangeOrder : List Balance → List Balance) (db : DB) (groupID : String) :
    ((∃ err, CalculateBalances unmarshal rangeOrder db groupID = .error err) ↔
      ((∃ err, db.findExpenses groupID = .error err) ∨
        (∃ err, db.firstGroup groupID = .error err))) ∧
    (∀ (balances : List (String × Balance)) (expense : Expense) (err : String),
      expense.GetSplits unmarshal = .error err →
      CalculateBalances.processExpense unmarshal balances expense = balances) := by
  constructor
  · unfold CalculateBalances
    cases he : db.findExpenses groupID with
    | error err => simp
    | ok expenses =>
      cases hg : db.firstGroup groupID with
      | error err => simp
      | ok group => simp
  · intro balances expense err h
    simp [CalculateBalances.processExpense, h]

/-! ## Expenses that do not decode, reordered expenses, ids outside the roster -/

theorem contribution_of_not_decodes (unmarshal : List UInt8 → Except String (List ExpenseSplit))
    (e : Expense) (k : String) (h : decodes unmarshal e = false) :
    contribution unmarshal e k = 0 := by
  unfold decodes at h
  unfold contribution
  cases hs : e.GetSplits unmarshal with
  | error err => rfl
  | ok splits => rw [hs] at h; simp at h

theorem sum_contribution_filter (unmarshal : List UInt8 → Except String (List ExpenseSplit))
    (expenses : List Expense) (k : String) :
    ((expenses.filter (decodes unmarshal)).map (fun e => contribution unmarshal e k)).sum =
      (expenses.map (fun e => contribution unmarshal e k)).sum := by
  induction expenses with
  | nil => rfl
  | cons e rest ih =>
    cases h : decodes unmarshal e with
    | false =>
      simp [List.filter_cons, h, ih, contribution_of_not_decodes unmarshal e k h]
    | true => simp [List.filter_cons, h, ih]

theorem mapSet_userID (m : List (String × Balance)) (k : String) (v : Balance)
    (hm : ∀ kv ∈ m, kv.2.UserID = kv.1) (hv : v.UserID = k) :
    ∀ kv ∈ mapSet m k v, kv.2.UserID = kv.1 := by
  induction m with
  | nil => simpa [mapSet] using hv
  | cons kv m ih =>
    obtain ⟨k', v'⟩ := kv
    by_cases h : k' = k
    · simp only [mapSet, h, if_true]
      intro kv hkv
      rcases List.mem_cons.1 hkv with rfl | hkv
      · exact hv
      · exact hm kv (List.mem_cons_of_mem _ hkv)
    · simp only [mapSet, h, if_false]
      intro kv hkv
      rcases List.mem_cons.1 hkv with rfl | hkv
      · exact hm _ (List.mem_cons_self _ _)
      · exact ih (fun kv hkv => hm kv (List.mem_cons_of_mem _ hkv)) kv hkv

theorem init_fold_userID (members : List User) :
    ∀ acc : List (String × Balance), (∀ kv ∈ acc, kv.2.UserID = kv.1) →
      ∀ kv ∈ members.foldl (fun balances member =>
          mapSet balances member.ID
            { UserID := member.ID, Name := member.Name, Amount := 0 }) acc,
        kv.2.UserID = kv.1 := by
  induction members with
  | nil => intro acc h; exact h
  | cons u members ih =>
    intro acc h
    simp only [List.foldl_cons]
    exact ih _ (mapSet_userID acc u.ID _ h rfl)

theorem init_userID (members : List User) :
    ∀ kv ∈ CalculateBalances.init members, kv.2.UserID = kv.1 :=
  init_fold_userID members [] (by simp)

/-- Every balance of the result carries the id of a roster member, and every roster member
has a balance in the result. -/
theorem result_userIDs (members : List User) (g : String → ℚ) (id' : String) :
    id' ∈ ((mapAddEach (CalculateBalances.init members) g).map Prod.snd).map Balance.UserID ↔
      id' ∈ members.map User.ID := by
  rw [← mem_init_keys members id']
  simp only [mapAddEach, List.map_map, List.mem_map, Function.comp_apply]
  constructor
  · rintro ⟨kv, hkv, rfl⟩
    exact ⟨kv, hkv, (init_userID members kv hkv).symm⟩
  · rintro ⟨kv, hkv, rfl⟩
    exact ⟨kv, hkv, init_userID members kv hkv⟩

theorem contribution_known (unmarshal : List UInt8 → Except String (List ExpenseSplit))
    (ids : List String) (e : Expense) (k : String) (hk : k ∈ ids) :
    contribution (knownSplitsOnly ids unmarshal) (omitUnknownPayerCredit ids e) k =
      contribution unmarshal e k := by
  have hdata : (omitUnknownPayerCredit ids e).SplitData = e.SplitData := by
    unfold omitUnknownPayerCredit; split_ifs <;> rfl
  have hpay : (if (omitUnknownPayerCredit ids e).PaidBy = k
      then (omitUnknownPayerCredit ids e).Amount else 0) =
      (if e.PaidBy = k then e.Amount else 0) := by
    unfold omitUnknownPayerCredit
    by_cases hp : e.PaidBy ∈ ids
    · simp [hp]
    · have : e.PaidBy ≠ k := fun e' => hp (e' ▸ hk)
      simp [hp, this]
  unfold contribution Expense.GetSplits knownSplitsOnly
  rw [hdata]
  cases hs : unmarshal e.SplitData with
  | error err => rfl
  | ok splits =>
    simp only [hpay]
    congr 3
    rw [List.filter_filter]
    apply List.filter_congr
    intro s _
    by_cases h : s.UserID = k
    · simp [h, hk]
    · simp [h]

theorem rangeOrder_perm (order₁ order₂ : List Balance → List Balance)
    (hord₁ : ∀ l, (order₁ l).Perm l) (hord₂ : ∀ l, (order₂ l).Perm l)
    (x y : List Balance) (hxy : x = y) : (order₁ x).Perm (order₂ y) := by
  subst hxy
  exact (hord₁ x).trans (hord₂ x).symm

theorem init_mapAddEach_congr (members : List User) (g h : String → ℚ)
    (e : ∀ k ∈ members.map User.ID, g k = h k) :
    mapAddEach (CalculateBalances.init members) g =
      mapAddEach (CalculateBalances.init members) h :=
  mapAddEach_congr _ g h (fun k hk => e k ((mem_init_keys members k).1 hk))

/-! ## Settled claims: balance computation, continued -/

/-- C11 (known members only): for every roster and expense list, `CalculateBalances`
returns the same balances as it does when every split whose `UserID` is not in the roster
is removed and every expense whose `PaidBy` is not in the roster has nothing credited;
the ids of the returned balances are exactly the roster ids, so no entry is created for
an unknown id. -/
theorem CalculateBalances_known_members_only
    (unmarshal : List UInt8 → Except String (List ExpenseSplit))
    (order₁ order₂ : List Balance → List Balance) (db db' : DB) (groupID : String)
    (expenses : List Expense) (group : Group)
    (hord₁ : ∀ l, (order₁ l).Perm l) (hord₂ : ∀ l, (order₂ l).Perm l)
    (he : db.findExpenses groupID = .ok expenses) (hg : db.firstGroup groupID = .ok group)
    (he' : db'.findExpenses groupID =
      .ok (expenses.map (omitUnknownPayerCredit (group.Members.map User.ID))))
    (hg' : db'.firstGroup groupID = .ok group) :
    ∃ result result',
      CalculateBalances unmarshal order₁ db groupID = .ok result ∧
      CalculateBalances (knownSplitsOnly (group.Members.map User.ID) unmarshal) order₂ db'
        groupID = .ok result' ∧
      result.Perm result' ∧
      ∀ k, k ∈ result.map Balance.UserID ↔ k ∈ group.Members.map User.ID := by
  refine ⟨_, _, CalculateBalances_eq unmarshal order₁ db groupID expenses group he hg,
    CalculateBalances_eq _ order₂ db' groupID _ group he' hg', ?_, ?_⟩
  · apply rangeOrder_perm order₁ order₂ hord₁ hord₂
    congr 1
    apply init_mapAddEach_congr
    intro k hk
    rw [List.map_map]
    congr 1
    apply List.map_congr_left
    intro e _
    exact (contribution_known unmarshal _ e k hk).symm
  · intro k
    rw [((hord₁ _).map Balance.UserID).mem_iff]
    exact result_userIDs group.Members _ k

theorem CalculateBalances_known_members_only_witness :
    (∃ result result',
      CalculateBalances sampleUnmarshal id
        (oneGroupDB sampleMembers [dinner, stranger]) "g" = .ok result ∧
      CalculateBalances (knownSplitsOnly (sampleMembers.map User.ID) sampleUnmarshal) id
        (oneGroupDB sampleMembers
          ([dinner, stranger].map (omitUnknownPayerCredit (sampleMembers.map User.ID)))) "g"
        = .ok result' ∧
      result.Perm result' ∧
      ∀ k, k ∈ result.map Balance.UserID ↔ k ∈ sampleMembers.map User.ID) ∧
    CalculateBalances sampleUnmarshal id (oneGroupDB sampleMembers [dinner, stranger]) "g" =
      .ok [⟨"A", "Ann", 35⟩, ⟨"B", "Bob", -30⟩, ⟨"C", "Cy", -30⟩] :=
  ⟨CalculateBalances_known_members_only sampleUnmarshal id id
      (oneGroupDB sampleMembers [dinner, stranger])
      (oneGroupDB sampleMembers
        ([dinner, stranger].map (omitUnknownPayerCredit (sampleMembers.map User.ID))))
      "g" [dinner, stranger] ⟨"g", sampleMembers⟩
      (fun _ => List.Perm.refl _) (fun _ => List.Perm.refl _) rfl rfl rfl rfl,
    by decide!⟩

/-- C12 (scenario 4): for every roster and an empty expense list, `CalculateBalances`
returns a balance of exactly 0 for every roster member and nothing else, and
`CalculateSettlements` applied to that result returns an empty sequence. -/
theorem CalculateBalances_no_expenses
    (unmarshal : List UInt8 → Except String (List ExpenseSplit))
    (rangeOrder : List Balance → List Balance) (db : DB) (groupID : String) (group : Group)
    (hord : ∀ l, (rangeOrder l).Perm l)
    (he : db.findExpenses groupID = .ok []) (hg : db.firstGroup groupID = .ok group)
    (k : Nat) :
    ∃ result, CalculateBalances unmarshal rangeOrder db groupID = .ok result ∧
      (∀ b ∈ result, b.Amount = 0) ∧
      (∀ u ∈ group.Members, ∃ b ∈ result, b.UserID = u.ID ∧ b.Amount = 0) ∧
      CalculateSettlements (k + 1) result = some ([], result) := by
  refine ⟨_, CalculateBalances_eq unmarshal rangeOrder db groupID [] group he hg, ?_⟩
  have hz : ∀ b ∈ rangeOrder ((mapAddEach (CalculateBalances.init group.Members)
      (fun k => (([] : List Expense).map (fun e => contribution unmarshal e k)).sum)).map
        Prod.snd), b.Amount = 0 := by
    intro b hb
    rw [(hord _).mem_iff] at hb
    simp only [List.map_nil, List.sum_nil, mapAddEach_zero, List.mem_map] at hb
    obtain ⟨kv, hkv, rfl⟩ := hb
    exact init_amount_zero group.Members kv hkv
  refine ⟨hz, ?_, ?_⟩
  · intro u hu
    have hmem := (result_userIDs group.Members
      (fun k => (([] : List Expense).map (fun e => contribution unmarshal e k)).sum) u.ID).2
      (List.mem_map_of_mem User.ID hu)
    rw [← ((hord _).map Balance.UserID).mem_iff] at hmem
    obtain ⟨b, hb, hb'⟩ := List.mem_map.1 hmem
    exact ⟨b, hb, hb', hz b hb⟩
  · have hd := maxDebt_eq_zero_of_nonneg _ (fun b hb => (hz b hb).ge)
    have hi := iter_eq_none _ (Or.inl hd)
    unfold CalculateSettlements CalculateSettlements.loop
    rw [hi]
    rfl

theorem CalculateBalances_no_expenses_witness :
    (∃ result, CalculateBalances sampleUnmarshal id (oneGroupDB sampleMembers []) "g"
        = .ok result ∧
      (∀ b ∈ result, b.Amount = 0) ∧
      (∀ u ∈ sampleMembers, ∃ b ∈ result, b.UserID = u.ID ∧ b.Amount = 0) ∧
      CalculateSettlements 1 result = some ([], result)) ∧
    CalculateBalances sampleUnmarshal id (oneGroupDB sampleMembers []) "g" =
      .ok [⟨"A", "Ann", 0⟩, ⟨"B", "Bob", 0⟩, ⟨"C", "Cy", 0⟩] :=
  ⟨CalculateBalances_no_expenses sampleUnmarshal id (oneGroupDB sampleMembers []) "g"
      ⟨"g", sampleMembers⟩ (fun _ => List.Perm.refl _) rfl rfl 0,
    by decide⟩

/-- C15 (silent skip): for every roster and expense list, when both queries succeed
`CalculateBalances` returns no error, and it returns the same balances as it does on the
expense list with every expense whose split payload does not decode removed; such an
expense contributes nothing, not even the credit of its payer. -/
theorem CalculateBalances_skips_undecodable
    (unmarshal : List UInt8 → Except String (List ExpenseSplit))
    (order₁ order₂ : List Balance → List Balance) (db db' : DB) (groupID : String)
    (expenses : List Expense) (group : Group)
    (hord₁ : ∀ l, (order₁ l).Perm l) (hord₂ : ∀ l, (order₂ l).Perm l)
    (he : db.findExpenses groupID = .ok expenses) (hg : db.firstGroup groupID = .ok group)
    (he' : db'.findExpenses groupID = .ok (expenses.filter (decodes unmarshal)))
    (hg' : db'.firstGroup groupID = .ok group) :
    ∃ result result',
      CalculateBalances unmarshal order₁ db groupID = .ok result ∧
      CalculateBalances unmarshal order₂ db' groupID = .ok result' ∧
      result.Perm result' := by
  refine ⟨_, _, CalculateBalances_eq unmarshal order₁ db groupID expenses group he hg,
    CalculateBalances_eq _ order₂ db' groupID _ group he' hg', ?_⟩
  apply rangeOrder_perm order₁ order₂ hord₁ hord₂
  congr 1
  apply init_mapAddEach_congr
  intro k _
  exact (sum_contribution_filter unmarshal expenses k).symm

theorem CalculateBalances_skips_undecodable_witness :
    ([dinner, garbled, taxi].filter (decodes sampleUnmarshal) = [dinner, taxi]) ∧
    (∃ result result',
      CalculateBalances sampleUnmarshal id
        (oneGroupDB sampleMembers [dinner, garbled, taxi]) "g" = .ok result ∧
      CalculateBalances sampleUnmarshal id
        (oneGroupDB sampleMembers ([dinner, garbled, taxi].filter (decodes sampleUnmarshal)))
        "g" = .ok result' ∧
      result.Perm result') ∧
    CalculateBalances sampleUnmarshal id
        (oneGroupDB sampleMembers [dinner, garbled, taxi]) "g" =
      .ok [⟨"A", "Ann", 60⟩, ⟨"B", "Bob", -10⟩, ⟨"C", "Cy", -50⟩] :=
  ⟨by decide,
    CalculateBalances_skips_undecodable sampleUnmarshal id id
      (oneGroupDB sampleMembers [dinner, garbled, taxi])
      (oneGroupDB sampleMembers ([dinner, garbled, taxi].filter (decodes sampleUnmarshal)))
      "g" [dinner, garbled, taxi] ⟨"g", sampleMembers⟩
      (fun _ => List.Perm.refl _) (fun _ => List.Perm.refl _) rfl rfl rfl rfl,
    by decide!⟩

/-- C16 (expense order independence): for every roster and every two expense lists that
are permutations of each other, `CalculateBalances` returns the same balances, hence the
same amount for every roster member. -/
theorem CalculateBalances_expenses_perm
    (unmarshal : List UInt8 → Except String (List ExpenseSplit))
    (order₁ order₂ : List Balance → List Balance) (db db' : DB) (groupID : String)
    (expenses expenses' : List Expense) (group : Group)
    (hord₁ : ∀ l, (order₁ l).Perm l) (hord₂ : ∀ l, (order₂ l).Perm l)
    (he : db.findExpenses groupID = .ok expenses) (hg : db.firstGroup groupID = .ok group)
    (he' : db'.findExpenses groupID = .ok expenses')
    (hg' : db'.firstGroup groupID = .ok group)
    (hperm : expenses.Perm expenses') :
    ∃ result result',
      CalculateBalances unmarshal order₁ db groupID = .ok result ∧
      CalculateBalances unmarshal order₂ db' groupID = .ok result' ∧
      result.Perm result' := by
  refine ⟨_, _, CalculateBalances_eq unmarshal order₁ db groupID expenses group he hg,
    CalculateBalances_eq _ order₂ db' groupID _ group he' hg', ?_⟩
  apply rangeOrder_perm order₁ order₂ hord₁ hord₂
  congr 1
  apply init_mapAddEach_congr
  intro k _
  exact List.Perm.sum_eq (hperm.map _)

theorem CalculateBalances_expenses_perm_witness :
    [dinner, taxi].Perm [taxi, dinner] ∧
    (∃ result result',
      CalculateBalances sampleUnmarshal id (oneGroupDB sampleMembers [dinner, taxi]) "g"
        = .ok result ∧
      CalculateBalances sampleUnmarshal id (oneGroupDB sampleMembers [taxi, dinner]) "g"
        = .ok result' ∧
      result.Perm result') :=
  ⟨List.Perm.swap _ _ _,
    CalculateBalances_expenses_perm sampleUnmarshal id id
      (oneGroupDB sampleMembers [dinner, taxi]) (oneGroupDB sampleMembers [taxi, dinner])
      "g" [dinner, taxi] [taxi, dinner] ⟨"g", sampleMembers⟩
      (fun _ => List.Perm.refl _) (fun _ => List.Perm.refl _) rfl rfl rfl rfl
      (List.Perm.swap _ _ _)⟩

/-- C20 (conditional zero sum): for every roster with distinct ids and every expense list
in which every expense that decodes has its `PaidBy` in the roster, every split `UserID`
in the roster, and split amounts summing to its `Amount`, `CalculateBalances` returns one balance per
roster member and their amounts sum to exactly zero; nothing is asked of the expenses
that do not decode. -/
theorem CalculateBalances_zero_sum_of_valid
    (unmarshal : List UInt8 → Except String (List ExpenseSplit))
    (rangeOrder : List Balance → List Balance) (db : DB) (groupID : String)
    (expenses : List Expense) (group : Group)
    (hord : ∀ l, (rangeOrder l).Perm l)
    (he : db.findExpenses groupID = .ok expenses) (hg : db.firstGroup groupID = .ok group)
    (hids : (group.Members.map User.ID).Nodup)
    (hvalid : ∀ e ∈ expenses, decodes unmarshal e = true →
      e.PaidBy ∈ group.Members.map User.ID ∧
      (∀ s ∈ splitsOf unmarshal e, s.UserID ∈ group.Members.map User.ID) ∧
      ((splitsOf unmarshal e).map ExpenseSplit.Amount).sum = e.Amount) :
    ∃ result, CalculateBalances unmarshal rangeOrder db groupID = .ok result ∧
      result.length = group.Members.length ∧ sumAmounts result = 0 := by
  refine ⟨_, CalculateBalances_eq unmarshal rangeOrder db groupID expenses group he hg, ?_, ?_⟩
  · rw [(hord _).length_eq, init_of_nodup group.Members hids]
    simp [mapAddEach]
  have hp : sumAmounts (rangeOrder ((mapAddEach (CalculateBalances.init group.Members)
      (fun k => (expenses.map (fun e => contribution unmarshal e k)).sum)).map Prod.snd)) =
      sumAmounts ((mapAddEach (CalculateBalances.init group.Members)
      (fun k => (expenses.map (fun e => contribution unmarshal e k)).sum)).map Prod.snd) :=
    List.Perm.sum_eq ((hord _).map _)
  rw [hp, sumAmounts_mapAddEach, sumAmounts_init, zero_add]
  apply sum_contributions_keys unmarshal _ expenses (init_keys_nodup group.Members)
  intro e hmem splits hs
  have hdec : decodes unmarshal e = true := by simp [decodes, hs]
  have hso : splitsOf unmarshal e = splits := by simp [splitsOf, hs]
  obtain ⟨h1, h2, h3⟩ := hvalid e hmem hdec
  rw [hso] at h2 h3
  exact ⟨(mem_init_keys _ _).2 h1, fun s hs' => (mem_init_keys _ _).2 (h2 s hs'), h3⟩

theorem CalculateBalances_zero_sum_of_valid_witness :
    (sampleMembers.map User.ID).Nodup ∧
    decodes sampleUnmarshal garbled = false ∧
    (∃ result, CalculateBalances sampleUnmarshal id
        (oneGroupDB sampleMembers [dinner, garbled, taxi]) "g" = .ok result ∧
      result.length = sampleMembers.length ∧ sumAmounts result = 0) :=
  ⟨by decide, by decide,
    CalculateBalances_zero_sum_of_valid sampleUnmarshal id
      (oneGroupDB sampleMembers [dinner, garbled, taxi]) "g" [dinner, garbled, taxi]
      ⟨"g", sampleMembers⟩ (fun _ => List.Perm.refl _) rfl rfl (by decide)
      (by
        intro e hmem hdec
        simp only [List.mem_cons, List.mem_singleton, List.not_mem_nil, or_false] at hmem
        rcases hmem with rfl | rfl | rfl
        · exact ⟨by decide, by decide, by decide!⟩
        · exact absurd hdec (by decide)
        · exact ⟨by decide, by decide, by decide!⟩)⟩

/-! ## Which index the scans keep -/

theorem scanMaxDebt_first (l : List Balance) :
    ∀ (i idx : Nat) (m : ℚ), (scanMaxDebt l i idx m).2 < m →
      ∀ (j : Nat) (b : Balance), l[j]? = some b → i + j < (scanMaxDebt l i idx m).1 →
        (scanMaxDebt l i idx m).2 < b.Amount := by
  induction l with
  | nil => intro i idx m _ j b h; simp at h
  | cons a rest ih =>
    intro i idx m hlt j b hj hij
    by_cases ha : a.Amount < m
    · have e : scanMaxDebt (a :: rest) i idx m = scanMaxDebt rest (i + 1) i a.Amount := by
        simp [scanMaxDebt, ha]
      rw [e] at hlt hij ⊢
      rcases (scanMaxDebt_spec rest (i + 1) i a.Amount).2.2 with ⟨_, h2⟩ | ⟨h1, _, _⟩
      · omega
      · cases j with
        | zero =>
          simp only [List.getElem?_cons_zero, Option.some.injEq] at hj
          rw [← hj]; exact h1
        | succ j =>
          simp only [List.getElem?_cons_succ] at hj
          exact ih (i + 1) i a.Amount h1 j b hj (by omega)
    · have e : scanMaxDebt (a :: rest) i idx m = scanMaxDebt rest (i + 1) idx m := by
        simp [scanMaxDebt, ha]
      rw [e] at hlt hij ⊢
      cases j with
      | zero =>
        simp only [List.getElem?_cons_zero, Option.some.injEq] at hj
        rw [← hj]; exact lt_of_lt_of_le hlt (not_lt.1 ha)
      | succ j =>
        simp only [List.getElem?_cons_succ] at hj
        exact ih (i + 1) idx m hlt j b hj (by omega)

theorem scanMaxCredit_first (l : List Balance) :
    ∀ (i idx : Nat) (m : ℚ), m < (scanMaxCredit l i idx m).2 →
      ∀ (j : Nat) (b : Balance), l[j]? = some b → i + j < (scanMaxCredit l i idx m).1 →
        b.Amount < (scanMaxCredit l i idx m).2 := by
  induction l with
  | nil => intro i idx m _ j b h; simp at h
  | cons a rest ih =>
    intro i idx m hlt j b hj hij
    by_cases ha : a.Amount > m
    · have e : scanMaxCredit (a :: rest) i idx m = scanMaxCredit rest (i + 1) i a.Amount := by
        simp [scanMaxCredit, ha]
      rw [e] at hlt hij ⊢
      rcases (scanMaxCredit_spec rest (i + 1) i a.Amount).2.2 with ⟨_, h2⟩ | ⟨h1, _, _⟩
      · omega
      · cases j with
        | zero =>
          simp only [List.getElem?_cons_zero, Option.some.injEq] at hj
          rw [← hj]; exact h1
        | succ j =>
          simp only [List.getElem?_cons_succ] at hj
          exact ih (i + 1) i a.Amount h1 j b hj (by omega)
    · have e : scanMaxCredit (a :: rest) i idx m = scanMaxCredit rest (i + 1) idx m := by
        simp [scanMaxCredit, ha]
      rw [e] at hlt hij ⊢
      cases j with
      | zero =>
        simp only [List.getElem?_cons_zero, Option.some.injEq] at hj
        rw [← hj]; exact lt_of_le_of_lt (not_lt.1 ha) hlt
      | succ j =>
        simp only [List.getElem?_cons_succ] at hj
        exact ih (i + 1) idx m hlt j b hj (by omega)

theorem maxDebt_first (l : List Balance) (j : Nat) (b : Balance) (hj : l[j]? = some b)
    (hlt : j < (scanMaxDebt l 0 0 0).1) : (scanMaxDebt l 0 0 0).2 < b.Amount := by
  rcases (scanMaxDebt_spec l 0 0 0).2.2 with ⟨_, h⟩ | ⟨h, _, _⟩
  · omega
  · exact scanMaxDebt_first l 0 0 0 h j b hj (by omega)

theorem maxCredit_first (l : List Balance) (j : Nat) (b : Balance) (hj : l[j]? = some b)
    (hlt : j < (scanMaxCredit l 0 0 0).1) : b.Amount < (scanMaxCredit l 0 0 0).2 := by
  rcases (scanMaxCredit_spec l 0 0 0).2.2 with ⟨_, h⟩ | ⟨h, _, _⟩
  · omega
  · exact scanMaxCredit_first l 0 0 0 h j b hj (by omega)

theorem maxDebt_ne_zero (l : List Balance) (b : Balance) (hb : b ∈ l) (hneg : b.Amount < 0) :
    (scanMaxDebt l 0 0 0).2 ≠ 0 :=
  ne_of_lt (lt_of_le_of_lt (maxDebt_le l b hb) hneg)

theorem maxCredit_ne_zero (l : List Balance) (b : Balance) (hb : b ∈ l) (hpos : 0 < b.Amount) :
    (scanMaxCredit l 0 0 0).2 ≠ 0 :=
  ne_of_gt (lt_of_lt_of_le hpos (le_maxCredit l b hb))

theorem balanceAt_eq (l : List Balance) (i : Nat) (b : Balance) (h : l[i]? = some b) :
    balanceAt l i = b := by
  simp [balanceAt, List.getD, h]

theorem addAmountAt_getElem?_eq (l : List Balance) :
    ∀ (i : Nat) (x : ℚ) (b : Balance), l[i]? = some b →
      (addAmountAt l i x)[i]? = some { b with Amount := b.Amount + x } := by
  induction l with
  | nil => intro i x b h; simp at h
  | cons a rest ih =>
    intro i x b h
    cases i with
    | zero =>
      simp only [List.getElem?_cons_zero, Option.some.injEq] at h
      subst h
      simp [addAmountAt]
    | succ i =>
      simp only [List.getElem?_cons_succ] at h
      simp only [addAmountAt, List.getElem?_cons_succ]
      exact ih i x b h

/-! ## Settled claims: settlement planning, continued -/

/-- C13 (amount = min(c, -d)) fails on the code: on [A: +100, B: +200, C: -300] the top
credit is c = 200 and the top debt d = -300, so min(c, -d) = 200, and the first pass of
the loop emits the amount -200. -/
theorem smallCredit_amount_not_min :
    (scanMaxCredit smallCredit 0 0 0).2 = 200 ∧
    (scanMaxDebt smallCredit 0 0 0).2 = -300 ∧
    min (200 : ℚ) (-(-300)) = 200 ∧
    (CalculateSettlements.iter smallCredit).map (fun r => r.1.Amount) = some (-200) :=
  ⟨by decide, by decide, by decide!, by decide!⟩

/-- C14 (tie-break on the smallest id) fails on the code: in [A: +100, C: -50, B: -50]
the debtors B and C tie and the transaction names C, although "B" < "C"; in
[B: +50, A: +50, C: -100] the creditors A and B tie and the transaction names B,
although "A" < "B". -/
theorem tie_not_broken_by_id :
    (CalculateSettlements.iter tiedDebtorsSwapped).map (fun r => r.1.From) = some "C" ∧
    "B" < "C" ∧
    (CalculateSettlements.iter tiedCreditors).map (fun r => r.1.To) = some "B" ∧
    "A" < "B" :=
  ⟨by decide!, by decide!, by decide!, by decide!⟩

/-- C14 as amended: on a list with a strictly negative and a strictly positive amount, the
transaction of a pass names as debtor the entry that comes first in the list among those
with the most negative amount, and as creditor the entry that comes first among those
with the largest amount, whatever their ids. -/
theorem iter_names_first_tied (l : List Balance)
    (hneg : ∃ b ∈ l, b.Amount < 0) (hpos : ∃ b ∈ l, 0 < b.Amount) :
    ∃ (t : SettlementTransaction) (l' : List Balance) (i j : Nat) (debtor creditor : Balance),
      CalculateSettlements.iter l = some (t, l') ∧
      l[i]? = some debtor ∧ l[j]? = some creditor ∧
      t.From = debtor.UserID ∧ t.FromName = debtor.Name ∧
      t.To = creditor.UserID ∧ t.ToName = creditor.Name ∧
      (∀ b ∈ l, debtor.Amount ≤ b.Amount) ∧
      (∀ (i' : Nat) (b : Balance), l[i']? = some b → i' < i → debtor.Amount < b.Amount) ∧
      (∀ b ∈ l, b.Amount ≤ creditor.Amount) ∧
      (∀ (j' : Nat) (b : Balance), l[j']? = some b → j' < j → b.Amount < creditor.Amount) := by
  obtain ⟨bn, hbn, hbn'⟩ := hneg
  obtain ⟨bp, hbp, hbp'⟩ := hpos
  have hd := maxDebt_ne_zero l bn hbn hbn'
  have hc := maxCredit_ne_zero l bp hbp hbp'
  obtain ⟨debtor, hdi, hda⟩ := maxDebt_attained l hd
  obtain ⟨creditor, hci, hca⟩ := maxCredit_attained l hc
  refine ⟨_, _, (scanMaxDebt l 0 0 0).1, (scanMaxCredit l 0 0 0).1, debtor, creditor,
    iter_eq_some l hd hc, hdi, hci, ?_, ?_, ?_, ?_, ?_, ?_, ?_, ?_⟩
  · simp [balanceAt_eq l _ _ hdi]
  · simp [balanceAt_eq l _ _ hdi]
  · simp [balanceAt_eq l _ _ hci]
  · simp [balanceAt_eq l _ _ hci]
  · intro b hb; rw [hda]; exact maxDebt_le l b hb
  · intro i' b hb hlt; rw [hda]; exact maxDebt_first l i' b hb hlt
  · intro b hb; rw [hca]; exact le_maxCredit l b hb
  · intro j' b hb hlt; rw [hca]; exact maxCredit_first l j' b hb hlt

theorem iter_names_first_tied_witness :
    ∃ (t : SettlementTransaction) (l' : List Balance) (i j : Nat) (debtor creditor : Balance),
      CalculateSettlements.iter tiedDebtorsSwapped = some (t, l') ∧
      tiedDebtorsSwapped[i]? = some debtor ∧ tiedDebtorsSwapped[j]? = some creditor ∧
      t.From = debtor.UserID ∧ t.FromName = debtor.Name ∧
      t.To = creditor.UserID ∧ t.ToName = creditor.Name ∧
      (∀ b ∈ tiedDebtorsSwapped, debtor.Amount ≤ b.Amount) ∧
      (∀ (i' : Nat) (b : Balance), tiedDebtorsSwapped[i']? = some b → i' < i → debtor.Amount < b.Amount) ∧
      (∀ b ∈ tiedDebtorsSwapped, b.Amount ≤ creditor.Amount) ∧
      (∀ (j' : Nat) (b : Balance), tiedDebtorsSwapped[j']? = some b → j' < j → b.Amount < creditor.Amount) :=
  iter_names_first_tied tiedDebtorsSwapped
    ⟨⟨"C", "Cy", -50⟩, by decide, by decide⟩ ⟨⟨"A", "Ann", 100⟩, by decide, by decide⟩

/-- C17 (the response carries the balances `CalculateBalances` computed) fails on the
code: for group `g1` `CalculateBalances` gives A +60, B -30, C -30, and the `Balances`
field of the response of `GetGroupBalances` is A 0, B 0, C 0, the slice as
`CalculateSettlements` left it. -/
theorem g1_response_balances_overwritten :
    CalculateBalances sampleUnmarshal id sampleDB "g1" =
      .ok [⟨"A", "Ann", 60⟩, ⟨"B", "Bob", -30⟩, ⟨"C", "Cy", -30⟩] ∧
    GetGroupBalances sampleUnmarshal id sampleDB 3 "g1" =
      some (.balances 200
        { Balances := [⟨"A", "Ann", 0⟩, ⟨"B", "Bob", 0⟩, ⟨"C", "Cy", 0⟩],
          Settlements := [⟨"B", "Bob", "A", "Ann", 30⟩, ⟨"C", "Cy", "A", "Ann", 30⟩] }) :=
  ⟨by decide!, by decide!⟩

/-- In exact arithmetic: for every list whose largest amount `c > 0` is strictly less than
the magnitude of its most negative amount `d`, the first transaction has the amount `-c`,
the selected creditor's balance becomes `2c`, the selected debtor's balance becomes
`d - c < d`, the condition holds again for the updated list, and after `fuel` exact passes
the loop has appended `fuel` transactions without reaching `break`. -/
theorem CalculateSettlements_small_credit_diverges (l : List Balance)
    (creditor debtor : Balance) (hcmem : creditor ∈ l) (hdmem : debtor ∈ l)
    (hcmax : ∀ b ∈ l, b.Amount ≤ creditor.Amount)
    (hdmin : ∀ b ∈ l, debtor.Amount ≤ b.Amount)
    (hpos : 0 < creditor.Amount) (hlt : creditor.Amount < -debtor.Amount) :
    ∃ (t : SettlementTransaction) (l' : List Balance) (i j : Nat) (dsel csel : Balance),
      CalculateSettlements.iter l = some (t, l') ∧
      t.Amount = -creditor.Amount ∧
      l[i]? = some dsel ∧ dsel.Amount = debtor.Amount ∧ t.From = dsel.UserID ∧
      l[j]? = some csel ∧ csel.Amount = creditor.Amount ∧ t.To = csel.UserID ∧
      l'[j]? = some { csel with Amount := 2 * creditor.Amount } ∧
      l'[i]? = some { dsel with Amount := debtor.Amount - creditor.Amount } ∧
      debtor.Amount - creditor.Amount < debtor.Amount ∧
      (scanMaxCredit l' 0 0 0).2 = 2 * creditor.Amount ∧
      (scanMaxDebt l' 0 0 0).2 = debtor.Amount - creditor.Amount ∧
      (scanMaxCredit l' 0 0 0).2 < -(scanMaxDebt l' 0 0 0).2 ∧
      ∀ fuel, CalculateSettlements fuel l = none ∧
        (CalculateSettlements.loop fuel [] l).transactions.length = fuel := by
  have hcv : (scanMaxCredit l 0 0 0).2 = creditor.Amount :=
    maxCredit_unique l _ hpos.le
      (fun a ha => by obtain ⟨b, hb, rfl⟩ := List.mem_map.1 ha; exact hcmax b hb)
      (Or.inr (List.mem_map_of_mem _ hcmem))
  have hdv : (scanMaxDebt l 0 0 0).2 = debtor.Amount :=
    maxDebt_unique l _ (by linarith)
      (fun a ha => by obtain ⟨b, hb, rfl⟩ := List.mem_map.1 ha; exact hdmin b hb)
      (Or.inr (List.mem_map_of_mem _ hdmem))
  have hc : (scanMaxCredit l 0 0 0).2 ≠ 0 := by rw [hcv]; exact ne_of_gt hpos
  have hd : (scanMaxDebt l 0 0 0).2 ≠ 0 := by rw [hdv]; intro e; rw [e] at hlt; linarith
  have hlt' : (scanMaxCredit l 0 0 0).2 < -(scanMaxDebt l 0 0 0).2 := by rw [hcv, hdv]; exact hlt
  obtain ⟨dsel, hdi, hda⟩ := maxDebt_attained l hd
  obtain ⟨csel, hci, hca⟩ := maxCredit_attained l hc
  have hne : (scanMaxCredit l 0 0 0).1 ≠ (scanMaxDebt l 0 0 0).1 := by
    intro e
    rw [e, hdi] at hci
    simp only [Option.some.injEq] at hci
    subst hci
    rw [hda, hdv] at hca
    linarith
  obtain ⟨t', l'', e', _, hc', hd'⟩ := iter_small_credit l (by rw [hcv]; exact hpos) hlt'
  have e := iter_eq_some l hd hc
  rw [if_pos hlt'] at e
  rw [e] at e'
  simp only [Option.some.injEq, Prod.mk.injEq] at e'
  obtain ⟨_, rfl⟩ := e'
  have hloop := fun fuel => loop_small_credit fuel [] l (by rw [hcv]; exact hpos) hlt'
  refine ⟨_, _, (scanMaxDebt l 0 0 0).1, (scanMaxCredit l 0 0 0).1, dsel, csel, e, ?_,
    hdi, by rw [hda, hdv], ?_, hci, by rw [hca, hcv], ?_, ?_, ?_, by linarith,
    by rw [hc', hcv]; ring, by rw [hd', hdv, hcv], ?_, ?_⟩
  · simp [hcv]
  · simp [balanceAt_eq l _ _ hdi]
  · simp [balanceAt_eq l _ _ hci]
  · have h1 : (addAmountAt l (scanMaxDebt l 0 0 0).1
        (-(scanMaxCredit l 0 0 0).2))[(scanMaxCredit l 0 0 0).1]? = some csel := by
      rw [addAmountAt_getElem?_ne l _ _ _ hne]; exact hci
    rw [addAmountAt_getElem?_eq _ _ _ csel h1, hca, hcv]
    congr 2
    ring
  · rw [addAmountAt_getElem?_ne _ _ _ _ (Ne.symm hne),
      addAmountAt_getElem?_eq l _ _ dsel hdi, hda, hdv, hcv]
    congr 2
    ring
  · rw [hc', hd', hcv, hdv]; linarith
  · intro fuel
    refine ⟨?_, by simpa using (hloop fuel).2.1⟩
    unfold CalculateSettlements
    simp [(hloop fuel).1]

/-! ## A single creditor -/

theorem sumAmounts_addAmountAt (l : List Balance) :
    ∀ (i : Nat) (x : ℚ) (b : Balance), l[i]? = some b →
      sumAmounts (addAmountAt l i x) = sumAmounts l + x := by
  induction l with
  | nil => intro i x b h; simp at h
  | cons a rest ih =>
    intro i x b h
    cases i with
    | zero => simp [addAmountAt, sumAmounts]; ring
    | succ i =>
      simp only [List.getElem?_cons_succ] at h
      have := ih i x b h
      simp only [sumAmounts, addAmountAt, List.map_cons, List.sum_cons] at this ⊢
      rw [this]; ring

theorem addAmountAt_map_zero (l : List Balance) :
    ∀ (i : Nat) (x : ℚ),
      (addAmountAt l i x).map (fun b => { b with Amount := 0 }) =
        l.map (fun b => { b with Amount := 0 }) := by
  induction l with
  | nil => intro i x; simp [addAmountAt]
  | cons a rest ih =>
    intro i x
    cases i with
    | zero => simp [addAmountAt]
    | succ i => simp [addAmountAt, ih i x]

theorem countP_addAmountAt (p : Balance → Bool) (l : List Balance) :
    ∀ (i : Nat) (x : ℚ) (b : Balance), l[i]? = some b →
      (addAmountAt l i x).countP p + (if p b then 1 else 0) =
        l.countP p + (if p { b with Amount := b.Amount + x } then 1 else 0) := by
  induction l with
  | nil => intro i x b h; simp at h
  | cons a rest ih =>
    intro i x b h
    cases i with
    | zero =>
      simp only [List.getElem?_cons_zero, Option.some.injEq] at h
      subst h
      simp only [addAmountAt, List.countP_cons]
      omega
    | succ i =>
      simp only [List.getElem?_cons_succ] at h
      have := ih i x b h
      simp only [addAmountAt, List.countP_cons]
      omega

theorem sumAmounts_nonpos (l : List Balance)
    (h : ∀ (i : Nat) (b : Balance), l[i]? = some b → b.Amount ≤ 0) : sumAmounts l ≤ 0 := by
  induction l with
  | nil => simp [sumAmounts]
  | cons a rest ih =>
    have h0 := h 0 a (by simp)
    have hr := ih (fun i b hb => h (i + 1) b (by simpa using hb))
    simp only [sumAmounts, List.map_cons, List.sum_cons] at hr ⊢
    linarith

theorem sumAmounts_nonneg (l : List Balance)
    (h : ∀ (i : Nat) (b : Balance), l[i]? = some b → 0 ≤ b.Amount) : 0 ≤ sumAmounts l := by
  induction l with
  | nil => simp [sumAmounts]
  | cons a rest ih =>
    have h0 := h 0 a (by simp)
    have hr := ih (fun i b hb => h (i + 1) b (by simpa using hb))
    simp only [sumAmounts, List.map_cons, List.sum_cons] at hr ⊢
    linarith

/-- With every entry but the one at `j` non-positive, the sum is at most the amount at `j`
plus the amount of any other entry. -/
theorem sumAmounts_le_two (l : List Balance) (j i : Nat) (cr db : Balance)
    (hj : l[j]? = some cr) (hi : l[i]? = some db) (hne : i ≠ j)
    (hothers : ∀ (i' : Nat) (b : Balance), l[i']? = some b → i' ≠ j → b.Amount ≤ 0) :
    sumAmounts l ≤ cr.Amount + db.Amount := by
  have hi1 : (addAmountAt l j (-cr.Amount))[i]? = some db := by
    rw [addAmountAt_getElem?_ne l j i _ hne]; exact hi
  have hs : sumAmounts (addAmountAt (addAmountAt l j (-cr.Amount)) i (-db.Amount)) =
      sumAmounts l + -cr.Amount + -db.Amount := by
    rw [sumAmounts_addAmountAt _ i _ db hi1, sumAmounts_addAmountAt l j _ cr hj]
  have hle : sumAmounts (addAmountAt (addAmountAt l j (-cr.Amount)) i (-db.Amount)) ≤ 0 := by
    apply sumAmounts_nonpos
    intro i' b hb
    by_cases e1 : i' = i
    · subst e1
      rw [addAmountAt_getElem?_eq _ _ _ db hi1] at hb
      simp only [Option.some.injEq] at hb
      rw [← hb]; simp
    · rw [addAmountAt_getElem?_ne _ _ _ _ e1] at hb
      by_cases e2 : i' = j
      · subst e2
        rw [addAmountAt_getElem?_eq _ _ _ cr hj] at hb
        simp only [Option.some.injEq] at hb
        rw [← hb]; simp
      · rw [addAmountAt_getElem?_ne _ _ _ _ e2] at hb
        exact hothers i' b hb e2
  linarith

/-- With every entry but the one at `j` equal to zero, the sum is the amount at `j`. -/
theorem sumAmounts_eq_one (l : List Balance) (j : Nat) (cr : Balance)
    (hj : l[j]? = some cr)
    (hothers : ∀ (i' : Nat) (b : Balance), l[i']? = some b → i' ≠ j → b.Amount = 0) :
    sumAmounts l = cr.Amount := by
  have hs := sumAmounts_addAmountAt l j (-cr.Amount) cr hj
  have hz : ∀ (i' : Nat) (b : Balance),
      (addAmountAt l j (-cr.Amount))[i']? = some b → b.Amount = 0 := by
    intro i' b hb
    by_cases e2 : i' = j
    · subst e2
      rw [addAmountAt_getElem?_eq _ _ _ cr hj] at hb
      simp only [Option.some.injEq] at hb
      rw [← hb]; simp
    · rw [addAmountAt_getElem?_ne _ _ _ _ e2] at hb
      exact hothers i' b hb e2
  have h1 := sumAmounts_nonpos _ (fun i' b hb => (hz i' b hb).le)
  have h2 := sumAmounts_nonneg _ (fun i' b hb => (hz i' b hb).ge)
  linarith

theorem loop_succ_of_iter (n : Nat) (ts : List SettlementTransaction) (l l' : List Balance)
    (t : SettlementTransaction) (h : CalculateSettlements.iter l = some (t, l')) :
    CalculateSettlements.loop (n + 1) ts l = CalculateSettlements.loop n (ts ++ [t]) l' := by
  rw [CalculateSettlements.loop, h]

theorem loop_succ_of_none (n : Nat) (ts : List SettlementTransaction) (l : List Balance)
    (h : CalculateSettlements.iter l = none) :
    CalculateSettlements.loop (n + 1) ts l = ⟨ts, l, true⟩ := by
  rw [CalculateSettlements.loop, h]

/-- One pass on a list that sums to zero whose only possibly positive entry is at `j`,
when some entry is negative: the first of the most negative entries pays its whole debt
to the entry at `j`. -/
theorem iter_single_creditor (l : List Balance) (j : Nat) (cr : Balance)
    (hj : l[j]? = some cr) (hc : 0 ≤ cr.Amount)
    (hothers : ∀ (i : Nat) (b : Balance), l[i]? = some b → i ≠ j → b.Amount ≤ 0)
    (hsum : sumAmounts l = 0) (hneg : ∃ b ∈ l, b.Amount < 0) :
    ∃ (i : Nat) (db : Balance), l[i]? = some db ∧ db.Amount < 0 ∧ i ≠ j ∧
      0 ≤ cr.Amount + db.Amount ∧
      (∀ b ∈ l, db.Amount ≤ b.Amount) ∧
      (∀ (i' : Nat) (b : Balance), l[i']? = some b → i' < i → db.Amount < b.Amount) ∧
      CalculateSettlements.iter l =
        some (payment db cr, addAmountAt (addAmountAt l i (-db.Amount)) j (-(-db.Amount))) := by
  obtain ⟨bn, hbn, hbn'⟩ := hneg
  have hd := maxDebt_ne_zero l bn hbn hbn'
  obtain ⟨db, hdi, hda⟩ := maxDebt_attained l hd
  have hdneg : db.Amount < 0 := by
    rw [hda]; exact lt_of_le_of_ne (maxDebt_nonpos l) hd
  have hdij : (scanMaxDebt l 0 0 0).1 ≠ j := by
    intro e
    rw [e, hj] at hdi
    simp only [Option.some.injEq] at hdi
    subst hdi
    linarith
  have hle := sumAmounts_le_two l j _ cr db hj hdi hdij hothers
  rw [hsum] at hle
  have hcpos : 0 < cr.Amount := by linarith
  have hc' := maxCredit_ne_zero l cr (List.getElem?_mem hj) hcpos
  obtain ⟨cb, hci, hca⟩ := maxCredit_attained l hc'
  have hcij : (scanMaxCredit l 0 0 0).1 = j := by
    by_contra e
    have h1 := hothers _ cb hci e
    have h2 := lt_of_le_of_ne (maxCredit_nonneg l) (Ne.symm hc')
    rw [hca] at h1
    linarith
  rw [hcij, hj] at hci
  simp only [Option.some.injEq] at hci
  subst hci
  have hnlt : ¬ (scanMaxCredit l 0 0 0).2 < -(scanMaxDebt l 0 0 0).2 := by
    rw [← hca, ← hda]; linarith
  have e := iter_eq_some l hd hc'
  rw [if_neg hnlt, hcij, balanceAt_eq l _ db hdi, balanceAt_eq l j cr hj, ← hda] at e
  refine ⟨_, db, hdi, hdneg, hdij, hle, ?_, ?_, e⟩
  · intro b hb; rw [hda]; exact maxDebt_le l b hb
  · intro i' b hb hlt; rw [hda]; exact maxDebt_first l i' b hb hlt

theorem single_creditor_loop :
    ∀ (n : Nat) (l : List Balance) (j : Nat) (cr : Balance),
      l[j]? = some cr → 0 ≤ cr.Amount →
      (∀ (i : Nat) (b : Balance), l[i]? = some b → i ≠ j → b.Amount ≤ 0) →
      sumAmounts l = 0 →
      l.countP (fun b => decide (b.Amount < 0)) = n →
      ∃ js : List Nat, js.length = n ∧
        (∀ i, i ∈ js ↔ ∃ b, l[i]? = some b ∧ b.Amount < 0) ∧
        js.Pairwise (fun i i' =>
          (balanceAt l i).Amount < (balanceAt l i').Amount ∨
          ((balanceAt l i).Amount = (balanceAt l i').Amount ∧ i < i')) ∧
        ∀ (k : Nat) (ts : List SettlementTransaction),
          CalculateSettlements.loop (n + 1 + k) ts l =
            ⟨ts ++ js.map (fun i => payment (balanceAt l i) cr),
              l.map (fun b => { b with Amount := 0 }), true⟩ := by
  intro n
  induction n with
  | zero =>
    intro l j cr hj _ hothers hsum hcount
    have hnn : ∀ b ∈ l, 0 ≤ b.Amount := by
      intro b hb
      have := (List.countP_eq_zero.1 hcount) b hb
      simpa using this
    have hz : ∀ (i : Nat) (b : Balance), l[i]? = some b → i ≠ j → b.Amount = 0 :=
      fun i b hb hne => le_antisymm (hothers i b hb hne) (hnn b (List.getElem?_mem hb))
    have hcr : cr.Amount = 0 := by rw [← sumAmounts_eq_one l j cr hj hz]; exact hsum
    have hall : ∀ b ∈ l, b.Amount = 0 := by
      intro b hb
      obtain ⟨i, hi⟩ := List.getElem?_of_mem hb
      by_cases e : i = j
      · subst e; rw [hj] at hi; cases hi; exact hcr
      · exact hz i b hi e
    refine ⟨[], rfl, ?_, List.Pairwise.nil, ?_⟩
    · intro i
      simp only [List.not_mem_nil, false_iff, not_exists, not_and, not_lt]
      intro b hb
      exact hnn b (List.getElem?_mem hb)
    · intro k ts
      have e : 0 + 1 + k = k + 1 := by omega
      rw [e, loop_succ_of_none k ts l
        (iter_eq_none l (Or.inl (maxDebt_eq_zero_of_nonneg l hnn)))]
      have hmap : l.map (fun b => ({ b with Amount := 0 } : Balance)) = l := by
        conv_rhs => rw [← List.map_id l]
        apply List.map_congr_left
        intro b hb
        have hb0 := hall b hb
        cases b
        simp only [id_eq, Balance.mk.injEq, true_and]
        exact hb0.symm
      simp [hmap]
  | succ n ih =>
    intro l j cr hj hc hothers hsum hcount
    have hex : ∃ b ∈ l, b.Amount < 0 := by
      have hpos : 0 < l.countP (fun b => decide (b.Amount < 0)) := by omega
      obtain ⟨b, hb, hb'⟩ := List.countP_pos_iff.1 hpos
      exact ⟨b, hb, by simpa using hb'⟩
    obtain ⟨di, db, hdi, hdneg, hdij, hle, hmin, hfirst, e⟩ :=
      iter_single_creditor l j cr hj hc hothers hsum hex
    have h1j : (addAmountAt l di (-db.Amount))[j]? = some cr := by
      rw [addAmountAt_getElem?_ne l di j _ (Ne.symm hdij)]; exact hj
    have h1di : (addAmountAt l di (-db.Amount))[di]? =
        some { db with Amount := db.Amount + -db.Amount } :=
      addAmountAt_getElem?_eq l di _ db hdi
    have h'j : (addAmountAt (addAmountAt l di (-db.Amount)) j (-(-db.Amount)))[j]? =
        some { cr with Amount := cr.Amount + -(-db.Amount) } :=
      addAmountAt_getElem?_eq _ j _ cr h1j
    have h'di : (addAmountAt (addAmountAt l di (-db.Amount)) j (-(-db.Amount)))[di]? =
        some { db with Amount := db.Amount + -db.Amount } := by
      rw [addAmountAt_getElem?_ne _ j di _ hdij]; exact h1di
    have h'other : ∀ i : Nat, i ≠ di → i ≠ j →
        (addAmountAt (addAmountAt l di (-db.Amount)) j (-(-db.Amount)))[i]? = l[i]? := by
      intro i h1 h2
      rw [addAmountAt_getElem?_ne _ j i _ h2, addAmountAt_getElem?_ne l di i _ h1]
    have hsum' : sumAmounts (addAmountAt (addAmountAt l di (-db.Amount)) j (-(-db.Amount)))
        = 0 := by
      rw [sumAmounts_addAmountAt _ j _ cr h1j, sumAmounts_addAmountAt l di _ db hdi, hsum]
      ring
    have hothers' : ∀ (i : Nat) (b : Balance),
        (addAmountAt (addAmountAt l di (-db.Amount)) j (-(-db.Amount)))[i]? = some b →
        i ≠ j → b.Amount ≤ 0 := by
      intro i b hb hne
      by_cases e1 : i = di
      · subst e1
        rw [h'di] at hb
        simp only [Option.some.injEq] at hb
        rw [← hb]; simp
      · rw [h'other i e1 hne] at hb
        exact hothers i b hb hne
    have hcount' : (addAmountAt (addAmountAt l di (-db.Amount)) j (-(-db.Amount))).countP
        (fun b => decide (b.Amount < 0)) = n := by
      have c1 := countP_addAmountAt (fun b => decide (b.Amount < 0)) l di (-db.Amount) db hdi
      have c2 := countP_addAmountAt (fun b => decide (b.Amount < 0))
        (addAmountAt l di (-db.Amount)) j (-(-db.Amount)) cr h1j
      have p1 : decide (db.Amount < 0) = true := by simpa using hdneg
      have p2 : decide (db.Amount + -db.Amount < 0) = false := by simp
      have p3 : decide (cr.Amount < 0) = false := by simpa using hc
      have p4 : decide (cr.Amount + -(-db.Amount) < 0) = false := by
        simp only [decide_eq_false_iff_not, not_lt]; linarith
      simp only [p1, p2, p3, p4, if_true, if_false] at c1 c2
      simp only [Bool.false_eq_true, if_false] at c1 c2
      omega
    obtain ⟨js', hlen, hmem', hpw', hloop'⟩ :=
      ih _ j { cr with Amount := cr.Amount + -(-db.Amount) } h'j
        (by simp only; linarith) hothers' hsum' hcount'
    have hjs' : ∀ i ∈ js', i ≠ di ∧ i ≠ j ∧ ∃ b, l[i]? = some b ∧ b.Amount < 0 := by
      intro i hi
      obtain ⟨b, hb, hbneg⟩ := (hmem' i).1 hi
      have e1 : i ≠ di := by
        intro e1
        subst e1
        rw [h'di] at hb
        simp only [Option.some.injEq] at hb
        rw [← hb] at hbneg
        simp at hbneg
      have e2 : i ≠ j := by
        intro e2
        subst e2
        rw [h'j] at hb
        simp only [Option.some.injEq] at hb
        rw [← hb] at hbneg
        simp only at hbneg
        linarith
      rw [h'other i e1 e2] at hb
      exact ⟨e1, e2, b, hb, hbneg⟩
    have hbal : ∀ i ∈ js',
        balanceAt (addAmountAt (addAmountAt l di (-db.Amount)) j (-(-db.Amount))) i =
          balanceAt l i := by
      intro i hi
      obtain ⟨e1, e2, _⟩ := hjs' i hi
      unfold balanceAt
      rw [List.getD_eq_getElem?_getD, List.getD_eq_getElem?_getD, h'other i e1 e2]
    refine ⟨di :: js', by simp [hlen], ?_, ?_, ?_⟩
    · intro i
      constructor
      · intro hi
        rcases List.mem_cons.1 hi with rfl | hi
        · exact ⟨db, hdi, hdneg⟩
        · exact (hjs' i hi).2.2
      · rintro ⟨b, hb, hbneg⟩
        by_cases e1 : i = di
        · rw [e1]; exact List.mem_cons_self _ _
        · have e2 : i ≠ j := by
            intro e2
            subst e2
            rw [hj] at hb
            simp only [Option.some.injEq] at hb
            rw [← hb] at hbneg
            linarith
          refine List.mem_cons_of_mem _ ((hmem' i).2 ⟨b, ?_, hbneg⟩)
          rw [h'other i e1 e2]; exact hb
    · rw [List.pairwise_cons]
      constructor
      · intro i' hi'
        obtain ⟨e1, _, b, hb, _⟩ := hjs' i' hi'
        rw [balanceAt_eq l di db hdi, balanceAt_eq l i' b hb]
        rcases lt_or_eq_of_le (hmin b (List.getElem?_mem hb)) with h | h
        · exact Or.inl h
        · refine Or.inr ⟨h, ?_⟩
          by_contra hnot
          have hlt : i' < di := by omega
          have := hfirst i' b hb hlt
          linarith
      · refine hpw'.imp_of_mem ?_
        intro a b ha hb hab
        rw [hbal a ha, hbal b hb] at hab
        exact hab
    · intro k ts
      have e3 : n + 1 + 1 + k = (n + 1 + k) + 1 := by omega
      rw [e3, loop_succ_of_iter _ ts l _ _ e, hloop' k (ts ++ [payment db cr])]
      have hm : js'.map (fun i => payment
          (balanceAt (addAmountAt (addAmountAt l di (-db.Amount)) j (-(-db.Amount))) i)
          { cr with Amount := cr.Amount + -(-db.Amount) }) =
          js'.map (fun i => payment (balanceAt l i) cr) := by
        apply List.map_congr_left
        intro i hi
        rw [hbal i hi]
        rfl
      rw [hm, addAmountAt_map_zero, addAmountAt_map_zero]
      simp [balanceAt_eq l di db hdi]

/-! ## Partial correctness of the loop -/

theorem iter_indices_ne (l : List Balance)
    (hd : (scanMaxDebt l 0 0 0).2 ≠ 0) (hc : (scanMaxCredit l 0 0 0).2 ≠ 0) :
    (scanMaxDebt l 0 0 0).1 ≠ (scanMaxCredit l 0 0 0).1 := by
  obtain ⟨bd, hbd, hbd'⟩ := maxDebt_attained l hd
  obtain ⟨bc, hbc, hbc'⟩ := maxCredit_attained l hc
  have hdneg : (scanMaxDebt l 0 0 0).2 < 0 := lt_of_le_of_ne (maxDebt_nonpos l) hd
  have hcpos : 0 < (scanMaxCredit l 0 0 0).2 := lt_of_le_of_ne (maxCredit_nonneg l) (Ne.symm hc)
  intro e
  rw [← e, hbd] at hbc
  simp only [Option.some.injEq] at hbc
  subst hbc
  rw [hbd'] at hbc'
  linarith

theorem iter_sum (l l' : List Balance) (t : SettlementTransaction)
    (h : CalculateSettlements.iter l = some (t, l')) :
    sumAmounts l' = sumAmounts l ∧
      (scanMaxDebt l 0 0 0).1 ≠ (scanMaxCredit l 0 0 0).1 := by
  have hn : ¬ ((scanMaxDebt l 0 0 0).2 = 0 ∨ (scanMaxCredit l 0 0 0).2 = 0) := by
    intro hz
    rw [iter_eq_none l hz] at h
    simp at h
  push_neg at hn
  have hne := iter_indices_ne l hn.1 hn.2
  obtain ⟨bd, hbd, _⟩ := maxDebt_attained l hn.1
  obtain ⟨bc, hbc, _⟩ := maxCredit_attained l hn.2
  rw [iter_eq_some l hn.1 hn.2] at h
  simp only [Option.some.injEq, Prod.mk.injEq] at h
  obtain ⟨_, rfl⟩ := h
  refine ⟨?_, hne⟩
  have h1 : (addAmountAt l (scanMaxDebt l 0 0 0).1
      (-(if (scanMaxCredit l 0 0 0).2 < -(scanMaxDebt l 0 0 0).2
          then (scanMaxCredit l 0 0 0).2 else (scanMaxDebt l 0 0 0).2)))[(scanMaxCredit l 0 0 0).1]?
      = some bc := by
    rw [addAmountAt_getElem?_ne l _ _ _ (Ne.symm hne)]; exact hbc
  rw [sumAmounts_addAmountAt _ _ _ bc h1, sumAmounts_addAmountAt l _ _ bd hbd]
  ring

theorem loop_sum :
    ∀ (n : Nat) (ts : List SettlementTransaction) (l : List Balance),
      sumAmounts (CalculateSettlements.loop n ts l).balances = sumAmounts l := by
  intro n
  induction n with
  | zero => intro ts l; rfl
  | succ n ih =>
    intro ts l
    cases hi : CalculateSettlements.iter l with
    | none => rw [loop_succ_of_none n ts l hi]
    | some r =>
      obtain ⟨t, l'⟩ := r
      rw [loop_succ_of_iter n ts l l' t hi, ih, (iter_sum l l' t hi).1]

theorem loop_done_iter :
    ∀ (n : Nat) (ts : List SettlementTransaction) (l : List Balance),
      (CalculateSettlements.loop n ts l).done = true →
      CalculateSettlements.iter (CalculateSettlements.loop n ts l).balances = none := by
  intro n
  induction n with
  | zero => intro ts l h; simp [CalculateSettlements.loop] at h
  | succ n ih =>
    intro ts l h
    cases hi : CalculateSettlements.iter l with
    | none => rw [loop_succ_of_none n ts l hi]; exact hi
    | some r =>
      obtain ⟨t, l'⟩ := r
      rw [loop_succ_of_iter n ts l l' t hi] at h ⊢
      exact ih _ _ h

theorem all_zero_of_nonneg_of_sum (l : List Balance) (h : ∀ b ∈ l, 0 ≤ b.Amount)
    (hs : sumAmounts l = 0) : ∀ b ∈ l, b.Amount = 0 := by
  induction l with
  | nil => intro b hb; simp at hb
  | cons a rest ih =>
    have ha := h a (List.mem_cons_self _ _)
    have hr : 0 ≤ sumAmounts rest :=
      sumAmounts_nonneg rest (fun i b hb => h b (List.mem_cons_of_mem _ (List.getElem?_mem hb)))
    simp only [sumAmounts, List.map_cons, List.sum_cons] at hs hr
    intro b hb
    rcases List.mem_cons.1 hb with rfl | hb
    · linarith
    · exact ih (fun b hb => h b (List.mem_cons_of_mem _ hb))
        (by simp only [sumAmounts]; linarith) b hb

theorem all_zero_of_nonpos_of_sum (l : List Balance) (h : ∀ b ∈ l, b.Amount ≤ 0)
    (hs : sumAmounts l = 0) : ∀ b ∈ l, b.Amount = 0 := by
  induction l with
  | nil => intro b hb; simp at hb
  | cons a rest ih =>
    have ha := h a (List.mem_cons_self _ _)
    have hr : sumAmounts rest ≤ 0 :=
      sumAmounts_nonpos rest (fun i b hb => h b (List.mem_cons_of_mem _ (List.getElem?_mem hb)))
    simp only [sumAmounts, List.map_cons, List.sum_cons] at hs hr
    intro b hb
    rcases List.mem_cons.1 hb with rfl | hb
    · linarith
    · exact ih (fun b hb => h b (List.mem_cons_of_mem _ hb))
        (by simp only [sumAmounts]; linarith) b hb

theorem all_zero_of_iter_none (l : List Balance) (hi : CalculateSettlements.iter l = none)
    (hs : sumAmounts l = 0) : ∀ b ∈ l, b.Amount = 0 := by
  rcases (iter_eq_none_iff l).1 hi with hz | hz
  · exact all_zero_of_nonneg_of_sum l
      (fun b hb => by have := maxDebt_le l b hb; rw [hz] at this; exact this) hs
  · exact all_zero_of_nonpos_of_sum l
      (fun b hb => by have := le_maxCredit l b hb; rw [hz] at this; exact this) hs

theorem map_update_by_id (l : List Balance) :
    ∀ (i : Nat) (x : ℚ) (b : Balance), l[i]? = some b → (l.map Balance.UserID).Nodup →
      l.map (fun a => if a.UserID = b.UserID then { a with Amount := a.Amount + x } else a) =
        addAmountAt l i x := by
  induction l with
  | nil => intro i x b h; simp at h
  | cons a rest ih =>
    intro i x b h hn
    simp only [List.map_cons, List.nodup_cons] at hn
    cases i with
    | zero =>
      simp only [List.getElem?_cons_zero, Option.some.injEq] at h
      subst h
      have hrest : rest.map (fun c =>
          if c.UserID = a.UserID then { c with Amount := c.Amount + x } else c) = rest := by
        conv_rhs => rw [← List.map_id rest]
        apply List.map_congr_left
        intro c hc
        have : c.UserID ≠ a.UserID := fun e => hn.1 (e ▸ List.mem_map_of_mem Balance.UserID hc)
        simp [this]
      simp [addAmountAt, hrest]
    | succ i =>
      simp only [List.getElem?_cons_succ] at h
      have hab : a.UserID ≠ b.UserID := fun e =>
        hn.1 (e ▸ List.mem_map_of_mem Balance.UserID (List.getElem?_mem h))
      simp only [List.map_cons, if_neg hab, addAmountAt, ih i x b h hn.2]

theorem applyTransaction_iter (l l' : List Balance) (t : SettlementTransaction)
    (h : CalculateSettlements.iter l = some (t, l')) (hn : (l.map Balance.UserID).Nodup) :
    applyTransaction l t = l' := by
  have hz : ¬ ((scanMaxDebt l 0 0 0).2 = 0 ∨ (scanMaxCredit l 0 0 0).2 = 0) := by
    intro hz
    rw [iter_eq_none l hz] at h
    simp at h
  push_neg at hz
  have hne := iter_indices_ne l hz.1 hz.2
  obtain ⟨bd, hbd, _⟩ := maxDebt_attained l hz.1
  obtain ⟨bc, hbc, _⟩ := maxCredit_attained l hz.2
  rw [iter_eq_some l hz.1 hz.2, balanceAt_eq l _ bd hbd, balanceAt_eq l _ bc hbc] at h
  simp only [Option.some.injEq, Prod.mk.injEq] at h
  obtain ⟨rfl, rfl⟩ := h
  unfold applyTransaction
  simp only []
  rw [map_update_by_id l _ _ bd hbd hn]
  have h1 : (addAmountAt l (scanMaxDebt l 0 0 0).1
      (-(if (scanMaxCredit l 0 0 0).2 < -(scanMaxDebt l 0 0 0).2
          then (scanMaxCredit l 0 0 0).2 else (scanMaxDebt l 0 0 0).2)))[(scanMaxCredit l 0 0 0).1]?
      = some bc := by
    rw [addAmountAt_getElem?_ne l _ _ _ (Ne.symm hne)]; exact hbc
  rw [← map_update_by_id _ _ _ bc h1 (by rw [addAmountAt_map_UserID]; exact hn)]
  apply List.map_congr_left
  intro a _
  simp only [sub_eq_add_neg]

theorem loop_map_UserID :
    ∀ (n : Nat) (ts : List SettlementTransaction) (l : List Balance),
      (CalculateSettlements.loop n ts l).balances.map Balance.UserID =
        l.map Balance.UserID := by
  intro n
  induction n with
  | zero => intro ts l; rfl
  | succ n ih =>
    intro ts l
    cases hi : CalculateSettlements.iter l with
    | none => rw [loop_succ_of_none n ts l hi]
    | some r =>
      obtain ⟨t, l'⟩ := r
      rw [loop_succ_of_iter n ts l l' t hi, ih]
      have hz : ¬ ((scanMaxDebt l 0 0 0).2 = 0 ∨ (scanMaxCredit l 0 0 0).2 = 0) := by
        intro hz
        rw [iter_eq_none l hz] at hi
        simp at hi
      push_neg at hz
      rw [iter_eq_some l hz.1 hz.2] at hi
      simp only [Option.some.injEq, Prod.mk.injEq] at hi
      rw [← hi.2, addAmountAt_map_UserID, addAmountAt_map_UserID]

theorem loop_applyTransactions :
    ∀ (n : Nat) (ts : List SettlementTransaction) (l : List Balance),
      (l.map Balance.UserID).Nodup →
      ∃ new, (CalculateSettlements.loop n ts l).transactions = ts ++ new ∧
        (CalculateSettlements.loop n ts l).balances = applyTransactions l new := by
  intro n
  induction n with
  | zero => intro ts l _; exact ⟨[], by simp [CalculateSettlements.loop], rfl⟩
  | succ n ih =>
    intro ts l hn
    cases hi : CalculateSettlements.iter l with
    | none =>
      rw [loop_succ_of_none n ts l hi]
      exact ⟨[], by simp, rfl⟩
    | some r =>
      obtain ⟨t, l'⟩ := r
      rw [loop_succ_of_iter n ts l l' t hi]
      have hl' := applyTransaction_iter l l' t hi hn
      have hn' : (l'.map Balance.UserID).Nodup := by
        have hz : ¬ ((scanMaxDebt l 0 0 0).2 = 0 ∨ (scanMaxCredit l 0 0 0).2 = 0) := by
          intro hz
          rw [iter_eq_none l hz] at hi
          simp at hi
        push_neg at hz
        rw [iter_eq_some l hz.1 hz.2] at hi
        simp only [Option.some.injEq, Prod.mk.injEq] at hi
        rw [← hi.2, addAmountAt_map_UserID, addAmountAt_map_UserID]
        exact hn
      obtain ⟨new, h1, h2⟩ := ih (ts ++ [t]) l' hn'
      refine ⟨t :: new, by rw [h1]; simp, ?_⟩
      rw [h2, ← hl']
      rfl

/-! ## The binary64 loop follows the exact loop while no sum is rounded -/

theorem scanMaxDebt_toBinary64 (l : List Balance) :
    ∀ (i idx : Nat) (m : ℚ),
      Binary64.scanMaxDebt (toBinary64 l) i idx (.fin m) =
        ((scanMaxDebt l i idx m).1, .fin (scanMaxDebt l i idx m).2) := by
  induction l with
  | nil => intro i idx m; rfl
  | cons b rest ih =>
    intro i idx m
    by_cases h : b.Amount < m
    · simp only [toBinary64, List.map_cons, Binary64.scanMaxDebt, Balance.toBinary64, F64.lt,
        decide_eq_true_eq, h, if_true, scanMaxDebt]
      exact ih (i + 1) i b.Amount
    · simp only [toBinary64, List.map_cons, Binary64.scanMaxDebt, Balance.toBinary64, F64.lt,
        decide_eq_true_eq, h, if_false, scanMaxDebt]
      exact ih (i + 1) idx m

theorem scanMaxCredit_toBinary64 (l : List Balance) :
    ∀ (i idx : Nat) (m : ℚ),
      Binary64.scanMaxCredit (toBinary64 l) i idx (.fin m) =
        ((scanMaxCredit l i idx m).1, .fin (scanMaxCredit l i idx m).2) := by
  induction l with
  | nil => intro i idx m; rfl
  | cons b rest ih =>
    intro i idx m
    by_cases h : b.Amount > m
    · have h' : m < b.Amount := h
      simp only [toBinary64, List.map_cons, Binary64.scanMaxCredit, Balance.toBinary64, F64.lt,
        decide_eq_true_eq, h', if_true, scanMaxCredit, h]
      exact ih (i + 1) i b.Amount
    · have h' : ¬ m < b.Amount := h
      simp only [toBinary64, List.map_cons, Binary64.scanMaxCredit, Balance.toBinary64, F64.lt,
        decide_eq_true_eq, h', if_false, scanMaxCredit, h]
      exact ih (i + 1) idx m

theorem balanceAt_toBinary64 (l : List Balance) (i : Nat) :
    Binary64.balanceAt (toBinary64 l) i = (balanceAt l i).toBinary64 := by
  unfold Binary64.balanceAt balanceAt toBinary64
  rw [List.getD_eq_getElem?_getD, List.getD_eq_getElem?_getD, List.getElem?_map]
  cases l[i]? <;> rfl

theorem addAmountAt_toBinary64 (l : List Balance) :
    ∀ (i : Nat) (x : ℚ),
      (∀ b, l[i]? = some b → round64 (b.Amount + x) = .fin (b.Amount + x)) →
      Binary64.addAmountAt (toBinary64 l) i (.fin x) = toBinary64 (addAmountAt l i x) := by
  induction l with
  | nil => intro i x _; rfl
  | cons a rest ih =>
    intro i x h
    cases i with
    | zero =>
      have h0 := h a (by simp)
      simp only [toBinary64, List.map_cons, Binary64.addAmountAt, addAmountAt,
        Balance.toBinary64, F64.add, h0]
    | succ i =>
      have hr := ih i x (fun b hb => h b (by simpa using hb))
      simp only [toBinary64, List.map_cons, Binary64.addAmountAt, addAmountAt] at hr ⊢
      rw [hr]

theorem subAmountAt_toBinary64 (l : List Balance) :
    ∀ (i : Nat) (x : ℚ),
      (∀ b, l[i]? = some b → round64 (b.Amount + -x) = .fin (b.Amount + -x)) →
      Binary64.subAmountAt (toBinary64 l) i (.fin x) = toBinary64 (addAmountAt l i (-x)) := by
  induction l with
  | nil => intro i x _; rfl
  | cons a rest ih =>
    intro i x h
    cases i with
    | zero =>
      have h0 := h a (by simp)
      simp only [toBinary64, List.map_cons, Binary64.subAmountAt, addAmountAt,
        Balance.toBinary64, F64.sub, F64.neg, F64.add, h0]
    | succ i =>
      have hr := ih i x (fun b hb => h b (by simpa using hb))
      simp only [toBinary64, List.map_cons, Binary64.subAmountAt, addAmountAt] at hr ⊢
      rw [hr]

theorem iter_toBinary64_none (l : List Balance) (h : CalculateSettlements.iter l = none) :
    Binary64.CalculateSettlements.iter (toBinary64 l) = none := by
  have hz := (iter_eq_none_iff l).1 h
  unfold Binary64.CalculateSettlements.iter
  simp only [scanMaxDebt_toBinary64, scanMaxCredit_toBinary64, F64.eq]
  rcases hz with hz | hz <;> simp [hz]

theorem iter_toBinary64_some (l l' : List Balance) (t : SettlementTransaction)
    (h : CalculateSettlements.iter l = some (t, l')) (hrep : Representable l') :
    Binary64.CalculateSettlements.iter (toBinary64 l) = some (t.toBinary64, toBinary64 l') := by
  have hz : ¬ ((scanMaxDebt l 0 0 0).2 = 0 ∨ (scanMaxCredit l 0 0 0).2 = 0) := by
    intro hz
    rw [iter_eq_none l hz] at h
    simp at h
  push_neg at hz
  have hne := iter_indices_ne l hz.1 hz.2
  obtain ⟨bd, hbd, _⟩ := maxDebt_attained l hz.1
  obtain ⟨bc, hbc, _⟩ := maxCredit_attained l hz.2
  rw [iter_eq_some l hz.1 hz.2] at h
  simp only [Option.some.injEq, Prod.mk.injEq] at h
  obtain ⟨ht, hl'⟩ := h
  set amt := -(if (scanMaxCredit l 0 0 0).2 < -(scanMaxDebt l 0 0 0).2
      then (scanMaxCredit l 0 0 0).2 else (scanMaxDebt l 0 0 0).2) with hamt
  have h1c : (addAmountAt l (scanMaxDebt l 0 0 0).1 amt)[(scanMaxCredit l 0 0 0).1]? =
      some bc := by
    rw [addAmountAt_getElem?_ne l _ _ _ (Ne.symm hne)]; exact hbc
  have hd' : l'[(scanMaxDebt l 0 0 0).1]? = some { bd with Amount := bd.Amount + amt } := by
    rw [← hl', addAmountAt_getElem?_ne _ _ _ _ hne]
    exact addAmountAt_getElem?_eq l _ _ bd hbd
  have hc' : l'[(scanMaxCredit l 0 0 0).1]? = some { bc with Amount := bc.Amount + -amt } := by
    rw [← hl']
    exact addAmountAt_getElem?_eq _ _ _ bc h1c
  have r1 : round64 (bd.Amount + amt) = .fin (bd.Amount + amt) :=
    hrep _ (List.getElem?_mem hd')
  have r2 : round64 (bc.Amount + -amt) = .fin (bc.Amount + -amt) :=
    hrep _ (List.getElem?_mem hc')
  have e1 : Binary64.addAmountAt (toBinary64 l) (scanMaxDebt l 0 0 0).1 (.fin amt) =
      toBinary64 (addAmountAt l (scanMaxDebt l 0 0 0).1 amt) :=
    addAmountAt_toBinary64 l _ amt (fun b hb => by
      rw [hbd] at hb; cases hb; exact r1)
  have e2 : Binary64.subAmountAt (toBinary64 (addAmountAt l (scanMaxDebt l 0 0 0).1 amt))
      (scanMaxCredit l 0 0 0).1 (.fin amt) = toBinary64 l' := by
    rw [← hl']
    exact subAmountAt_toBinary64 _ _ amt (fun b hb => by
      rw [h1c] at hb; cases hb; exact r2)
  have hamt64 : F64.neg (if F64.lt (.fin (scanMaxCredit l 0 0 0).2)
        (F64.neg (.fin (scanMaxDebt l 0 0 0).2)) = true
      then F64.fin (scanMaxCredit l 0 0 0).2 else F64.fin (scanMaxDebt l 0 0 0).2) =
      .fin amt := by
    rw [hamt]
    by_cases hlt : (scanMaxCredit l 0 0 0).2 < -(scanMaxDebt l 0 0 0).2
    · simp [F64.lt, F64.neg, hlt]
    · simp [F64.lt, F64.neg, hlt]
  unfold Binary64.CalculateSettlements.iter
  simp only [scanMaxDebt_toBinary64, scanMaxCredit_toBinary64, F64.eq, hz.1, hz.2,
    decide_False, Bool.or_self, Bool.false_eq_true, if_false, hamt64, e1, e2,
    balanceAt_toBinary64]
  rw [← ht]
  rfl

theorem loop_acc :
    ∀ (n : Nat) (ts : List SettlementTransaction) (l : List Balance),
      (CalculateSettlements.loop n ts l).balances = (CalculateSettlements.loop n [] l).balances ∧
      (CalculateSettlements.loop n ts l).done = (CalculateSettlements.loop n [] l).done ∧
      (CalculateSettlements.loop n ts l).transactions =
        ts ++ (CalculateSettlements.loop n [] l).transactions := by
  intro n
  induction n with
  | zero => intro ts l; simp [CalculateSettlements.loop]
  | succ n ih =>
    intro ts l
    cases hi : CalculateSettlements.iter l with
    | none => simp [loop_succ_of_none n _ l hi]
    | some r =>
      obtain ⟨t, l'⟩ := r
      rw [loop_succ_of_iter n ts l l' t hi, loop_succ_of_iter n [] l l' t hi]
      obtain ⟨a1, a2, a3⟩ := ih (ts ++ [t]) l'
      obtain ⟨b1, b2, b3⟩ := ih ([] ++ [t]) l'
      refine ⟨a1.trans b1.symm, a2.trans b2.symm, ?_⟩
      rw [a3, b3]
      simp

/-- While the balances the exact loop computes are binary64 values, the binary64 loop
computes the same transactions and balances. -/
theorem loop_toBinary64 :
    ∀ (n : Nat) (ts : List SettlementTransaction) (l : List Balance),
      (∀ m, m ≤ n → Representable (CalculateSettlements.loop m [] l).balances) →
      Binary64.CalculateSettlements.loop n (ts.map SettlementTransaction.toBinary64)
          (toBinary64 l) =
        (CalculateSettlements.loop n ts l).toBinary64 := by
  intro n
  induction n with
  | zero => intro ts l _; rfl
  | succ n ih =>
    intro ts l hrep
    cases hi : CalculateSettlements.iter l with
    | none =>
      rw [loop_succ_of_none n ts l hi, Binary64.CalculateSettlements.loop,
        iter_toBinary64_none l hi]
      rfl
    | some r =>
      obtain ⟨t, l'⟩ := r
      have h1 : Representable l' := by
        have := hrep 1 (by omega)
        rw [loop_succ_of_iter 0 [] l l' t hi] at this
        exact this
      rw [loop_succ_of_iter n ts l l' t hi, Binary64.CalculateSettlements.loop,
        iter_toBinary64_some l l' t hi h1]
      simp only []
      have hts : ts.map SettlementTransaction.toBinary64 ++ [t.toBinary64] =
          (ts ++ [t]).map SettlementTransaction.toBinary64 := by simp
      rw [hts]
      apply ih
      intro m hm
      have := hrep (m + 1) (by omega)
      rw [loop_succ_of_iter m [] l l' t hi, (loop_acc m ([] ++ [t]) l').1] at this
      exact this

theorem CalculateSettlements_toBinary64 (fuel : Nat) (l : List Balance)
    (hrep : ∀ m, m ≤ fuel → Representable (CalculateSettlements.loop m [] l).balances) :
    Binary64.CalculateSettlements fuel (toBinary64 l) =
      (CalculateSettlements fuel l).map
        (fun r => (r.1.map SettlementTransaction.toBinary64, toBinary64 r.2)) := by
  have h := loop_toBinary64 fuel [] l hrep
  simp only [List.map_nil] at h
  unfold Binary64.CalculateSettlements CalculateSettlements
  simp only []
  rw [h]
  cases hd : (CalculateSettlements.loop fuel [] l).done <;>
    simp [LoopState.toBinary64, hd, toBinary64]

/-! ## Whole numbers below 2 ^ 53 are binary64 values -/

theorem log2Fuel_spec :
    ∀ (fuel n : Nat), n ≤ fuel → 1 ≤ n →
      2 ^ log2Fuel fuel n ≤ n ∧ n < 2 ^ (log2Fuel fuel n + 1) := by
  intro fuel
  induction fuel with
  | zero => intro n h1 h2; omega
  | succ fuel ih =>
    intro n h1 h2
    by_cases h : n < 2
    · have : n = 1 := by omega
      subst this
      simp [log2Fuel]
    · have hdiv := ih (n / 2) (by omega) (by omega)
      simp only [log2Fuel, h, if_false]
      constructor
      · calc 2 ^ (log2Fuel fuel (n / 2) + 1) = 2 ^ log2Fuel fuel (n / 2) * 2 := by ring
          _ ≤ (n / 2) * 2 := Nat.mul_le_mul_right 2 hdiv.1
          _ ≤ n := Nat.div_mul_le_self n 2
      · have h3 : n / 2 + 1 ≤ 2 ^ (log2Fuel fuel (n / 2) + 1) := hdiv.2
        calc n < (n / 2 + 1) * 2 := by omega
          _ ≤ 2 ^ (log2Fuel fuel (n / 2) + 1) * 2 := Nat.mul_le_mul_right 2 h3
          _ = 2 ^ (log2Fuel fuel (n / 2) + 1 + 1) := by ring

theorem natLog2_spec (n : Nat) (h : 1 ≤ n) :
    2 ^ natLog2 n ≤ n ∧ n < 2 ^ (natLog2 n + 1) :=
  log2Fuel_spec n n le_rfl h

theorem roundHalfEven_intCast (m : ℤ) : roundHalfEven (m : ℚ) = m := by
  unfold roundHalfEven
  simp

theorem pow2_neg_natCast (d : Nat) : pow2 (-(d : ℤ)) = 1 / (2 : ℚ) ^ d := by
  unfold pow2
  cases d with
  | zero => simp
  | succ d =>
    have h : ¬ (0 : ℤ) ≤ -((d + 1 : ℕ) : ℤ) := by push_cast; omega
    rw [if_neg h]
    simp

theorem pow2_natCast (d : Nat) : pow2 (d : ℤ) = (2 : ℚ) ^ d := by
  unfold pow2
  simp

theorem floorLog2_natCast (n : Nat) (h : 1 ≤ n) : floorLog2 (n : ℚ) = natLog2 n := by
  unfold floorLog2
  have h1 : natLog2 1 = 0 := by decide
  have hp : pow2 (natLog2 n : ℤ) ≤ (n : ℚ) := by
    rw [pow2_natCast]
    exact_mod_cast (natLog2_spec n h).1
  simp only [Rat.num_natCast, Int.natAbs_ofNat, Rat.den_natCast, h1, Nat.cast_zero, sub_zero,
    hp, if_true]

/-- A whole number of magnitude below `2 ^ 53` is a binary64 value. -/
theorem round64_intCast (z : ℤ) (h : |z| < 2 ^ 53) : round64 (z : ℚ) = .fin (z : ℚ) := by
  unfold round64
  by_cases hz : (z : ℚ) = 0
  · simp [hz]
  · rw [if_neg hz]
    have hz' : z ≠ 0 := by exact_mod_cast hz
    have hn1 : 1 ≤ z.natAbs := Nat.one_le_iff_ne_zero.2 (Int.natAbs_ne_zero.2 hz')
    have habs : |(z : ℚ)| = (z.natAbs : ℚ) := by
      rw [← Int.cast_abs, Int.abs_eq_natAbs, Int.cast_natCast]
    have hn : z.natAbs < 2 ^ 53 := by
      have : (z.natAbs : ℤ) < 2 ^ 53 := by rw [← Int.abs_eq_natAbs]; exact h
      exact_mod_cast this
    have hK : natLog2 z.natAbs ≤ 52 := by
      have h1 := (natLog2_spec z.natAbs hn1).1
      have h2 : 2 ^ natLog2 z.natAbs < 2 ^ 53 := lt_of_le_of_lt h1 hn
      have := (Nat.pow_lt_pow_iff_right (by norm_num : 1 < 2)).1 h2
      omega
    have he : max (floorLog2 |(z : ℚ)|) (-1022) = (natLog2 z.natAbs : ℤ) := by
      rw [habs, floorLog2_natCast _ hn1]
      apply max_eq_left
      have : (0 : ℤ) ≤ (natLog2 z.natAbs : ℤ) := Int.natCast_nonneg _
      omega
    have hq : pow2 ((natLog2 z.natAbs : ℤ) - 52) = 1 / (2 : ℚ) ^ (52 - natLog2 z.natAbs) := by
      have : ((natLog2 z.natAbs : ℤ) - 52) = -((52 - natLog2 z.natAbs : ℕ) : ℤ) := by
        push_cast [Nat.cast_sub hK]; ring
      rw [this, pow2_neg_natCast]
    have hdiv : (z : ℚ) / (1 / (2 : ℚ) ^ (52 - natLog2 z.natAbs)) =
        ((z * 2 ^ (52 - natLog2 z.natAbs) : ℤ) : ℚ) := by
      push_cast
      field_simp
    have hr : ((z * 2 ^ (52 - natLog2 z.natAbs) : ℤ) : ℚ) *
        (1 / (2 : ℚ) ^ (52 - natLog2 z.natAbs)) = (z : ℚ) := by
      push_cast
      field_simp
    have hbig : ¬ pow2 1024 ≤ |(z : ℚ)| := by
      rw [habs, not_le]
      have e : pow2 1024 = (2 : ℚ) ^ 1024 := pow2_natCast 1024
      rw [e]
      have h3 : (z.natAbs : ℚ) < 2 ^ 53 := by exact_mod_cast hn
      have h4 : (2 : ℚ) ^ 53 ≤ 2 ^ 1024 := by
        apply pow_le_pow_right₀ <;> norm_num
      linarith
    simp only [he, hq, hdiv, roundHalfEven_intCast, hr, hbig, if_false]

/-! ## Whole-number balances stay whole in the single-creditor run -/

theorem Representable_of_whole (l : List Balance) (h : WholeBelow53 l) : Representable l := by
  intro b hb
  obtain ⟨z, hz, hlt⟩ := h b hb
  rw [hz]
  exact round64_intCast z hlt

theorem single_creditor_states :
    ∀ (m : Nat) (l : List Balance) (j : Nat) (cr : Balance),
      l[j]? = some cr → 0 ≤ cr.Amount →
      (∀ (i : Nat) (b : Balance), l[i]? = some b → i ≠ j → b.Amount ≤ 0) →
      sumAmounts l = 0 → WholeBelow53 l →
      WholeBelow53 (CalculateSettlements.loop m [] l).balances := by
  intro m
  induction m with
  | zero => intro l j cr _ _ _ _ hw; exact hw
  | succ m ih =>
    intro l j cr hj hc hothers hsum hw
    by_cases hex : ∃ b ∈ l, b.Amount < 0
    · obtain ⟨di, db, hdi, hdneg, hdij, hle, _, _, e⟩ :=
        iter_single_creditor l j cr hj hc hothers hsum hex
      have h1j : (addAmountAt l di (-db.Amount))[j]? = some cr := by
        rw [addAmountAt_getElem?_ne l di j _ (Ne.symm hdij)]; exact hj
      have h1di : (addAmountAt l di (-db.Amount))[di]? =
          some { db with Amount := db.Amount + -db.Amount } :=
        addAmountAt_getElem?_eq l di _ db hdi
      have h'j : (addAmountAt (addAmountAt l di (-db.Amount)) j (-(-db.Amount)))[j]? =
          some { cr with Amount := cr.Amount + -(-db.Amount) } :=
        addAmountAt_getElem?_eq _ j _ cr h1j
      have h'di : (addAmountAt (addAmountAt l di (-db.Amount)) j (-(-db.Amount)))[di]? =
          some { db with Amount := db.Amount + -db.Amount } := by
        rw [addAmountAt_getElem?_ne _ j di _ hdij]; exact h1di
      have h'other : ∀ i : Nat, i ≠ di → i ≠ j →
          (addAmountAt (addAmountAt l di (-db.Amount)) j (-(-db.Amount)))[i]? = l[i]? := by
        intro i h1 h2
        rw [addAmountAt_getElem?_ne _ j i _ h2, addAmountAt_getElem?_ne l di i _ h1]
      have hsum' : sumAmounts (addAmountAt (addAmountAt l di (-db.Amount)) j (-(-db.Amount)))
          = 0 := by
        rw [sumAmounts_addAmountAt _ j _ cr h1j, sumAmounts_addAmountAt l di _ db hdi, hsum]
        ring
      have hothers' : ∀ (i : Nat) (b : Balance),
          (addAmountAt (addAmountAt l di (-db.Amount)) j (-(-db.Amount)))[i]? = some b →
          i ≠ j → b.Amount ≤ 0 := by
        intro i b hb hne
        by_cases e1 : i = di
        · subst e1
          rw [h'di] at hb
          simp only [Option.some.injEq] at hb
          rw [← hb]; simp
        · rw [h'other i e1 hne] at hb
          exact hothers i b hb hne
      have hw' : WholeBelow53
          (addAmountAt (addAmountAt l di (-db.Amount)) j (-(-db.Amount))) := by
        intro b hb
        obtain ⟨i, hi⟩ := List.getElem?_of_mem hb
        by_cases e1 : i = di
        · subst e1
          rw [h'di] at hi
          simp only [Option.some.injEq] at hi
          refine ⟨0, ?_, by norm_num⟩
          rw [← hi]; simp
        · by_cases e2 : i = j
          · subst e2
            rw [h'j] at hi
            simp only [Option.some.injEq] at hi
            obtain ⟨zc, hzc, hzc'⟩ := hw cr (List.getElem?_mem hj)
            obtain ⟨zd, hzd, _⟩ := hw db (List.getElem?_mem hdi)
            refine ⟨zc + zd, ?_, ?_⟩
            · rw [← hi]; simp only [hzc, hzd]; push_cast; ring
            · have h1 : (0 : ℚ) ≤ ((zc + zd : ℤ) : ℚ) := by
                push_cast; rw [← hzc, ← hzd]; exact hle
              have h2 : (zd : ℚ) < 0 := by rw [← hzd]; exact hdneg
              have h1' : 0 ≤ zc + zd := by exact_mod_cast h1
              have h2' : zd < 0 := by exact_mod_cast h2
              have h3 : |zc + zd| = zc + zd := abs_of_nonneg h1'
              have h4 : zc ≤ |zc| := le_abs_self zc
              rw [h3]; omega
          · rw [h'other i e1 e2] at hi
            exact hw b (List.getElem?_mem hi)
      rw [loop_succ_of_iter m [] l _ _ e, (loop_acc m _ _).1]
      exact ih _ j { cr with Amount := cr.Amount + -(-db.Amount) } h'j
        (by simp only; linarith) hothers' hsum' hw'
    · have hnn : ∀ b ∈ l, 0 ≤ b.Amount := by
        intro b hb
        by_contra hlt
        exact hex ⟨b, hb, not_le.1 hlt⟩
      rw [loop_succ_of_none m [] l
        (iter_eq_none l (Or.inl (maxDebt_eq_zero_of_nonneg l hnn)))]
      exact hw

/-- C19 fails on the binary64 code for decimal amounts. The balances 595.13, -216.02,
-179.57, -199.54 (one positive entry; the exact sum of the four binary64 values is zero):
the loop reaches `break` after three transactions and leaves A at `2 ^ -45`, not at zero.
The balances 272.25, -107.24, -61.22, -103.79 (one positive entry, exact sum zero): the loop
returns five transactions for the three negative entries, three of them from C. -/
theorem cents_single_creditor_not_settled :
    (Binary64.sumAmounts (Binary64.ofDecimals cents2) = 0 ∧
      Binary64.CalculateSettlements 4 (Binary64.ofDecimals cents2) =
        some ([⟨"B", "Bob", "A", "Ann", round64 (21602 / 100)⟩,
            ⟨"D", "Dee", "A", "Ann", round64 (19954 / 100)⟩,
            ⟨"C", "Cy", "A", "Ann", round64 (17957 / 100)⟩],
          [⟨"A", "Ann", .fin (1 / 2 ^ 45)⟩, ⟨"B", "Bob", .fin 0⟩, ⟨"C", "Cy", .fin 0⟩,
            ⟨"D", "Dee", .fin 0⟩])) ∧
    (Binary64.sumAmounts (Binary64.ofDecimals cents3) = 0 ∧
      (Binary64.CalculateSettlements 6 (Binary64.ofDecimals cents3)).map
          (fun r => r.1.map (fun t => (t.From, t.To, F64.lt t.Amount (.fin 0)))) =
        some [("B", "A", false), ("D", "A", false), ("C", "A", true), ("C", "A", true),
          ("C", "A", false)]) :=
  ⟨⟨by decide!, by decide!⟩, by decide!, by decide!⟩

/-- C19 as amended (single creditor, whole-number amounts): for every list of balances
whose amounts are whole numbers of magnitude below `2 ^ 53`, that sums to zero and has
exactly one strictly positive entry (at index `j`), the binary64 `CalculateSettlements`
reaches `break` and returns exactly one transaction per strictly negative entry, in which
that debtor pays the magnitude of its balance to the single creditor; the debtors are paid
most negative first and equal debts in input order (`js` lists their indices in the order
paid), and all working balances end at zero. -/
theorem CalculateSettlements_binary64_single_creditor (l : List Balance) (j : Nat)
    (creditor : Balance) (hwhole : WholeBelow53 l)
    (hsum : sumAmounts l = 0)
    (hj : l[j]? = some creditor) (hpos : 0 < creditor.Amount)
    (hothers : ∀ (i : Nat) (b : Balance), l[i]? = some b → i ≠ j → b.Amount ≤ 0) :
    ∃ js : List Nat,
      (∀ i, i ∈ js ↔ ∃ b, l[i]? = some b ∧ b.Amount < 0) ∧ js.Nodup ∧
      js.Pairwise (fun i i' =>
        (balanceAt l i).Amount < (balanceAt l i').Amount ∨
        ((balanceAt l i).Amount = (balanceAt l i').Amount ∧ i < i')) ∧
      ∀ k, Binary64.CalculateSettlements (js.length + 1 + k) (toBinary64 l) =
        some (js.map (fun i => (payment (balanceAt l i) creditor).toBinary64),
          (toBinary64 l).map (fun b => { b with Amount := .fin 0 })) := by
  obtain ⟨js, hlen, hmem, hpw, hloop⟩ :=
    single_creditor_loop _ l j creditor hj hpos.le hothers hsum rfl
  refine ⟨js, hmem, ?_, hpw, ?_⟩
  · refine hpw.imp ?_
    intro a b hab e
    subst e
    rcases hab with h | ⟨_, h⟩
    · exact lt_irrefl _ h
    · exact lt_irrefl _ h
  · intro k
    rw [CalculateSettlements_toBinary64 _ l (fun m _ => Representable_of_whole _
      (single_creditor_states m l j creditor hj hpos.le hothers hsum hwhole))]
    unfold CalculateSettlements
    rw [hlen, hloop k []]
    simp [toBinary64, Balance.toBinary64, Function.comp_def]

theorem CalculateSettlements_binary64_single_creditor_witness :
    (WholeBelow53 oneCreditor ∧ sumAmounts oneCreditor = 0) ∧
    (∃ js : List Nat,
      (∀ i, i ∈ js ↔ ∃ b, oneCreditor[i]? = some b ∧ b.Amount < 0) ∧ js.Nodup ∧
      js.Pairwise (fun i i' =>
        (balanceAt oneCreditor i).Amount < (balanceAt oneCreditor i').Amount ∨
        ((balanceAt oneCreditor i).Amount = (balanceAt oneCreditor i').Amount ∧ i < i')) ∧
      ∀ k, Binary64.CalculateSettlements (js.length + 1 + k) (toBinary64 oneCreditor) =
        some (js.map (fun i =>
            (payment (balanceAt oneCreditor i) ⟨"A", "Ann", 180⟩).toBinary64),
          (toBinary64 oneCreditor).map (fun b => { b with Amount := .fin 0 }))) ∧
    Binary64.CalculateSettlements 4 (toBinary64 oneCreditor) =
      some ([⟨"C", "Cy", "A", "Ann", .fin 80⟩, ⟨"B", "Bob", "A", "Ann", .fin 50⟩,
          ⟨"D", "Dee", "A", "Ann", .fin 50⟩],
        [⟨"B", "Bob", .fin 0⟩, ⟨"A", "Ann", .fin 0⟩, ⟨"C", "Cy", .fin 0⟩,
          ⟨"D", "Dee", .fin 0⟩]) :=
  ⟨⟨by
      intro b hb
      simp only [oneCreditor, List.mem_cons, List.mem_singleton, List.not_mem_nil,
        or_false] at hb
      rcases hb with rfl | rfl | rfl | rfl
      · exact ⟨-50, by norm_num, by norm_num⟩
      · exact ⟨180, by norm_num, by norm_num⟩
      · exact ⟨-80, by norm_num, by norm_num⟩
      · exact ⟨-50, by norm_num, by norm_num⟩,
      by decide!⟩,
    CalculateSettlements_binary64_single_creditor oneCreditor 1 ⟨"A", "Ann", 180⟩
      (by
        intro b hb
        simp only [oneCreditor, List.mem_cons, List.mem_singleton, List.not_mem_nil,
          or_false] at hb
        rcases hb with rfl | rfl | rfl | rfl
        · exact ⟨-50, by norm_num, by norm_num⟩
        · exact ⟨180, by norm_num, by norm_num⟩
        · exact ⟨-80, by norm_num, by norm_num⟩
        · exact ⟨-50, by norm_num, by norm_num⟩)
      (by decide!) (by decide) (by decide)
      (by
        intro i b hb hne
        rcases i with _ | _ | _ | _ | i
        · simp only [oneCreditor, List.getElem?_cons_zero, Option.some.injEq] at hb
          rw [← hb]; decide
        · exact absurd rfl hne
        · simp only [oneCreditor, List.getElem?_cons_succ, List.getElem?_cons_zero,
            Option.some.injEq] at hb
          rw [← hb]; decide
        · simp only [oneCreditor, List.getElem?_cons_succ, List.getElem?_cons_zero,
            Option.some.injEq] at hb
          rw [← hb]; decide
        · simp [oneCreditor] at hb),
    by decide!⟩

/-! ## The binary64 run while no update rounds -/

theorem sumAmounts_toBinary64 (l : List Balance) :
    Binary64.sumAmounts (toBinary64 l) = sumAmounts l := by
  simp [Binary64.sumAmounts, sumAmounts, toBinary64, Balance.toBinary64, F64.toRat,
    Function.comp_def]

theorem map_UserID_toBinary64 (l : List Balance) :
    (toBinary64 l).map Binary64.Balance.UserID = l.map Balance.UserID := by
  simp [toBinary64, Balance.toBinary64, Function.comp_def]

theorem iter_from_ne_to (l l' : List Balance) (t : SettlementTransaction)
    (h : CalculateSettlements.iter l = some (t, l')) (hn : (l.map Balance.UserID).Nodup) :
    t.From ≠ t.To := by
  have hz : ¬ ((scanMaxDebt l 0 0 0).2 = 0 ∨ (scanMaxCredit l 0 0 0).2 = 0) := by
    intro hz
    rw [iter_eq_none l hz] at h
    simp at h
  push_neg at hz
  have hne := iter_indices_ne l hz.1 hz.2
  obtain ⟨bd, hbd, _⟩ := maxDebt_attained l hz.1
  obtain ⟨bc, hbc, _⟩ := maxCredit_attained l hz.2
  rw [iter_eq_some l hz.1 hz.2, balanceAt_eq l _ bd hbd, balanceAt_eq l _ bc hbc] at h
  simp only [Option.some.injEq, Prod.mk.injEq] at h
  obtain ⟨rfl, _⟩ := h
  simp only
  intro e
  apply hne
  have h1 : (l.map Balance.UserID)[(scanMaxDebt l 0 0 0).1]? = some bd.UserID := by
    rw [List.getElem?_map, hbd]; rfl
  have h2 : (l.map Balance.UserID)[(scanMaxCredit l 0 0 0).1]? = some bd.UserID := by
    rw [List.getElem?_map, hbc, e]; rfl
  have hlt : (scanMaxDebt l 0 0 0).1 < (l.map Balance.UserID).length := by
    by_contra hge
    rw [List.getElem?_eq_none (not_lt.1 hge)] at h1
    cases h1
  exact (List.getElem?_inj hlt hn (h1.trans h2.symm))

theorem applyTransaction_toBinary64 (l : List Balance) (t : SettlementTransaction)
    (hne : t.From ≠ t.To) (hrep : Representable (applyTransaction l t)) :
    Binary64.applyTransaction (toBinary64 l) t.toBinary64 =
      toBinary64 (applyTransaction l t) := by
  obtain ⟨tfrom, tfromName, tto, ttoName, x⟩ := t
  simp only at hne
  unfold Binary64.applyTransaction applyTransaction toBinary64 at *
  simp only [List.map_map]
  apply List.map_congr_left
  intro a ha
  have hr := hrep _ (List.mem_map_of_mem _ (List.mem_map_of_mem _ ha))
  obtain ⟨aid, aname, amt⟩ := a
  simp only [Function.comp_apply, Balance.toBinary64, SettlementTransaction.toBinary64] at hr ⊢
  by_cases h1 : aid = tfrom
  · subst h1
    simp only [if_true, if_neg hne] at hr ⊢
    simp only [F64.add, hr]
  · by_cases h2 : aid = tto
    · subst h2
      simp only [if_neg h1, if_true] at hr ⊢
      rw [sub_eq_add_neg] at hr
      simp only [F64.sub, F64.neg, F64.add, hr, sub_eq_add_neg]
    · simp only [if_neg h1, if_neg h2]

theorem loop_applyTransactions_toBinary64 :
    ∀ (n : Nat) (ts : List SettlementTransaction) (l : List Balance),
      (l.map Balance.UserID).Nodup →
      (∀ m, m ≤ n → Representable (CalculateSettlements.loop m [] l).balances) →
      ∃ new, (CalculateSettlements.loop n ts l).transactions = ts ++ new ∧
        Binary64.applyTransactions (toBinary64 l)
            (new.map SettlementTransaction.toBinary64) =
          toBinary64 (CalculateSettlements.loop n ts l).balances := by
  intro n
  induction n with
  | zero => intro ts l _ _; exact ⟨[], by simp [CalculateSettlements.loop], rfl⟩
  | succ n ih =>
    intro ts l hn hrep
    cases hi : CalculateSettlements.iter l with
    | none =>
      rw [loop_succ_of_none n ts l hi]
      exact ⟨[], by simp, rfl⟩
    | some r =>
      obtain ⟨t, l'⟩ := r
      rw [loop_succ_of_iter n ts l l' t hi]
      have hl' := applyTransaction_iter l l' t hi hn
      have h1 : Representable l' := by
        have := hrep 1 (by omega)
        rw [loop_succ_of_iter 0 [] l l' t hi] at this
        exact this
      have hn' : (l'.map Balance.UserID).Nodup := by
        have := loop_map_UserID 1 [] l
        rw [loop_succ_of_iter 0 [] l l' t hi] at this
        change l'.map Balance.UserID = _ at this
        rw [this]; exact hn
      have hrep' : ∀ m, m ≤ n → Representable (CalculateSettlements.loop m [] l').balances := by
        intro m hm
        have := hrep (m + 1) (by omega)
        rw [loop_succ_of_iter m [] l l' t hi, (loop_acc m ([] ++ [t]) l').1] at this
        exact this
      obtain ⟨new, e1, e2⟩ := ih (ts ++ [t]) l' hn' hrep'
      refine ⟨t :: new, by rw [e1]; simp, ?_⟩
      rw [← e2, List.map_cons]
      unfold Binary64.applyTransactions
      rw [List.foldl_cons, applyTransaction_toBinary64 l t (iter_from_ne_to l l' t hi hn)
        (by rw [hl']; exact h1), hl']

/-! ## Settled claims: the binary64 run -/

/-- C18 (the loop never reaches its stop condition) fails on the binary64 code. On
[A: +100, B: +200, C: -300] the loop has not reached `break` after 54 passes, and reaches
it at the 55th, with 54 transactions returned and A left at +100. -/
theorem smallCredit_binary64_stops :
    Binary64.CalculateSettlements 54 (toBinary64 smallCredit) = none ∧
    (Binary64.CalculateSettlements 55 (toBinary64 smallCredit)).map
        (fun r => (r.1.length, r.2)) =
      some (54, [⟨"A", "Ann", .fin 100⟩, ⟨"B", "Bob", .fin 0⟩, ⟨"C", "Cy", .fin 0⟩]) := by
  constructor <;> decide!

/-- C18 as amended (top credit below top debt, binary64): for every list whose largest
amount `c > 0` is strictly less than the magnitude of its most negative amount `d`, and
for every number `n + 1` of passes in which no update rounds, the first transaction of the
binary64 loop has the amount `-c`, the selected creditor's balance becomes `2c`, the
selected debtor's balance becomes `d - c < d`, the condition holds again for the updated
list, and the loop has not reached `break` after these `n + 1` passes, one transaction
appended in each. -/
theorem CalculateSettlements_binary64_small_credit (n : Nat) (l : List Balance)
    (creditor debtor : Balance) (hcmem : creditor ∈ l) (hdmem : debtor ∈ l)
    (hcmax : ∀ b ∈ l, b.Amount ≤ creditor.Amount)
    (hdmin : ∀ b ∈ l, debtor.Amount ≤ b.Amount)
    (hpos : 0 < creditor.Amount) (hlt : creditor.Amount < -debtor.Amount)
    (hexact : ∀ m, m ≤ n + 1 → Representable (CalculateSettlements.loop m [] l).balances) :
    ∃ (t : Binary64.SettlementTransaction) (l' : List Binary64.Balance) (i j : Nat)
        (dsel csel : Binary64.Balance),
      Binary64.CalculateSettlements.iter (toBinary64 l) = some (t, l') ∧
      t.Amount = .fin (-creditor.Amount) ∧
      (toBinary64 l)[i]? = some dsel ∧ dsel.Amount = .fin debtor.Amount ∧
      t.From = dsel.UserID ∧
      (toBinary64 l)[j]? = some csel ∧ csel.Amount = .fin creditor.Amount ∧
      t.To = csel.UserID ∧
      l'[j]? = some { csel with Amount := .fin (2 * creditor.Amount) } ∧
      l'[i]? = some { dsel with Amount := .fin (debtor.Amount - creditor.Amount) } ∧
      debtor.Amount - creditor.Amount < debtor.Amount ∧
      (Binary64.scanMaxCredit l' 0 0 (.fin 0)).2 = .fin (2 * creditor.Amount) ∧
      (Binary64.scanMaxDebt l' 0 0 (.fin 0)).2 = .fin (debtor.Amount - creditor.Amount) ∧
      F64.lt (Binary64.scanMaxCredit l' 0 0 (.fin 0)).2
        (F64.neg (Binary64.scanMaxDebt l' 0 0 (.fin 0)).2) = true ∧
      Binary64.CalculateSettlements (n + 1) (toBinary64 l) = none ∧
      (Binary64.CalculateSettlements.loop (n + 1) [] (toBinary64 l)).transactions.length
        = n + 1 := by
  obtain ⟨t, l', i, j, dsel, csel, hiter, hamt, hdi, hda, hfrom, hci, hca, hto, hcj', hdi',
    hless, hsc, hsd, hcond, hloop⟩ :=
    CalculateSettlements_small_credit_diverges l creditor debtor hcmem hdmem hcmax hdmin
      hpos hlt
  have hrep' : Representable l' := by
    have := hexact 1 (by omega)
    rw [loop_succ_of_iter 0 [] l l' t hiter] at this
    exact this
  have hsim := CalculateSettlements_toBinary64 (n + 1) l hexact
  have hl := loop_toBinary64 (n + 1) [] l hexact
  simp only [List.map_nil] at hl
  refine ⟨t.toBinary64, toBinary64 l', i, j, dsel.toBinary64, csel.toBinary64,
    iter_toBinary64_some l l' t hiter hrep', ?_, ?_, ?_, ?_, ?_, ?_, ?_, ?_, ?_, hless,
    ?_, ?_, ?_, ?_, ?_⟩
  · simp [SettlementTransaction.toBinary64, hamt]
  · simp [toBinary64, hdi]
  · simp [Balance.toBinary64, hda]
  · simp [SettlementTransaction.toBinary64, Balance.toBinary64, hfrom]
  · simp [toBinary64, hci]
  · simp [Balance.toBinary64, hca]
  · simp [SettlementTransaction.toBinary64, Balance.toBinary64, hto]
  · simp [toBinary64, hcj', Balance.toBinary64]
  · simp [toBinary64, hdi', Balance.toBinary64]
  · rw [scanMaxCredit_toBinary64, hsc]
  · rw [scanMaxDebt_toBinary64, hsd]
  · rw [scanMaxCredit_toBinary64, scanMaxDebt_toBinary64]
    simpa [F64.lt, F64.neg] using hcond
  · rw [hsim, (hloop (n + 1)).1]; rfl
  · rw [hl]
    simpa [LoopState.toBinary64] using (hloop (n + 1)).2

theorem CalculateSettlements_binary64_small_credit_witness :
    (∀ m, m ≤ 9 + 1 → Representable (CalculateSettlements.loop m [] smallCredit).balances) ∧
    ∃ (t : Binary64.SettlementTransaction) (l' : List Binary64.Balance) (i j : Nat)
        (dsel csel : Binary64.Balance),
      Binary64.CalculateSettlements.iter (toBinary64 smallCredit) = some (t, l') ∧
      t.Amount = .fin (-(⟨"B", "Bob", 200⟩ : Balance).Amount) ∧
      (toBinary64 smallCredit)[i]? = some dsel ∧
      dsel.Amount = .fin (⟨"C", "Cy", -300⟩ : Balance).Amount ∧
      t.From = dsel.UserID ∧
      (toBinary64 smallCredit)[j]? = some csel ∧
      csel.Amount = .fin (⟨"B", "Bob", 200⟩ : Balance).Amount ∧
      t.To = csel.UserID ∧
      l'[j]? = some { csel with Amount := .fin (2 * (⟨"B", "Bob", 200⟩ : Balance).Amount) } ∧
      l'[i]? = some { dsel with Amount := .fin ((⟨"C", "Cy", -300⟩ : Balance).Amount
        - (⟨"B", "Bob", 200⟩ : Balance).Amount) } ∧
      (⟨"C", "Cy", -300⟩ : Balance).Amount - (⟨"B", "Bob", 200⟩ : Balance).Amount
        < (⟨"C", "Cy", -300⟩ : Balance).Amount ∧
      (Binary64.scanMaxCredit l' 0 0 (.fin 0)).2
        = .fin (2 * (⟨"B", "Bob", 200⟩ : Balance).Amount) ∧
      (Binary64.scanMaxDebt l' 0 0 (.fin 0)).2
        = .fin ((⟨"C", "Cy", -300⟩ : Balance).Amount - (⟨"B", "Bob", 200⟩ : Balance).Amount) ∧
      F64.lt (Binary64.scanMaxCredit l' 0 0 (.fin 0)).2
        (F64.neg (Binary64.scanMaxDebt l' 0 0 (.fin 0)).2) = true ∧
      Binary64.CalculateSettlements (9 + 1) (toBinary64 smallCredit) = none ∧
      (Binary64.CalculateSettlements.loop (9 + 1) [] (toBinary64 smallCredit)).transactions.length
        = 9 + 1 :=
  ⟨by decide!,
    CalculateSettlements_binary64_small_credit 9 smallCredit ⟨"B", "Bob", 200⟩
      ⟨"C", "Cy", -300⟩ (by decide) (by decide) (by decide) (by decide) (by decide)
      (by decide) (by decide!)⟩

/-- C21 (all working balances are exactly zero at exit) fails on the binary64 code for
decimal amounts. The balances 26.48, -6.60, -10.17, -9.71 have pairwise distinct ids and
the exact sum of the four binary64 values is zero; the loop reaches `break` after three
transactions and leaves A at `2 ^ -49`. -/
theorem cents_exit_not_zero :
    Binary64.sumAmounts (Binary64.ofDecimals cents1) = 0 ∧
    ((Binary64.ofDecimals cents1).map Binary64.Balance.UserID).Nodup ∧
    Binary64.CalculateSettlements 4 (Binary64.ofDecimals cents1) =
      some ([⟨"C", "Cy", "A", "Ann", round64 (1017 / 100)⟩,
          ⟨"D", "Dee", "A", "Ann", round64 (971 / 100)⟩,
          ⟨"B", "Bob", "A", "Ann", round64 (660 / 100)⟩],
        [⟨"A", "Ann", .fin (1 / 2 ^ 49)⟩, ⟨"B", "Bob", .fin 0⟩, ⟨"C", "Cy", .fin 0⟩,
          ⟨"D", "Dee", .fin 0⟩]) :=
  ⟨by decide!, by decide, by decide!⟩

/-- C21 as amended (partial correctness of the binary64 loop while no update rounds):
every pass whose two updates are exact has distinct debtor and creditor indices and
preserves the sum of the working balances; therefore, for every input list that sums to
zero, on which no update of the run rounds and on which the binary64
`CalculateSettlements` reaches `break`, all working balances are exactly zero at exit,
with the ids of the input, and when the ids of the input are pairwise distinct they are
the result of paying the returned transactions on the input. -/
theorem CalculateSettlements_binary64_partial_correctness (fuel : Nat) (l : List Balance)
    (ts : List Binary64.SettlementTransaction) (final : List Binary64.Balance)
    (hexact : ∀ m, m ≤ fuel → Representable (CalculateSettlements.loop m [] l).balances)
    (hsum : sumAmounts l = 0)
    (hret : Binary64.CalculateSettlements fuel (toBinary64 l) = some (ts, final)) :
    (∀ (m m' : List Balance) (t : SettlementTransaction),
      CalculateSettlements.iter m = some (t, m') → Representable m' →
        Binary64.CalculateSettlements.iter (toBinary64 m) =
          some (t.toBinary64, toBinary64 m') ∧
        (Binary64.scanMaxDebt (toBinary64 m) 0 0 (.fin 0)).1 ≠
          (Binary64.scanMaxCredit (toBinary64 m) 0 0 (.fin 0)).1 ∧
        Binary64.sumAmounts (toBinary64 m') = Binary64.sumAmounts (toBinary64 m)) ∧
    (∀ n, n ≤ fuel →
      Binary64.sumAmounts (Binary64.CalculateSettlements.loop n [] (toBinary64 l)).balances
        = 0) ∧
    (∀ b ∈ final, b.Amount = .fin 0) ∧
    final.map Binary64.Balance.UserID = l.map Balance.UserID ∧
    ((l.map Balance.UserID).Nodup →
      Binary64.applyTransactions (toBinary64 l) ts = final) := by
  have hsim := CalculateSettlements_toBinary64 fuel l hexact
  rw [hsim] at hret
  cases hx : CalculateSettlements fuel l with
  | none => rw [hx] at hret; simp at hret
  | some r =>
    obtain ⟨ts', final'⟩ := r
    rw [hx] at hret
    simp only [Option.map_some', Option.some.injEq, Prod.mk.injEq] at hret
    obtain ⟨hts, hfinal⟩ := hret
    have hdone : (CalculateSettlements.loop fuel [] l).done = true := by
      unfold CalculateSettlements at hx
      by_contra hd
      simp [hd] at hx
    have hts' : (CalculateSettlements.loop fuel [] l).transactions = ts' := by
      unfold CalculateSettlements at hx
      simp only [hdone, if_true, Option.some.injEq, Prod.mk.injEq] at hx
      exact hx.1
    have hfinal' : (CalculateSettlements.loop fuel [] l).balances = final' := by
      unfold CalculateSettlements at hx
      simp only [hdone, if_true, Option.some.injEq, Prod.mk.injEq] at hx
      exact hx.2
    refine ⟨?_, ?_, ?_, ?_, ?_⟩
    · intro m m' t h hr
      refine ⟨iter_toBinary64_some m m' t h hr, ?_, ?_⟩
      · rw [scanMaxDebt_toBinary64, scanMaxCredit_toBinary64]
        exact (iter_sum m m' t h).2
      · rw [sumAmounts_toBinary64, sumAmounts_toBinary64]
        exact (iter_sum m m' t h).1
    · intro n hn
      have h := loop_toBinary64 n [] l (fun m hm => hexact m (le_trans hm hn))
      simp only [List.map_nil] at h
      rw [h]
      change Binary64.sumAmounts (toBinary64 (CalculateSettlements.loop n [] l).balances) = 0
      rw [sumAmounts_toBinary64, loop_sum, hsum]
    · rw [← hfinal, ← hfinal']
      intro b hb
      obtain ⟨a, ha, rfl⟩ := List.mem_map.1 hb
      have := all_zero_of_iter_none _ (loop_done_iter fuel [] l hdone)
        (by rw [loop_sum, hsum]) a ha
      simp [Balance.toBinary64, this]
    · rw [← hfinal, map_UserID_toBinary64, ← hfinal']
      exact loop_map_UserID fuel [] l
    · intro hn
      obtain ⟨new, h1, h2⟩ := loop_applyTransactions_toBinary64 fuel [] l hn hexact
      rw [hts'] at h1
      simp only [List.nil_append] at h1
      rw [← hts, h1, h2, hfinal', hfinal]

theorem CalculateSettlements_binary64_partial_correctness_witness :
    (∀ m, m ≤ 3 → Representable (CalculateSettlements.loop m [] scenario1).balances) ∧
    sumAmounts scenario1 = 0 ∧
    (scenario1.map Balance.UserID).Nodup ∧
    Binary64.CalculateSettlements 3 (toBinary64 scenario1) =
      some ([⟨"C", "Cy", "A", "Ann", .fin 200⟩, ⟨"B", "Bob", "A", "Ann", .fin 100⟩],
        [⟨"A", "Ann", .fin 0⟩, ⟨"B", "Bob", .fin 0⟩, ⟨"C", "Cy", .fin 0⟩]) ∧
    (∀ b ∈ [(⟨"A", "Ann", .fin 0⟩ : Binary64.Balance), ⟨"B", "Bob", .fin 0⟩,
        ⟨"C", "Cy", .fin 0⟩], b.Amount = .fin 0) ∧
    Binary64.applyTransactions (toBinary64 scenario1)
        [⟨"C", "Cy", "A", "Ann", .fin 200⟩, ⟨"B", "Bob", "A", "Ann", .fin 100⟩] =
      [⟨"A", "Ann", .fin 0⟩, ⟨"B", "Bob", .fin 0⟩, ⟨"C", "Cy", .fin 0⟩] :=
  ⟨by decide!, by decide!, by decide, by decide!,
    (CalculateSettlements_binary64_partial_correctness 3 scenario1
      [⟨"C", "Cy", "A", "Ann", .fin 200⟩, ⟨"B", "Bob", "A", "Ann", .fin 100⟩]
      [⟨"A", "Ann", .fin 0⟩, ⟨"B", "Bob", .fin 0⟩, ⟨"C", "Cy", .fin 0⟩]
      (by decide!) (by decide!) (by decide!)).2.2.1,
    (CalculateSettlements_binary64_partial_correctness 3 scenario1
      [⟨"C", "Cy", "A", "Ann", .fin 200⟩, ⟨"B", "Bob", "A", "Ann", .fin 100⟩]
      [⟨"A", "Ann", .fin 0⟩, ⟨"B", "Bob", .fin 0⟩, ⟨"C", "Cy", .fin 0⟩]
      (by decide!) (by decide!) (by decide!)).2.2.2.2 (by decide)⟩

/-! ## The binary64 balance computation on whole-number amounts -/

theorem round64_whole (q : ℚ) (hz : ∃ z : ℤ, q = (z : ℚ)) (hb : |q| < 2 ^ 53) :
    round64 q = .fin q := by
  obtain ⟨z, rfl⟩ := hz
  apply round64_intCast
  have : ((|z| : ℤ) : ℚ) < ((2 ^ 53 : ℤ) : ℚ) := by
    rw [Int.cast_abs]; push_cast; exact hb
  exact_mod_cast this

theorem WholeMap_mono (B B' : ℚ) (m : List (String × Balance)) (h : WholeMap B m)
    (hB : B ≤ B') : WholeMap B' m :=
  fun kv hkv => ⟨(h kv hkv).1, le_trans (h kv hkv).2 hB⟩

theorem mapSet_toBinary64 (m : List (String × Balance)) (k : String) (v : Balance) :
    Binary64.mapSet (mapToBinary64 m) k v.toBinary64 = mapToBinary64 (mapSet m k v) := by
  induction m with
  | nil => rfl
  | cons kv m ih =>
    obtain ⟨k', v'⟩ := kv
    by_cases h : k' = k
    · simp [mapToBinary64, Binary64.mapSet, mapSet, h]
    · simp only [mapToBinary64, List.map_cons, Binary64.mapSet, mapSet, h, if_false] at ih ⊢
      rw [ih]

theorem init_toBinary64 (members : List User) :
    Binary64.CalculateBalances.init members =
      mapToBinary64 (CalculateBalances.init members) := by
  unfold Binary64.CalculateBalances.init CalculateBalances.init
  have : ∀ acc : List (String × Balance),
      members.foldl (fun balances member =>
        Binary64.mapSet balances member.ID
          { UserID := member.ID, Name := member.Name, Amount := .fin 0 }) (mapToBinary64 acc) =
      mapToBinary64 (members.foldl (fun balances member =>
        mapSet balances member.ID
          { UserID := member.ID, Name := member.Name, Amount := 0 }) acc) := by
    induction members with
    | nil => intro acc; rfl
    | cons u rest ih =>
      intro acc
      simp only [List.foldl_cons]
      rw [← ih]
      congr 1
      exact mapSet_toBinary64 acc u.ID { UserID := u.ID, Name := u.Name, Amount := 0 }
  exact this []

theorem mapUpdate_add_toBinary64 (k : String) (x B : ℚ) (hx : ∃ z : ℤ, x = (z : ℚ))
    (hB : B + |x| < 2 ^ 53) :
    ∀ m : List (String × Balance), WholeMap B m →
      Binary64.mapUpdate (mapToBinary64 m) k
          (fun bal => { bal with Amount := F64.add bal.Amount (.fin x) }) =
        mapToBinary64 (mapUpdate m k (fun bal => { bal with Amount := bal.Amount + x })) ∧
      WholeMap (B + |x|) (mapUpdate m k (fun bal => { bal with Amount := bal.Amount + x })) := by
  intro m
  induction m with
  | nil => intro _; exact ⟨rfl, fun kv hkv => by simp [mapUpdate] at hkv⟩
  | cons kv m ih =>
    intro hm
    obtain ⟨k', v'⟩ := kv
    have hv := hm (k', v') (List.mem_cons_self _ _)
    have hm' : WholeMap B m := fun kv hkv => hm kv (List.mem_cons_of_mem _ hkv)
    have hx0 : 0 ≤ |x| := abs_nonneg x
    by_cases h : k' = k
    · have hsum : |v'.Amount + x| ≤ B + |x| :=
        le_trans (abs_add v'.Amount x) (by linarith [hv.2])
      have hwhole : ∃ z : ℤ, v'.Amount + x = (z : ℚ) := by
        obtain ⟨z1, h1⟩ := hv.1
        obtain ⟨z2, h2⟩ := hx
        exact ⟨z1 + z2, by rw [h1, h2]; push_cast; ring⟩
      have hr := round64_whole (v'.Amount + x) hwhole (lt_of_le_of_lt hsum hB)
      constructor
      · simp [mapToBinary64, Binary64.mapUpdate, mapUpdate, h, Balance.toBinary64, F64.add, hr]
      · intro kv hkv
        simp only [mapUpdate, h, if_true, List.mem_cons] at hkv
        rcases hkv with rfl | hkv
        · exact ⟨hwhole, hsum⟩
        · exact WholeMap_mono B _ m hm' (by linarith) kv hkv
    · obtain ⟨ih1, ih2⟩ := ih hm'
      constructor
      · simp only [mapToBinary64, List.map_cons, Binary64.mapUpdate, mapUpdate, h,
          if_false] at ih1 ⊢
        rw [ih1]
      · intro kv hkv
        simp only [mapUpdate, h, if_false, List.mem_cons] at hkv
        rcases hkv with rfl | hkv
        · exact ⟨hv.1, le_trans hv.2 (by linarith)⟩
        · exact ih2 kv hkv

theorem mapUpdate_sub_toBinary64 (k : String) (x B : ℚ) (hx : ∃ z : ℤ, x = (z : ℚ))
    (hB : B + |x| < 2 ^ 53) (m : List (String × Balance)) (hm : WholeMap B m) :
    Binary64.mapUpdate (mapToBinary64 m) k
        (fun bal => { bal with Amount := F64.sub bal.Amount (.fin x) }) =
      mapToBinary64 (mapUpdate m k (fun bal => { bal with Amount := bal.Amount - x })) ∧
    WholeMap (B + |x|) (mapUpdate m k (fun bal => { bal with Amount := bal.Amount - x })) := by
  have hx' : ∃ z : ℤ, -x = (z : ℚ) := by
    obtain ⟨z, hz⟩ := hx
    exact ⟨-z, by rw [hz]; push_cast; ring⟩
  have h := mapUpdate_add_toBinary64 k (-x) B hx' (by rw [abs_neg]; exact hB) m hm
  rw [abs_neg] at h
  simp only [F64.sub, F64.neg, sub_eq_add_neg]
  exact h

theorem splits_fold_toBinary64 (splits : List ExpenseSplit) :
    ∀ (m : List (String × Balance)) (B : ℚ), WholeMap B m →
      (∀ s ∈ splits, ∃ z : ℤ, s.Amount = (z : ℚ)) →
      B + (splits.map (fun s => |s.Amount|)).sum < 2 ^ 53 →
      (splits.map ExpenseSplit.toBinary64).foldl (fun balances split =>
          Binary64.mapUpdate balances split.UserID
            (fun bal => { bal with Amount := F64.sub bal.Amount split.Amount }))
          (mapToBinary64 m) =
        mapToBinary64 (splits.foldl (fun balances split =>
          mapUpdate balances split.UserID
            (fun bal => { bal with Amount := bal.Amount - split.Amount })) m) ∧
      WholeMap (B + (splits.map (fun s => |s.Amount|)).sum)
        (splits.foldl (fun balances split =>
          mapUpdate balances split.UserID
            (fun bal => { bal with Amount := bal.Amount - split.Amount })) m) := by
  induction splits with
  | nil => intro m B hm _ _; simpa using hm
  | cons s rest ih =>
    intro m B hm hs hB
    simp only [List.map_cons, List.sum_cons] at hB
    have hrest : 0 ≤ (rest.map (fun s => |s.Amount|)).sum :=
      List.sum_nonneg (fun x hx => by
        obtain ⟨s', _, rfl⟩ := List.mem_map.1 hx
        exact abs_nonneg _)
    obtain ⟨e1, w1⟩ := mapUpdate_sub_toBinary64 s.UserID s.Amount B
      (hs s (List.mem_cons_self _ _)) (by linarith) m hm
    obtain ⟨e2, w2⟩ := ih _ (B + |s.Amount|) w1
      (fun s' hs' => hs s' (List.mem_cons_of_mem _ hs')) (by linarith)
    simp only [List.map_cons, List.foldl_cons, List.sum_cons]
    constructor
    · have : (ExpenseSplit.toBinary64 s).UserID = s.UserID := rfl
      have e1' : Binary64.mapUpdate (mapToBinary64 m) (ExpenseSplit.toBinary64 s).UserID
          (fun bal => { bal with
            Amount := F64.sub bal.Amount (ExpenseSplit.toBinary64 s).Amount }) =
          mapToBinary64 (mapUpdate m s.UserID
            (fun bal => { bal with Amount := bal.Amount - s.Amount })) := e1
      rw [e1', e2]
    · rw [← add_assoc]; exact w2

theorem GetSplits_toBinary64 (unmarshal : List UInt8 → Except String (List ExpenseSplit))
    (e : Expense) :
    Binary64.Expense.GetSplits (unmarshalBinary64 unmarshal) e.toBinary64 =
      match e.GetSplits unmarshal with
      | .error err => .error err
      | .ok splits => .ok (splits.map ExpenseSplit.toBinary64) := by
  unfold Binary64.Expense.GetSplits Expense.GetSplits unmarshalBinary64 Expense.toBinary64
  cases unmarshal e.SplitData <;> rfl

theorem processExpense_toBinary64 (unmarshal : List UInt8 → Except String (List ExpenseSplit))
    (m : List (String × Balance)) (e : Expense) (B : ℚ) (hm : WholeMap B m)
    (he : ∃ z : ℤ, e.Amount = (z : ℚ))
    (hs : ∀ s ∈ splitsOf unmarshal e, ∃ z : ℤ, s.Amount = (z : ℚ))
    (hB : B + (|e.Amount| + ((splitsOf unmarshal e).map (fun s => |s.Amount|)).sum)
      < 2 ^ 53) :
    Binary64.CalculateBalances.processExpense (unmarshalBinary64 unmarshal)
        (mapToBinary64 m) e.toBinary64 =
      mapToBinary64 (CalculateBalances.processExpense unmarshal m e) ∧
    WholeMap (B + (|e.Amount| + ((splitsOf unmarshal e).map (fun s => |s.Amount|)).sum))
      (CalculateBalances.processExpense unmarshal m e) := by
  have hrest : 0 ≤ ((splitsOf unmarshal e).map (fun s => |s.Amount|)).sum :=
    List.sum_nonneg (fun x hx => by
      obtain ⟨s', _, rfl⟩ := List.mem_map.1 hx
      exact abs_nonneg _)
  have h0 : 0 ≤ |e.Amount| := abs_nonneg _
  unfold Binary64.CalculateBalances.processExpense CalculateBalances.processExpense
  rw [GetSplits_toBinary64]
  cases hg : e.GetSplits unmarshal with
  | error err =>
    exact ⟨rfl, WholeMap_mono B _ m hm (by linarith)⟩
  | ok splits =>
    have hso : splitsOf unmarshal e = splits := by simp [splitsOf, hg]
    rw [hso] at hs hB hrest ⊢
    simp only []
    obtain ⟨e1, w1⟩ := mapUpdate_add_toBinary64 e.PaidBy e.Amount B he (by linarith) m hm
    obtain ⟨e2, w2⟩ := splits_fold_toBinary64 splits _ (B + |e.Amount|) w1 hs
      (by linarith)
    constructor
    · have e1' : Binary64.mapUpdate (mapToBinary64 m) (Expense.toBinary64 e).PaidBy
          (fun bal => { bal with Amount := F64.add bal.Amount (Expense.toBinary64 e).Amount }) =
          mapToBinary64 (mapUpdate m e.PaidBy
            (fun bal => { bal with Amount := bal.Amount + e.Amount })) := e1
      rw [e1', e2]
    · rw [← add_assoc]; exact w2

theorem expenses_fold_toBinary64 (unmarshal : List UInt8 → Except String (List ExpenseSplit))
    (expenses : List Expense) :
    ∀ (m : List (String × Balance)) (B : ℚ), WholeMap B m →
      (∀ e ∈ expenses, (∃ z : ℤ, e.Amount = (z : ℚ)) ∧
        ∀ s ∈ splitsOf unmarshal e, ∃ z : ℤ, s.Amount = (z : ℚ)) →
      B + (expenses.map (fun e =>
        |e.Amount| + ((splitsOf unmarshal e).map (fun s => |s.Amount|)).sum)).sum < 2 ^ 53 →
      (expenses.map Expense.toBinary64).foldl
          (Binary64.CalculateBalances.processExpense (unmarshalBinary64 unmarshal))
          (mapToBinary64 m) =
        mapToBinary64 (expenses.foldl (CalculateBalances.processExpense unmarshal) m) := by
  induction expenses with
  | nil => intro m B _ _ _; rfl
  | cons e rest ih =>
    intro m B hm hw hB
    simp only [List.map_cons, List.sum_cons] at hB
    have hrest : 0 ≤ (rest.map (fun e =>
        |e.Amount| + ((splitsOf unmarshal e).map (fun s => |s.Amount|)).sum)).sum :=
      List.sum_nonneg (fun x hx => by
        obtain ⟨e', _, rfl⟩ := List.mem_map.1 hx
        exact add_nonneg (abs_nonneg _) (List.sum_nonneg (fun y hy => by
          obtain ⟨s', _, rfl⟩ := List.mem_map.1 hy
          exact abs_nonneg _)))
    obtain ⟨e1, w1⟩ := processExpense_toBinary64 unmarshal m e B hm
      (hw e (List.mem_cons_self _ _)).1 (hw e (List.mem_cons_self _ _)).2 (by linarith)
    simp only [List.map_cons, List.foldl_cons]
    rw [e1]
    exact ih _ _ w1 (fun e' he' => hw e' (List.mem_cons_of_mem _ he')) (by linarith)

/-- On whole-number amounts whose magnitudes together stay below `2 ^ 53`, the binary64
`CalculateBalances` computes what the exact one computes. -/
theorem CalculateBalances_toBinary64
    (unmarshal : List UInt8 → Except String (List ExpenseSplit))
    (rangeOrder : List Binary64.Balance → List Binary64.Balance) (db : DB) (groupID : String)
    (expenses : List Expense) (group : Group)
    (he : db.findExpenses groupID = .ok expenses) (hg : db.firstGroup groupID = .ok group)
    (hwhole : WholeExpenses unmarshal expenses) :
    Binary64.CalculateBalances (unmarshalBinary64 unmarshal) rangeOrder db.toBinary64 groupID =
      .ok (rangeOrder (toBinary64 ((mapAddEach (CalculateBalances.init group.Members)
        (fun k => (expenses.map (fun e => contribution unmarshal e k)).sum)).map Prod.snd))) := by
  have hinit : WholeMap 0 (CalculateBalances.init group.Members) := by
    intro kv hkv
    have := init_amount_zero group.Members kv hkv
    exact ⟨⟨0, by simp [this]⟩, by simp [this]⟩
  unfold Binary64.CalculateBalances DB.toBinary64
  simp only [he, hg]
  rw [init_toBinary64,
    expenses_fold_toBinary64 unmarshal expenses _ 0 hinit hwhole.1
      (by rw [zero_add]; exact hwhole.2),
    expenses_fold unmarshal expenses _ (init_keys_nodup group.Members)]
  simp [mapToBinary64, toBinary64, Function.comp_def]

/-! ## Settled claims: the binary64 balance computation -/

/-- C1 fails on the binary64 code once an addition rounds. With the one member A, who
paid 0.3 twice, each time with the split A 0.1, `CalculateBalances` returns for A the
binary64 value nearest to 0.4, while the total paid less the total owed is
0.39999999999999997 (`7205759403792793 / 2 ^ 54`), whether the two totals are added up in
binary64 or exactly. -/
theorem CalculateBalances_binary64_rounds :
    Binary64.CalculateBalances Binary64.sampleUnmarshal id Binary64.tenthsDB "g" =
      .ok [⟨"A", "Ann", round64 (4 / 10)⟩] ∧
    round64 (4 / 10) = .fin (3602879701896397 / 2 ^ 53) ∧
    F64.sub (F64.add (round64 (3 / 10)) (round64 (3 / 10)))
        (F64.add (round64 (1 / 10)) (round64 (1 / 10))) =
      .fin (7205759403792793 / 2 ^ 54) ∧
    (F64.toRat (round64 (3 / 10)) + F64.toRat (round64 (3 / 10)))
        - (F64.toRat (round64 (1 / 10)) + F64.toRat (round64 (1 / 10))) =
      7205759403792793 / 2 ^ 54 ∧
    round64 (4 / 10) ≠ .fin (7205759403792793 / 2 ^ 54) :=
  ⟨by decide!, by decide!, by decide!, by decide!, by decide!⟩

/-- C1 as amended (whole-number amounts): for every roster with distinct ids and every
list of expenses whose split payloads all decode, whose amounts and split amounts are
whole numbers with magnitudes that together stay below `2 ^ 53`, the binary64
`CalculateBalances` returns exactly one `Balance` per roster member (in some order), and
the amount of member `m` is the sum of `Amount` over the expenses with `PaidBy = m` minus
the sum of split `Amount` over all splits with `UserID = m`. -/
theorem CalculateBalances_binary64_whole
    (unmarshal : List UInt8 → Except String (List ExpenseSplit))
    (rangeOrder : List Binary64.Balance → List Binary64.Balance) (db : DB) (groupID : String)
    (expenses : List Expense) (group : Group)
    (hord : ∀ l, (rangeOrder l).Perm l)
    (he : db.findExpenses groupID = .ok expenses) (hg : db.firstGroup groupID = .ok group)
    (hids : (group.Members.map User.ID).Nodup)
    (hdec : ∀ e ∈ expenses, ∃ splits, e.GetSplits unmarshal = .ok splits)
    (hwhole : WholeExpenses unmarshal expenses) :
    ∃ result,
      Binary64.CalculateBalances (unmarshalBinary64 unmarshal) rangeOrder db.toBinary64
        groupID = .ok result ∧
      result.Perm (group.Members.map (fun u =>
        ({ UserID := u.ID, Name := u.Name,
           Amount := .fin (totalPaid expenses u.ID - totalOwed unmarshal expenses u.ID) }
          : Binary64.Balance))) := by
  refine ⟨_, CalculateBalances_toBinary64 unmarshal rangeOrder db groupID expenses group
    he hg hwhole, ?_⟩
  refine (hord _).trans ?_
  rw [init_of_nodup group.Members hids]
  simp only [mapAddEach, toBinary64, List.map_map]
  apply List.Perm.of_eq
  apply List.map_congr_left
  intro u _
  simp [Balance.toBinary64, sum_contribution unmarshal expenses u.ID hdec]

theorem CalculateBalances_binary64_whole_witness :
    (sampleDB.findExpenses "g1" = .ok [⟨"e1", "g1", "A", 90, [65, 30, 66, 30, 67, 30]⟩] ∧
      sampleDB.firstGroup "g1" = .ok ⟨"g1", sampleMembers⟩ ∧
      (sampleMembers.map User.ID).Nodup) ∧
    (∃ result,
      Binary64.CalculateBalances (unmarshalBinary64 sampleUnmarshal) id sampleDB.toBinary64
        "g1" = .ok result ∧
      result.Perm (sampleMembers.map (fun u =>
        ({ UserID := u.ID, Name := u.Name,
           Amount := .fin
            (totalPaid [⟨"e1", "g1", "A", 90, [65, 30, 66, 30, 67, 30]⟩] u.ID
              - totalOwed sampleUnmarshal [⟨"e1", "g1", "A", 90, [65, 30, 66, 30, 67, 30]⟩]
                  u.ID) }
          : Binary64.Balance)))) ∧
    Binary64.CalculateBalances (unmarshalBinary64 sampleUnmarshal) id sampleDB.toBinary64 "g1" =
      .ok [⟨"A", "Ann", .fin 60⟩, ⟨"B", "Bob", .fin (-30)⟩, ⟨"C", "Cy", .fin (-30)⟩] :=
  ⟨⟨by decide, by decide, by decide⟩,
    CalculateBalances_binary64_whole sampleUnmarshal id sampleDB "g1"
      [⟨"e1", "g1", "A", 90, [65, 30, 66, 30, 67, 30]⟩] ⟨"g1", sampleMembers⟩
      (fun _ => List.Perm.refl _) (by decide) (by decide) (by decide)
      (by
        intro e h
        rw [List.mem_singleton.1 h]
        exact ⟨[⟨"A", 30⟩, ⟨"B", 30⟩, ⟨"C", 30⟩], by decide⟩)
      (by
        have hs : splitsOf sampleUnmarshal
            (⟨"e1", "g1", "A", 90, [65, 30, 66, 30, 67, 30]⟩ : Expense) =
            [⟨"A", 30⟩, ⟨"B", 30⟩, ⟨"C", 30⟩] := by decide
        refine ⟨?_, ?_⟩
        · intro e h
          rw [List.mem_singleton.1 h, hs]
          refine ⟨⟨90, by norm_num⟩, ?_⟩
          intro s hs'
          simp only [List.mem_cons, List.mem_singleton, List.not_mem_nil, or_false] at hs'
          rcases hs' with rfl | rfl | rfl <;> exact ⟨30, by norm_num⟩
        · simp only [List.map_cons, List.map_nil, List.sum_cons, List.sum_nil, hs]
          norm_num [abs_of_nonneg]),
    by decide!⟩

end BillBreaker
